import Mathlib

/-!
# Notification router of zenfeed (`pkg/notify/route/route.go`)

A shallow embedding of the routing tree matcher, the label grouper, the
similarity compressor and the `Route` orchestration, followed by the
properties proved about them.

Modelling conventions

* A Go `string` is a Lean `String`; the Go comparison `<` on strings is the
  lexicographic order of `String`.
* A Go `float32` is a number, an infinity or `NaN` (`Float32`): the router only
  compares scores with `>=`, and no comparison holds when one side is `NaN`.
* A Go `error` is its message; `errors.Wrap err msg` prefixes the message.
* A function that returns `(value, error)` returns a pair whose second
  component is `none` for a `nil` error.  A run-time panic (dereferencing a
  `nil` threshold pointer) is the outer `none` of an `Option`.
* A pointer is a pair of an address and the value it points to; maps keyed by
  pointers compare addresses only.  A Go map is an association list in
  insertion order, and `range` over it visits the entries in an order chosen
  by a `Sched`, since Go leaves that order unspecified.
-/

namespace Zenfeed

/-! ## Imported packages -/

/-- Values of the Go type `float32`, as far as the router looks at them: a number, one of
the two infinities, or `NaN`. -/
inductive Float32 where
  | num (q : ℚ)
  | posInf
  | negInf
  | NaN
deriving DecidableEq

/-- The Go comparison `a <= b` of two `float32` values (`b >= a` is the same comparison):
the order of the numbers with the infinities at its ends, and false when one side is
`NaN`. -/
def Float32.le : Float32 → Float32 → Prop
  | .NaN, _ => False
  | _, .NaN => False
  | .negInf, _ => True
  | _, .posInf => True
  | .num x, .num y => x ≤ y
  | .posInf, _ => False
  | .num _, .negInf => False

/-- The Go comparison `a < b` of two `float32` values: the order of the numbers with the
infinities at its ends, and false when one side is `NaN`. -/
def Float32.lt : Float32 → Float32 → Prop
  | .NaN, _ => False
  | _, .NaN => False
  | .posInf, _ => False
  | _, .negInf => False
  | .num x, .num y => x < y
  | .negInf, _ => True
  | .num _, .posInf => True

instance Float32.instLE : LE Float32 := ⟨Float32.le⟩

instance Float32.instLT : LT Float32 := ⟨Float32.lt⟩

instance Float32.decLe (a b : Float32) : Decidable (a ≤ b) :=
  match a, b with
  | .NaN, .num _ => isFalse (fun h => h)
  | .NaN, .posInf => isFalse (fun h => h)
  | .NaN, .negInf => isFalse (fun h => h)
  | .NaN, .NaN => isFalse (fun h => h)
  | .num _, .NaN => isFalse (fun h => h)
  | .posInf, .NaN => isFalse (fun h => h)
  | .negInf, .NaN => isFalse (fun h => h)
  | .negInf, .num _ => isTrue trivial
  | .negInf, .posInf => isTrue trivial
  | .negInf, .negInf => isTrue trivial
  | .num _, .posInf => isTrue trivial
  | .posInf, .posInf => isTrue trivial
  | .num x, .num y => inferInstanceAs (Decidable (x ≤ y))
  | .posInf, .num _ => isFalse (fun h => h)
  | .posInf, .negInf => isFalse (fun h => h)
  | .num _, .negInf => isFalse (fun h => h)

instance Float32.decLt (a b : Float32) : Decidable (a < b) :=
  match a, b with
  | .NaN, .num _ => isFalse (fun h => h)
  | .NaN, .posInf => isFalse (fun h => h)
  | .NaN, .negInf => isFalse (fun h => h)
  | .NaN, .NaN => isFalse (fun h => h)
  | .num _, .NaN => isFalse (fun h => h)
  | .posInf, .NaN => isFalse (fun h => h)
  | .negInf, .NaN => isFalse (fun h => h)
  | .posInf, .num _ => isFalse (fun h => h)
  | .posInf, .posInf => isFalse (fun h => h)
  | .posInf, .negInf => isFalse (fun h => h)
  | .num _, .negInf => isFalse (fun h => h)
  | .negInf, .negInf => isFalse (fun h => h)
  | .num x, .num y => inferInstanceAs (Decidable (x < y))
  | .negInf, .num _ => isTrue trivial
  | .negInf, .posInf => isTrue trivial
  | .num _, .posInf => isTrue trivial

/-- A whole-number literal of type `float32`. -/
instance Float32.instOfNat (n : Nat) : OfNat Float32 n := ⟨.num n⟩

/-- The Go type `[][]float32` of a feed's embedding vectors; `nil` is `[]`. -/
abbrev Vectors := List (List Float32)

/-- A Go `error`, identified with its message. -/
abbrev error := String

/-- The constructor `errors.New` of `github.com/pkg/errors`. -/
def errors.New (msg : String) : error := msg

/-- The function `errors.Wrap` of `github.com/pkg/errors`: the message is put in front. -/
def errors.Wrap (err : error) (msg : String) : error := msg ++ ": " ++ err

/-- Modelled from the spec: the type `model.Label` of `pkg/model`, a key with its value. -/
structure model.Label where
  Key : String
  Value : String
deriving DecidableEq, Repr

/-- Modelled from the spec: the type `model.Labels` of `pkg/model`, a sequence of labels;
the zero value (`nil`) is the empty list. -/
abbrev model.Labels := List model.Label

/-- Modelled from the spec: `model.Labels.Get` of `pkg/model`, the value of the label
with the given key, and the empty string when the label is absent. -/
def model.Labels.Get (ls : model.Labels) (key : String) : String :=
  match ls.find? (fun l => l.Key == key) with
  | some l => l.Value
  | none => ""

/-- Modelled from the spec: the constant `model.LabelSource` of `pkg/model`, the built-in
"source" label key. -/
def model.LabelSource : String := "source"

/-- The methods `Put` and `String` of `model.Labels` (`pkg/model`), which the router
calls but whose code is not part of this development: the router is parametric in them. -/
structure model.LabelsAPI where
  Put : model.Labels → String → String → Bool → model.Labels
  String : model.Labels → String

/-- Modelled from the spec: the type `model.Feed` of `pkg/model`, a classified content
item with its identity and its label set. -/
structure model.Feed where
  ID : Nat
  Labels : model.Labels
deriving DecidableEq, Repr

/-- Modelled from the spec: the type `block.FeedVO` of `pkg/storage/feed/block`, an input
feed (the embedded `*model.Feed`, whose labels the router reads) together with its
embedding vectors. -/
structure block.FeedVO where
  Feed : model.Feed
  Vectors : Vectors
deriving DecidableEq

/-- Modelled from the spec: the type `rule.Result` of `pkg/schedule/rule`, the input of
`Route`: the rule name, the timestamp (a number here) and the batch of feeds. -/
structure rule.Result where
  Rule : String
  Time : Nat
  Feeds : List block.FeedVO

/-- The function `ptr.To` of `k8s.io/utils/ptr`: a pointer to a fresh copy of the value. -/
def ptr.To (v : Float32) : Option Float32 := some v

/-! ## Configuration: `Route`, `SubRoute`, `matcher` -/

/-- The struct `matcher`. -/
structure matcher where
  key : String
  value : String
  equal : Bool
deriving DecidableEq, Repr

mutual
/-- The struct `Route`; the threshold pointer is `none` when `nil`. -/
inductive Route where
  | mk (GroupBy : List String) (CompressByRelatedThreshold : Option Float32)
      (Receivers : List String) (SubRoutes : List SubRoute)
/-- The struct `SubRoute`: the embedded `Route`, the raw matcher strings and the parsed
matchers. -/
inductive SubRoute where
  | mk (Route : Route) (Matchers : List String) (matchers : List matcher)
end

/-- The slice type `SubRoutes`. -/
abbrev SubRoutes := List SubRoute

def Route.GroupBy : Route → List String
  | .mk g _ _ _ => g

def Route.CompressByRelatedThreshold : Route → Option Float32
  | .mk _ t _ _ => t

def Route.Receivers : Route → List String
  | .mk _ _ rc _ => rc

def Route.SubRoutes : Route → SubRoutes
  | .mk _ _ _ s => s

def SubRoute.Route : SubRoute → Route
  | .mk r _ _ => r

def SubRoute.Matchers : SubRoute → List String
  | .mk _ ms _ => ms

def SubRoute.matchers : SubRoute → List matcher
  | .mk _ _ m => m

/-- The struct `Config`, which embeds the top-level `Route`. -/
structure Config where
  Route : Route

/-- A `*SubRoute` into a configuration tree: the address is the sequence of child
indices that leads from the receiver to the node. -/
structure SubRoutePtr where
  addr : List Nat
  val : SubRoute

/-- A `*Route`: the address is `none` for `&config.Route` and the address of the
sub-route for `&matched.Route`. -/
structure RoutePtr where
  addr : Option (List Nat)
  val : Route

/-! ## Matching -/

/-- The matcher loop of `SubRoute.Match`: `false` as soon as one matcher fails
(`return nil`), `true` when the loop runs to its end. -/
def SubRoute.Match.matchersLoop (feed : block.FeedVO) : List matcher → Bool
  | [] => true
  | m :: rest =>
    let fv := model.Labels.Get feed.Feed.Labels m.key
    match m.equal with
    | true => if fv ≠ m.value then false else SubRoute.Match.matchersLoop feed rest
    | false => if fv = m.value then false else SubRoute.Match.matchersLoop feed rest

mutual
/-- The method `(*SubRoute).Match`: the nested sub-routes first, then the own matchers. -/
def SubRoute.Match (feed : block.FeedVO) : SubRoute → Option SubRoutePtr
  | .mk (.mk g t rc subs) ms m =>
    match SubRoutes.Match.loop feed 0 subs with
    | some matched => some matched
    | none =>
      if SubRoute.Match.matchersLoop feed m then some ⟨[], .mk (.mk g t rc subs) ms m⟩
      else none
/-- The loop of `SubRoutes.Match` (and the first loop of `SubRoute.Match`), at child
index `i`. -/
def SubRoutes.Match.loop (feed : block.FeedVO) (i : Nat) : List SubRoute → Option SubRoutePtr
  | [] => none
  | sub :: rest =>
    match SubRoute.Match feed sub with
    | some matched => some ⟨i :: matched.addr, matched.val⟩
    | none => SubRoutes.Match.loop feed (i + 1) rest
end

/-- The method `SubRoutes.Match`. -/
def SubRoutes.Match (s : SubRoutes) (feed : block.FeedVO) : Option SubRoutePtr :=
  SubRoutes.Match.loop feed 0 s

/-! ## Parsing and validation -/

/-- The scan of `strings.Split` for a non-empty separator: `skip` counts the characters
of a separator occurrence still to be passed over, `cur` holds the current part in
reverse. -/
def strings.Split.scan (sep : List Char) : List Char → Nat → List Char → List (List Char)
  | [], _, cur => [cur.reverse]
  | _ :: cs, skip + 1, cur => strings.Split.scan sep cs skip cur
  | c :: cs, 0, cur =>
    if sep.isPrefixOf (c :: cs) then cur.reverse :: strings.Split.scan sep cs (sep.length - 1) []
    else strings.Split.scan sep cs 0 (c :: cur)

/-- The function `strings.Split` of the Go standard library, for a non-empty separator:
the parts of `s` between the occurrences of `sep`, found from left to right without
overlap. -/
def strings.Split (s sep : String) : List String :=
  (strings.Split.scan sep.toList s.toList 0 []).map String.mk

def matcherEqual : String := "="

def matcherNotEqual : String := "!="

/-- The function `parseMatcher`. -/
def parseMatcher (filter : String) : matcher × Option error :=
  let parts := strings.Split filter matcherNotEqual
  let st : List String × Bool :=
    if parts.length ≠ 2 then (strings.Split filter matcherEqual, true) else (parts, false)
  match st.1 with
  | [k, v] => (⟨k, v, st.2⟩, none)
  | _ => (⟨"", "", false⟩, some (errors.New "invalid matcher"))

/-- The matcher loop of `SubRoute.Validate` over the slice made by
`make([]matcher, len(r.Matchers))`: the entries after a rejected string keep the zero
value. -/
def SubRoute.Validate.parseLoop : List String → List matcher × Option error
  | [] => ([], none)
  | s :: rest =>
    match parseMatcher s with
    | (_, some err) =>
      (List.replicate (rest.length + 1) ⟨"", "", false⟩, some (errors.Wrap err "invalid matcher"))
    | (m, none) =>
      match SubRoute.Validate.parseLoop rest with
      | (ms, e) => (m :: ms, e)

mutual
/-- The method `(*SubRoute).Validate`: the receiver after the call, and the error. -/
def SubRoute.Validate : SubRoute → SubRoute × Option error
  | .mk (.mk g t rc subs) ms m =>
    let g1 := if g.length = 0 then [model.LabelSource] else g
    let t1 := match t with
      | none => ptr.To (Float32.num (85 / 100))
      | some v => some v
    if ms.length = 0 then (.mk (.mk g1 t1 rc subs) ms m, some (errors.New "matchers is required"))
    else
      match SubRoute.Validate.parseLoop ms with
      | (m1, some err) => (.mk (.mk g1 t1 rc subs) ms m1, some err)
      | (m1, none) =>
        match SubRoutes.Validate.loop subs with
        | (subs1, e) => (.mk (.mk g1 t1 rc subs1) ms m1, e)
/-- The loop over the sub-routes in `SubRoute.Validate` and in `Config.Validate`. -/
def SubRoutes.Validate.loop : List SubRoute → List SubRoute × Option error
  | [] => ([], none)
  | sub :: rest =>
    match SubRoute.Validate sub with
    | (sub1, some err) => (sub1 :: rest, some (errors.Wrap err "invalid sub_route"))
    | (sub1, none) =>
      match SubRoutes.Validate.loop rest with
      | (rest1, e) => (sub1 :: rest1, e)
end

/-- The method `(*Config).Validate`: the configuration after the call, and the error. -/
def Config.Validate (c : Config) : Config × Option error :=
  let g1 := if c.Route.GroupBy.length = 0 then [model.LabelSource] else c.Route.GroupBy
  let t1 := match c.Route.CompressByRelatedThreshold with
    | none => ptr.To (Float32.num (85 / 100))
    | some v => some v
  match SubRoutes.Validate.loop c.Route.SubRoutes with
  | (subs1, e) => (⟨.mk g1 t1 c.Route.Receivers subs1⟩, e)

/-! ## Output data -/

/-- The struct `Dependencies`: the injected similarity score. -/
structure Dependencies where
  RelatedScore : Vectors → Vectors → Float32 × Option error

/-- The struct `Feed` of the output: the feed, its related feeds and its vectors. -/
inductive Feed where
  | mk (feed : model.Feed) (Related : List Feed) (Vectors : Vectors)

/-- The embedded `*model.Feed` of an output feed. -/
def Feed.feed : Feed → model.Feed
  | .mk f _ _ => f

def Feed.Related : Feed → List Feed
  | .mk _ r _ => r

def Feed.Vectors : Feed → Vectors
  | .mk _ _ v => v

/-- The struct `FeedGroup`. -/
structure FeedGroup where
  Name : String
  Time : Nat
  Labels : model.Labels
  Feeds : List Feed

/-- The struct `Group`, which embeds `FeedGroup`. -/
structure Group where
  FeedGroup : FeedGroup
  Receivers : List String

/-- The promoted field `Name` of the embedded `FeedGroup`. -/
def Group.Name (g : Group) : String := g.FeedGroup.Name

/-- A `*model.Labels`: the address of the `group` variable it was taken from (the number
of the loop iteration that declared it) and the label set. -/
structure LabelsPtr where
  addr : Nat
  val : model.Labels

/-- Pointer equality on `*Route`. -/
def RoutePtr.same (a b : RoutePtr) : Bool := decide (a.addr = b.addr)

/-- Pointer equality on `*model.Labels`. -/
def LabelsPtr.same (a b : LabelsPtr) : Bool := decide (a.addr = b.addr)

/-! ## Maps, iteration order, sorting -/

/-- The statement `m[k] = append(m[k], f)` on a map of slices. -/
def mapAppend {P F : Type} (same : P → P → Bool) : List (P × List F) → P → F → List (P × List F)
  | [], k, f => [(k, [f])]
  | (k1, fs) :: rest, k, f =>
    if same k1 k then (k1, fs ++ [f]) :: rest else (k1, fs) :: mapAppend same rest k f

/-- The statement `m[k] = v`. -/
def mapSet {P V : Type} (same : P → P → Bool) : List (P × V) → P → V → List (P × V)
  | [], k, v => [(k, v)]
  | (k1, v1) :: rest, k, v =>
    if same k1 k then (k1, v) :: rest else (k1, v1) :: mapSet same rest k v

/-- The two-value lookup `v, exists := m[k]` on a map with string keys. -/
def mapGet {V : Type} : List (String × V) → String → Option V
  | [], _ => none
  | (k1, v) :: rest, k => if k1 = k then some v else mapGet rest k

/-- A rearrangement of a sequence that keeps its elements. -/
structure Reorder (α : Type) where
  order : List α → List α
  perm : ∀ l, (order l).Perm l

/-- The choices Go leaves open in one call of `Route`: the order in which each `range`
visits its map, and how `sort.Slice`, which is not stable, arranges the slice. -/
structure Sched where
  feedsByRoute : Reorder (RoutePtr × List block.FeedVO)
  groupedFeeds : Reorder (LabelsPtr × List block.FeedVO)
  relatedGroups : Reorder (LabelsPtr × List Feed)
  sortSlice : Reorder Group

/-- Insertion of one element into a slice sorted by `less`. -/
def sort.Slice.insert {α : Type} (less : α → α → Bool) (x : α) : List α → List α
  | [] => [x]
  | y :: ys => if less x y then x :: y :: ys else y :: sort.Slice.insert less x ys

/-- The function `sort.Slice` of the Go standard library: the slice is sorted by `less`;
elements that `less` does not separate may come out in any order (`pre`). -/
def sort.Slice {α : Type} (pre : Reorder α) (less : α → α → Bool) (l : List α) : List α :=
  (pre.order l).foldr (sort.Slice.insert less) []

/-! ## The router -/

/-- The target route of one feed in `router.routeFeeds`: the route of the matched
sub-route, and the default route of the configuration when nothing matched. -/
def router.routeFeeds.targetRoute (config : Config) (feed : block.FeedVO) : RoutePtr :=
  match SubRoutes.Match config.Route.SubRoutes feed with
  | some matched => ⟨some matched.addr, matched.val.Route⟩
  | none => ⟨none, config.Route⟩

/-- The method `router.routeFeeds`. -/
def router.routeFeeds (config : Config) (feeds : List block.FeedVO) :
    List (RoutePtr × List block.FeedVO) :=
  feeds.foldl
    (fun feedsByRoute feed =>
      mapAppend RoutePtr.same feedsByRoute (router.routeFeeds.targetRoute config feed) feed)
    []

/-- The inner loop of `router.groupFeedsByLabels`: the label set of one feed, built from
the zero value by one `Put` per group-by key. -/
def router.groupFeedsByLabels.group (api : model.LabelsAPI) (route : RoutePtr)
    (feed : block.FeedVO) : model.Labels :=
  route.val.GroupBy.foldl
    (fun group key => api.Put group key (model.Labels.Get feed.Feed.Labels key) true) []

/-- The outer loop of `router.groupFeedsByLabels`, at iteration `n`, with the maps
`labelGroups` and `groupedFeeds` built so far. -/
def router.groupFeedsByLabels.loop (api : model.LabelsAPI) (route : RoutePtr) :
    List block.FeedVO → Nat → List (String × LabelsPtr) → List (LabelsPtr × List block.FeedVO) →
    List (LabelsPtr × List block.FeedVO)
  | [], _, _, groupedFeeds => groupedFeeds
  | feed :: rest, n, labelGroups, groupedFeeds =>
    let group := router.groupFeedsByLabels.group api route feed
    let groupKey := api.String group
    match mapGet labelGroups groupKey with
    | some labelGroup =>
      router.groupFeedsByLabels.loop api route rest (n + 1) labelGroups
        (mapAppend LabelsPtr.same groupedFeeds labelGroup feed)
    | none =>
      router.groupFeedsByLabels.loop api route rest (n + 1)
        (labelGroups ++ [(groupKey, ⟨n, group⟩)])
        (mapAppend LabelsPtr.same groupedFeeds ⟨n, group⟩ feed)

/-- The method `router.groupFeedsByLabels`. -/
def router.groupFeedsByLabels (api : model.LabelsAPI) (route : RoutePtr)
    (feeds : List block.FeedVO) : List (LabelsPtr × List block.FeedVO) :=
  router.groupFeedsByLabels.loop api route feeds 0 [] []

/-- The inner loop of `router.compressRelatedFeedsForGroup` over the representatives:
whether one of them took the feed, and the representatives afterwards. -/
def router.compressRelatedFeedsForGroup.tryJoin (deps : Dependencies) (route : RoutePtr)
    (feed : block.FeedVO) : List Feed → Option (Except error (Bool × List Feed))
  | [] => some (.ok (false, []))
  | rep :: rest =>
    match deps.RelatedScore rep.Vectors feed.Vectors with
    | (_, some err) => some (.error (errors.Wrap err "related score"))
    | (score, none) =>
      match route.val.CompressByRelatedThreshold with
      | none => none
      | some threshold =>
        if score ≥ threshold then
          some (.ok (true,
            Feed.mk rep.feed (rep.Related ++ [Feed.mk feed.Feed [] []]) rep.Vectors :: rest))
        else
          match router.compressRelatedFeedsForGroup.tryJoin deps route feed rest with
          | none => none
          | some (.error e) => some (.error e)
          | some (.ok (foundRelated, rest1)) => some (.ok (foundRelated, rep :: rest1))

/-- The outer loop of `router.compressRelatedFeedsForGroup`, with the representatives
`feedsWithRelated` found so far. -/
def router.compressRelatedFeedsForGroup.loop (deps : Dependencies) (route : RoutePtr) :
    List block.FeedVO → List Feed → Option (Except error (List Feed))
  | [], feedsWithRelated => some (.ok feedsWithRelated)
  | feed :: rest, feedsWithRelated =>
    match router.compressRelatedFeedsForGroup.tryJoin deps route feed feedsWithRelated with
    | none => none
    | some (.error e) => some (.error e)
    | some (.ok (true, joined)) => router.compressRelatedFeedsForGroup.loop deps route rest joined
    | some (.ok (false, _)) =>
      router.compressRelatedFeedsForGroup.loop deps route rest
        (feedsWithRelated ++ [Feed.mk feed.Feed [] feed.Vectors])

/-- The method `router.compressRelatedFeedsForGroup`. -/
def router.compressRelatedFeedsForGroup (deps : Dependencies) (route : RoutePtr)
    (feeds : List block.FeedVO) : Option (List Feed × Option error) :=
  match router.compressRelatedFeedsForGroup.loop deps route feeds [] with
  | none => none
  | some (.error e) => some ([], some e)
  | some (.ok feedsWithRelated) => some (feedsWithRelated, none)

/-- The loop of `router.compressRelatedFeeds` over the entries of `groupedFeeds`, with
the map `result` built so far. -/
def router.compressRelatedFeeds.loop (deps : Dependencies) (route : RoutePtr) :
    List (LabelsPtr × List block.FeedVO) → List (LabelsPtr × List Feed) →
    Option (Except error (List (LabelsPtr × List Feed)))
  | [], result => some (.ok result)
  | (ls, feeds) :: rest, result =>
    match router.compressRelatedFeedsForGroup deps route feeds with
    | none => none
    | some (_, some err) => some (.error (errors.Wrap err "compress related feeds"))
    | some (fs, none) =>
      router.compressRelatedFeeds.loop deps route rest (mapSet LabelsPtr.same result ls fs)

/-- The method `router.compressRelatedFeeds`. -/
def router.compressRelatedFeeds (sched : Sched) (deps : Dependencies) (route : RoutePtr)
    (groupedFeeds : List (LabelsPtr × List block.FeedVO)) :
    Option (List (LabelsPtr × List Feed) × Option error) :=
  match router.compressRelatedFeeds.loop deps route (sched.groupedFeeds.order groupedFeeds) [] with
  | none => none
  | some (.error e) => some ([], some e)
  | some (.ok result) => some (result, none)

/-- The group that `router.Route` builds for one entry of `relatedGroups`. -/
def router.Route.group (api : model.LabelsAPI) (result : rule.Result) (route : RoutePtr)
    (entry : LabelsPtr × List Feed) : Group :=
  { FeedGroup :=
      { Name := result.Rule ++ "  " ++ api.String entry.1.val
        Time := result.Time
        Labels := entry.1.val
        Feeds := entry.2 }
    Receivers := route.val.Receivers }

/-- The loop of `router.Route` over the entries of `feedsByRoute`, with the `groups`
appended so far. -/
def router.Route.loop (api : model.LabelsAPI) (sched : Sched) (deps : Dependencies)
    (result : rule.Result) :
    List (RoutePtr × List block.FeedVO) → List Group → Option (Except error (List Group))
  | [], groups => some (.ok groups)
  | (route, feeds) :: rest, groups =>
    let groupedFeeds := router.groupFeedsByLabels api route feeds
    match router.compressRelatedFeeds sched deps route groupedFeeds with
    | none => none
    | some (_, some err) => some (.error (errors.Wrap err "compress related feeds"))
    | some (relatedGroups, none) =>
      router.Route.loop api sched deps result rest
        (groups ++ (sched.relatedGroups.order relatedGroups).map (router.Route.group api result route))

/-- The method `router.Route`, for the configuration `config` of the router. -/
def router.Route (api : model.LabelsAPI) (sched : Sched) (deps : Dependencies) (config : Config)
    (result : rule.Result) : Option (List Group × Option error) :=
  let feedsByRoute := router.routeFeeds config result.Feeds
  match router.Route.loop api sched deps result (sched.feedsByRoute.order feedsByRoute) [] with
  | none => none
  | some (.error e) => some ([], some e)
  | some (.ok groups) =>
    some (sort.Slice sched.sortSlice (fun a b => decide (a.Name < b.Name)) groups, none)

/-! ## Notions used to state the properties -/

/-- Evaluation of one matcher on a feed, in the words of the specification: with `fv` the
feed's label value for the matcher's key, an equality matcher holds iff `fv` equals the
matcher's value, an inequality matcher iff it differs. -/
def matcher.holds (feed : block.FeedVO) (m : matcher) : Bool :=
  if m.equal then decide (model.Labels.Get feed.Feed.Labels m.key = m.value)
  else decide (model.Labels.Get feed.Feed.Labels m.key ≠ m.value)

/-- All of the sub-route's own matchers hold for the feed (logical AND). -/
def SubRoute.ownMatch (feed : block.FeedVO) (r : SubRoute) : Bool :=
  r.matchers.all (matcher.holds feed)

mutual
/-- The sub-routes below and including `r` in depth-first post-order, each with its
address relative to `r`: the children in declared order first, then `r` itself. -/
def SubRoute.postOrder : SubRoute → List SubRoutePtr
  | .mk (.mk g t rc subs) ms m =>
    SubRoutes.postOrder 0 subs ++ [⟨[], .mk (.mk g t rc subs) ms m⟩]
/-- The post-order of a list of siblings, the first of which has child index `i`. -/
def SubRoutes.postOrder (i : Nat) : List SubRoute → List SubRoutePtr
  | [] => []
  | sub :: rest =>
    (SubRoute.postOrder sub).map (fun p => ⟨i :: p.addr, p.val⟩) ++ SubRoutes.postOrder (i + 1) rest
end

/-- A feed with the given identity and labels, without vectors. -/
def exampleFeed (id : Nat) (labels : List (String × String)) : block.FeedVO :=
  ⟨⟨id, labels.map (fun kv => ⟨kv.1, kv.2⟩)⟩, []⟩

/-- A sub-route as configured, before validation. -/
def exampleSubRoute (receivers : List String) (Matchers : List String) (subs : List SubRoute) :
    SubRoute :=
  .mk (.mk [] none receivers subs) Matchers []

/-- The leaf sub-route `B` with the matcher `env=prod`, validated. -/
def exampleB : SubRoute := (SubRoute.Validate (exampleSubRoute ["b"] ["env=prod"] [])).1

/-- The sub-route `A` with the matcher `team=infra` and the child `B`, validated. -/
def exampleA : SubRoute :=
  (SubRoute.Validate (exampleSubRoute ["a"] ["team=infra"] [exampleSubRoute ["b"] ["env=prod"] []])).1

/-- The leaf sub-route with the matcher `team=infra`, validated. -/
def exampleLeafA : SubRoute := (SubRoute.Validate (exampleSubRoute ["a"] ["team=infra"] [])).1

/-- The sub-route with the matchers `env=prod` and `team!=infra` as configured. -/
def exampleAnd : SubRoute := exampleSubRoute ["a"] ["env=prod", "team!=infra"] []

/-- The feeds that appear in an output feed: the feed itself and the entries of its
related list. -/
def Feed.withRelated (rep : Feed) : List model.Feed := rep.feed :: rep.Related.map Feed.feed

/-- The feeds that appear in a list of representatives, each with its related list. -/
def Feed.listed : List Feed → List model.Feed
  | [] => []
  | rep :: rest => rep.withRelated ++ Feed.listed rest

/-- The feeds that appear in a list of groups. -/
def Group.listed : List Group → List model.Feed
  | [] => []
  | g :: rest => Feed.listed g.FeedGroup.Feeds ++ Group.listed rest

/-- A similarity score that never fails and gives every pair the score `score`. -/
def exampleScore (score : Float32) : Dependencies := ⟨fun _ _ => (score, none)⟩

/-- A route with the threshold `0.85` and the receiver `r`. -/
def exampleRoute : RoutePtr := ⟨none, .mk ["source"] (some (Float32.num (85 / 100))) ["r"] []⟩

/-- A feed with the given identity, labelled `source=A`, with one vector. -/
def exampleVO (id : Nat) : block.FeedVO := ⟨⟨id, [⟨"source", "A"⟩]⟩, [[1, 0]]⟩

/-- The representative that `compressRelatedFeedsForGroup` creates for a feed that no
earlier representative absorbs. -/
def Feed.representative (feed : block.FeedVO) : Feed := Feed.mk feed.Feed [] feed.Vectors

/-- The entry that `compressRelatedFeedsForGroup` appends to a related list. -/
def Feed.relatedEntry (feed : block.FeedVO) : Feed := Feed.mk feed.Feed [] []

/-- The representative `rep` after it has absorbed `feed`. -/
def Feed.absorb (rep : Feed) (feed : block.FeedVO) : Feed :=
  Feed.mk rep.feed (rep.Related ++ [Feed.relatedEntry feed]) rep.Vectors

/-- First-match placement of the feeds `done` in the representatives `fwr`: every
representative carries the feed and vectors of a placed feed, and its score against no
earlier representative reaches the threshold; every entry of its related list is a
placed feed whose score against it reaches the threshold and whose score against no
earlier representative does.  The representative's vectors are the first argument of the
score. -/
def FirstMatch (deps : Dependencies) (thr : Float32) (done : List block.FeedVO)
    (fwr : List Feed) : Prop :=
  ∀ (i : Nat) (ri : Feed), fwr[i]? = some ri →
    (∃ x ∈ done, ri.feed = x.Feed ∧ ri.Vectors = x.Vectors)
    ∧ (∀ (k : Nat) (rk : Feed), k < i → fwr[k]? = some rk →
        ¬ thr ≤ (deps.RelatedScore rk.Vectors ri.Vectors).1)
    ∧ (∀ f ∈ ri.Related, ∃ x ∈ done, f = Feed.relatedEntry x
        ∧ thr ≤ (deps.RelatedScore ri.Vectors x.Vectors).1
        ∧ ∀ (k : Nat) (rk : Feed), k < i → fwr[k]? = some rk →
            ¬ thr ≤ (deps.RelatedScore rk.Vectors x.Vectors).1)

/-- The representatives that `compressRelatedFeedsForGroup` returns for a bucket (none
when it does not return). -/
def router.compressRelatedFeedsForGroup.out (deps : Dependencies) (route : RoutePtr)
    (feeds : List block.FeedVO) : List Feed :=
  match router.compressRelatedFeedsForGroup deps route feeds with
  | some (out, _) => out
  | none => []

/-- The groups that `router.Route` appends for one entry of `feedsByRoute` when the
compression of every bucket succeeds. -/
def router.Route.groupsOf (api : model.LabelsAPI) (sched : Sched) (deps : Dependencies)
    (result : rule.Result) (e : RoutePtr × List block.FeedVO) : List Group :=
  (sched.relatedGroups.order
    ((sched.groupedFeeds.order (router.groupFeedsByLabels api e.1 e.2)).map
      (fun b => (b.1, router.compressRelatedFeedsForGroup.out deps e.1 b.2)))).map
    (router.Route.group api result e.1)

/-- A sample implementation of the label methods: `Put` replaces the value of a present
key and appends an absent one, `String` renders the labels as `key=value,`. -/
def exampleAPI : model.LabelsAPI where
  Put := fun ls key value _ =>
    if ls.any (fun l => l.Key == key) then
      ls.map (fun l => if l.Key == key then ⟨key, value⟩ else l)
    else ls ++ [⟨key, value⟩]
  String := fun ls => String.join (ls.map (fun l => l.Key ++ "=" ++ l.Value ++ ","))

/-- The schedule that visits every map in insertion order and leaves the slice as it is
before sorting. -/
def exampleSched : Sched where
  feedsByRoute := ⟨id, fun l => List.Perm.refl l⟩
  groupedFeeds := ⟨id, fun l => List.Perm.refl l⟩
  relatedGroups := ⟨id, fun l => List.Perm.refl l⟩
  sortSlice := ⟨id, fun l => List.Perm.refl l⟩

/-- The schedule that visits every map in reverse insertion order. -/
def exampleSchedReverse : Sched where
  feedsByRoute := ⟨List.reverse, fun l => List.reverse_perm l⟩
  groupedFeeds := ⟨List.reverse, fun l => List.reverse_perm l⟩
  relatedGroups := ⟨List.reverse, fun l => List.reverse_perm l⟩
  sortSlice := ⟨List.reverse, fun l => List.reverse_perm l⟩

/-- A configuration as loaded: no group-by keys, no threshold, and one sub-route for the
feeds labelled `source=B`. -/
def exampleConfig : Config :=
  ⟨.mk [] none ["default"] [exampleSubRoute ["b"] ["source=B"] []]⟩

/-- A feed with the given identity and source, with one vector. -/
def exampleSourceVO (id : Nat) (source : String) : block.FeedVO :=
  ⟨⟨id, [⟨"source", source⟩]⟩, [[1, 0]]⟩

/-- A batch of three feeds, two of source `A` and one of source `B`. -/
def exampleResult : rule.Result :=
  ⟨"rule", 0, [exampleSourceVO 1 "A", exampleSourceVO 2 "A", exampleSourceVO 3 "B"]⟩

/-- The buckets of a batch: for every entry of `feedsByRoute` and every bucket of its
feeds, the address of the route and the string of the bucket's labels. -/
def router.Route.bucketKeys (api : model.LabelsAPI) (config : Config)
    (feeds : List block.FeedVO) : List (Option (List Nat) × String) :=
  (router.routeFeeds config feeds).flatMap
    (fun e => (router.groupFeedsByLabels api e.1 e.2).map (fun b => (e.1.addr, api.String b.1.val)))

/-- The bucket of one feed: the address of its target route and the string of the labels
that the group-by keys of that route select. -/
def router.Route.bucketKey (api : model.LabelsAPI) (config : Config) (f : block.FeedVO) :
    Option (List Nat) × String :=
  ((router.routeFeeds.targetRoute config f).addr,
    api.String (router.groupFeedsByLabels.group api (router.routeFeeds.targetRoute config f) f))

/-- The group with the name `rule  source=A,` of the default route. -/
def exampleGroupA : Group :=
  ⟨⟨"rule  source=A,", 0, [⟨"source", "A"⟩], [Feed.mk ⟨1, [⟨"source", "A"⟩]⟩ [] [[1, 0]]]⟩,
    ["default"]⟩

/-- The group with the name `rule  source=B,` of the sub-route. -/
def exampleGroupB : Group :=
  ⟨⟨"rule  source=B,", 0, [⟨"source", "B"⟩], [Feed.mk ⟨3, [⟨"source", "B"⟩]⟩ [] [[1, 0]]]⟩,
    ["b"]⟩

/-! ## The calls of `RelatedScore` made during a run -/

/-- The calls of `RelatedScore` that the scan over the representatives makes for one
feed, in order: one per representative, up to and including the first call that fails or
whose score reaches the threshold. -/
def router.compressRelatedFeedsForGroup.tryJoin.calls (deps : Dependencies) (route : RoutePtr)
    (feed : block.FeedVO) : List Feed → List (Vectors × Vectors)
  | [] => []
  | rep :: rest =>
    (rep.Vectors, feed.Vectors) ::
      match deps.RelatedScore rep.Vectors feed.Vectors with
      | (_, some _) => []
      | (score, none) =>
        match route.val.CompressByRelatedThreshold with
        | none => []
        | some threshold =>
          if score ≥ threshold then []
          else router.compressRelatedFeedsForGroup.tryJoin.calls deps route feed rest

/-- The calls of `RelatedScore` made by the loop of `compressRelatedFeedsForGroup`: those
of the scan for each feed, until the loop returns. -/
def router.compressRelatedFeedsForGroup.loop.calls (deps : Dependencies) (route : RoutePtr) :
    List block.FeedVO → List Feed → List (Vectors × Vectors)
  | [], _ => []
  | feed :: rest, feedsWithRelated =>
    router.compressRelatedFeedsForGroup.tryJoin.calls deps route feed feedsWithRelated ++
      match router.compressRelatedFeedsForGroup.tryJoin deps route feed feedsWithRelated with
      | some (.ok (true, joined)) =>
        router.compressRelatedFeedsForGroup.loop.calls deps route rest joined
      | some (.ok (false, _)) =>
        router.compressRelatedFeedsForGroup.loop.calls deps route rest
          (feedsWithRelated ++ [Feed.mk feed.Feed [] feed.Vectors])
      | _ => []

/-- The calls of `RelatedScore` made by the loop of `compressRelatedFeeds`: those of each
bucket, until a bucket fails. -/
def router.compressRelatedFeeds.loop.calls (deps : Dependencies) (route : RoutePtr) :
    List (LabelsPtr × List block.FeedVO) → List (Vectors × Vectors)
  | [] => []
  | (_, feeds) :: rest =>
    router.compressRelatedFeedsForGroup.loop.calls deps route feeds [] ++
      match router.compressRelatedFeedsForGroup deps route feeds with
      | some (_, none) => router.compressRelatedFeeds.loop.calls deps route rest
      | _ => []

/-- The calls of `RelatedScore` made by the loop of `router.Route`: those of each entry
of `feedsByRoute`, until the compression of an entry fails. -/
def router.Route.loop.calls (api : model.LabelsAPI) (sched : Sched) (deps : Dependencies) :
    List (RoutePtr × List block.FeedVO) → List (Vectors × Vectors)
  | [] => []
  | (route, feeds) :: rest =>
    router.compressRelatedFeeds.loop.calls deps route
        (sched.groupedFeeds.order (router.groupFeedsByLabels api route feeds)) ++
      match router.compressRelatedFeeds sched deps route
          (router.groupFeedsByLabels api route feeds) with
      | some (_, none) => router.Route.loop.calls api sched deps rest
      | _ => []

/-- The calls of `RelatedScore` made during one call of `router.Route`. -/
def router.Route.calls (api : model.LabelsAPI) (sched : Sched) (deps : Dependencies)
    (config : Config) (result : rule.Result) : List (Vectors × Vectors) :=
  router.Route.loop.calls api sched deps
    (sched.feedsByRoute.order (router.routeFeeds config result.Feeds))

/-- One of the calls returns an error. -/
def Dependencies.failsOn (deps : Dependencies) (calls : List (Vectors × Vectors)) : Prop :=
  ∃ c ∈ calls, (deps.RelatedScore c.1 c.2).2 ≠ none

/-- A score that fails when its second argument is the vector `[[0]]` and is `0`
otherwise. -/
def exampleFailingScore : Dependencies :=
  ⟨fun _ b => if b = [[0]] then (0, some "no score") else (0, none)⟩

/-- The sub-route declares no matchers, or a matcher string that `parseMatcher` rejects. -/
def SubRoute.badMatchers (r : SubRoute) : Prop :=
  r.Matchers = [] ∨ ∃ s ∈ r.Matchers, (parseMatcher s).2 ≠ none

/-- A configuration as loaded whose nested sub-route declares no matchers. -/
def exampleConfigNoMatchers : Config :=
  ⟨.mk [] none ["default"]
    [exampleSubRoute ["a"] ["team=infra"] [exampleSubRoute ["b"] [] []]]⟩

/-- What a successful validation does to one sub-route, from the node `p0` as configured
to the node `p` afterwards: same place in the tree, an empty `GroupBy` replaced by the
single key `source`, an unset threshold replaced by `0.85`, a non-empty `GroupBy` and a
set threshold kept, and the receivers, the matcher strings and the number of children
kept. -/
def SubRoutePtr.validatedFrom (p0 p : SubRoutePtr) : Prop :=
  p.addr = p0.addr
  ∧ p.val.Route.GroupBy = (if p0.val.Route.GroupBy = [] then ["source"] else p0.val.Route.GroupBy)
  ∧ p.val.Route.CompressByRelatedThreshold
      = some (p0.val.Route.CompressByRelatedThreshold.getD (Float32.num (85 / 100)))
  ∧ p.val.Route.Receivers = p0.val.Route.Receivers
  ∧ p.val.Matchers = p0.val.Matchers
  ∧ p.val.Route.SubRoutes.length = p0.val.Route.SubRoutes.length

/-- A configuration as loaded with the group-by key `team` and the threshold `0`, and a
sub-route with neither. -/
def exampleConfigExplicit : Config :=
  ⟨.mk ["team"] (some 0) ["default"] [exampleSubRoute ["b"] ["source=B"] []]⟩

/-! ## Notions used to state the properties of `parseMatcher` -/

/-- The count of the positions of `s` at which `sep` starts. -/
def strings.Count.scan (sep : List Char) : List Char → Nat
  | [] => 0
  | c :: cs => (if sep.isPrefixOf (c :: cs) then 1 else 0) + strings.Count.scan sep cs

/-- The function `strings.Count` of the Go standard library, the number of occurrences
of `substr` in `s`, for a substring such as `=` and `!=` whose occurrences cannot
overlap. -/
def strings.Count (s substr : String) : Nat := strings.Count.scan substr.toList s.toList

/-- The parts of a split put together again, with `sep` between them. -/
def strings.Join.chars (sep : List Char) : List (List Char) → List Char
  | [] => []
  | [a] => a
  | a :: b :: rest => a ++ sep ++ strings.Join.chars sep (b :: rest)

/-- The state of the loop of `groupFeedsByLabels` after the feeds `done`, at iteration
`n`: the keys of `groupedFeeds` are the pointers stored in `labelGroups`; every pointer
renders to the string it is stored under and was made before iteration `n`; the strings
and the addresses are without repetition; the string of every feed seen is stored; and
every bucket holds, in order, the feeds seen that render to the string of its pointer,
whose labels are those of the first of them. -/
def router.groupFeedsByLabels.Inv (api : model.LabelsAPI) (route : RoutePtr)
    (done : List block.FeedVO) (n : Nat) (lg : List (String × LabelsPtr))
    (gf : List (LabelsPtr × List block.FeedVO)) : Prop :=
  gf.map Prod.fst = lg.map Prod.snd
  ∧ (lg.map Prod.fst).Nodup
  ∧ (∀ e ∈ lg, api.String e.2.val = e.1 ∧ e.2.addr < n)
  ∧ (lg.map (fun e => e.2.addr)).Nodup
  ∧ (∀ f ∈ done, api.String (router.groupFeedsByLabels.group api route f) ∈ lg.map Prod.fst)
  ∧ (∀ b ∈ gf,
      b.2 = done.filter
        (fun f => decide (api.String (router.groupFeedsByLabels.group api route f)
          = api.String b.1.val))
      ∧ ∃ x rest, b.2 = x :: rest ∧ b.1.val = router.groupFeedsByLabels.group api route x)

/-- A configuration as loaded: no group-by keys, no threshold, and one sub-route for the
feeds labelled `team=x`. -/
def exampleConfigTeam : Config :=
  ⟨.mk [] none ["default"] [exampleSubRoute ["t"] ["team=x"] []]⟩

/-- The group of the default route for the feed of source `A` without a team. -/
def exampleGroupDefault : Group :=
  ⟨⟨"rule  source=A,", 0, [⟨"source", "A"⟩], [Feed.mk ⟨1, [⟨"source", "A"⟩]⟩ [] [[1, 0]]]⟩,
    ["default"]⟩

/-- The group of the sub-route for the feed of source `A` of team `x`. -/
def exampleGroupTeam : Group :=
  ⟨⟨"rule  source=A,", 0, [⟨"source", "A"⟩],
      [Feed.mk ⟨2, [⟨"source", "A"⟩, ⟨"team", "x"⟩]⟩ [] [[1, 0]]]⟩,
    ["t"]⟩

/-- The group with the name `rule  source=C,` of the default route. -/
def exampleGroupC : Group :=
  ⟨⟨"rule  source=C,", 0, [⟨"source", "C"⟩], [Feed.mk ⟨4, [⟨"source", "C"⟩]⟩ [] [[1, 0]]]⟩,
    ["default"]⟩

/-! ## The label methods as the specification describes them -/

/-- Modelled from the spec: `model.Labels.Put` of `pkg/model`. The derived label set
holds the group-by keys in declaration order, one label per key: the value of a key that
is present is replaced, a key that is absent is appended. -/
def model.Labels.Put (ls : model.Labels) (key value : String) (_sort : Bool) : model.Labels :=
  if ls.any (fun l => l.Key == key) then
    ls.map (fun l => if l.Key == key then ⟨key, value⟩ else l)
  else ls ++ [⟨key, value⟩]

/-- Modelled from the spec: `model.Labels.String` of `pkg/model`, the canonical string of
a label set: the pairs `key=value` in the order of the labels, joined with a comma. -/
def model.Labels.String (ls : model.Labels) : String :=
  ",".intercalate (ls.map (fun l => l.Key ++ "=" ++ l.Value))

/-- The label methods of `pkg/model` as the specification describes them. -/
def model.Labels.methods : model.LabelsAPI := ⟨model.Labels.Put, model.Labels.String⟩

/-- A route that groups by the keys `a` and `b`. -/
def exampleRouteAB : RoutePtr := ⟨none, .mk ["a", "b"] (some (Float32.num (85 / 100))) ["r"] []⟩

/-- A feed whose label `a` has the value `1,b=2` and whose label `b` is empty. -/
def exampleFeedLong : block.FeedVO := exampleFeed 1 [("a", "1,b=2"), ("b", "")]

/-- A feed whose label `a` has the value `1` and whose label `b` has the value `2,b=`. -/
def exampleFeedShort : block.FeedVO := exampleFeed 2 [("a", "1"), ("b", "2,b=")]

/-- A feed without the label `source`. -/
def exampleFeedNoSource : block.FeedVO := exampleFeed 1 [("team", "x")]

/-- A feed whose label `source` is the empty string. -/
def exampleFeedEmptySource : block.FeedVO := exampleFeed 2 [("source", "")]

/-- A feed of source `A` with the given identity and vectors. -/
def exampleVec (id : Nat) (v : Vectors) : block.FeedVO := ⟨⟨id, [⟨"source", "A"⟩]⟩, v⟩

/-- A similarity score that never fails: `1` for equal vectors and `0` otherwise. -/
def exampleScoreSame : Dependencies := ⟨fun a b => (if a = b then 1 else 0, none)⟩

/-! # Properties -/

/-! ## Comparisons of `float32` values -/

theorem Float32.num_le_num (x y : ℚ) : Float32.num x ≤ Float32.num y ↔ x ≤ y := Iff.rfl

theorem Float32.num_lt_num (x y : ℚ) : Float32.num x < Float32.num y ↔ x < y := Iff.rfl

theorem Float32.not_le_NaN (a : Float32) : ¬ a ≤ Float32.NaN := by
  cases a <;> exact fun h => h

theorem Float32.not_NaN_le (a : Float32) : ¬ Float32.NaN ≤ a := by
  cases a <;> exact fun h => h

theorem Float32.not_le_of_lt (a b : Float32) (h : a < b) : ¬ b ≤ a := by
  cases a <;> cases b <;>
    first
    | exact absurd h (fun h => h)
    | exact fun hle => hle
    | exact not_le.2 ((Float32.num_lt_num _ _).1 h)

theorem Float32.lt_of_not_le (a b : Float32) (ha : a ≠ Float32.NaN) (hb : b ≠ Float32.NaN)
    (h : ¬ b ≤ a) : a < b := by
  cases a <;> cases b <;>
    first
    | exact absurd rfl ha
    | exact absurd rfl hb
    | exact trivial
    | exact absurd trivial h
    | exact (Float32.num_lt_num _ _).2 (not_le.1 h)

/-! ## Matching -/

theorem matchersLoop_eq_all (feed : block.FeedVO) (ms : List matcher) :
    SubRoute.Match.matchersLoop feed ms = ms.all (matcher.holds feed) := by
  induction ms with
  | nil => rfl
  | cons m rest ih =>
    simp only [SubRoute.Match.matchersLoop, List.all_cons, matcher.holds, ih]
    cases hm : m.equal <;>
      by_cases h : model.Labels.Get feed.Feed.Labels m.key = m.value <;> simp [h]

theorem find?_map_ptr (q : SubRoute → Bool) (i : Nat) (l : List SubRoutePtr) :
    (l.map (fun p => (⟨i :: p.addr, p.val⟩ : SubRoutePtr))).find? (fun p => q p.val)
      = (l.find? (fun p => q p.val)).map (fun p => ⟨i :: p.addr, p.val⟩) := by
  induction l with
  | nil => rfl
  | cons a l ih =>
    simp only [List.map_cons, List.find?_cons]
    cases q a.val <;> simp [ih]

mutual
theorem SubRoute.Match_eq_find (feed : block.FeedVO) : ∀ r : SubRoute,
    SubRoute.Match feed r = (SubRoute.postOrder r).find? (fun p => SubRoute.ownMatch feed p.val)
  | .mk (.mk g t rc subs) ms m => by
    have ih := SubRoutes.Match_loop_eq_find feed 0 subs
    simp only [SubRoute.Match, SubRoute.postOrder, List.find?_append, ih]
    cases h : (SubRoutes.postOrder 0 subs).find? (fun p => SubRoute.ownMatch feed p.val) with
    | some p => simp
    | none => simp [SubRoute.ownMatch, SubRoute.matchers, matchersLoop_eq_all]
theorem SubRoutes.Match_loop_eq_find (feed : block.FeedVO) (i : Nat) : ∀ s : List SubRoute,
    SubRoutes.Match.loop feed i s
      = (SubRoutes.postOrder i s).find? (fun p => SubRoute.ownMatch feed p.val)
  | [] => by simp [SubRoutes.Match.loop, SubRoutes.postOrder]
  | sub :: rest => by
    have ih1 := SubRoute.Match_eq_find feed sub
    have ih2 := SubRoutes.Match_loop_eq_find feed (i + 1) rest
    simp only [SubRoutes.Match.loop, SubRoutes.postOrder, List.find?_append, ih1, ih2,
      find?_map_ptr (SubRoute.ownMatch feed)]
    cases (SubRoute.postOrder sub).find? (fun p => SubRoute.ownMatch feed p.val) <;> simp
end

theorem SubRoute.postOrder_leaf (r : SubRoute) (h : r.Route.SubRoutes = []) :
    SubRoute.postOrder r = [⟨[], r⟩] := by
  obtain ⟨⟨g, t, rc, subs⟩, ms, m⟩ := r
  simp only [SubRoute.Route, Route.SubRoutes] at h
  subst h
  simp [SubRoute.postOrder, SubRoutes.postOrder]

theorem SubRoute.postOrder_single (r c : SubRoute) (h : r.Route.SubRoutes = [c])
    (hc : c.Route.SubRoutes = []) :
    SubRoute.postOrder r = [⟨[0], c⟩, ⟨[], r⟩] := by
  obtain ⟨⟨g, t, rc, subs⟩, ms, m⟩ := r
  simp only [SubRoute.Route, Route.SubRoutes] at h
  subst h
  simp [SubRoute.postOrder, SubRoutes.postOrder, SubRoute.postOrder_leaf c hc]

/-- C1: route resolution returns the first sub-route in depth-first post-order (children
in declared order before the node, siblings in declared order) whose own matchers all
hold for the feed; `routeFeeds` takes that sub-route's route as the target, and the
top-level default route when no sub-route at any depth has all of its own matchers
satisfied.  In particular, in the tree `[A[B]]` a feed that satisfies the matchers of
both is resolved to `B`, and of two leaf siblings of which only the second matches the
second is returned. -/
theorem C1_match_first_in_post_order (config : Config) (feed : block.FeedVO) :
    SubRoutes.Match config.Route.SubRoutes feed
        = (SubRoutes.postOrder 0 config.Route.SubRoutes).find?
            (fun p => SubRoute.ownMatch feed p.val)
    ∧ (∀ p, (SubRoutes.postOrder 0 config.Route.SubRoutes).find?
            (fun p => SubRoute.ownMatch feed p.val) = some p →
        router.routeFeeds.targetRoute config feed = ⟨some p.addr, p.val.Route⟩)
    ∧ ((∀ p ∈ SubRoutes.postOrder 0 config.Route.SubRoutes,
          SubRoute.ownMatch feed p.val = false) →
        SubRoutes.Match config.Route.SubRoutes feed = none
        ∧ router.routeFeeds.targetRoute config feed = ⟨none, config.Route⟩)
    ∧ (∀ A B : SubRoute, config.Route.SubRoutes = [A] → A.Route.SubRoutes = [B] →
        B.Route.SubRoutes = [] → SubRoute.ownMatch feed A = true →
        SubRoute.ownMatch feed B = true →
        SubRoutes.Match config.Route.SubRoutes feed = some ⟨[0, 0], B⟩)
    ∧ (∀ A B : SubRoute, config.Route.SubRoutes = [A, B] → A.Route.SubRoutes = [] →
        B.Route.SubRoutes = [] → SubRoute.ownMatch feed A = false →
        SubRoute.ownMatch feed B = true →
        SubRoutes.Match config.Route.SubRoutes feed = some ⟨[1], B⟩) := by
  have hfind := SubRoutes.Match_loop_eq_find feed 0 config.Route.SubRoutes
  refine ⟨hfind, ?_, ?_, ?_, ?_⟩
  · intro p hp
    simp [router.routeFeeds.targetRoute, SubRoutes.Match, hfind, hp]
  · intro hnone
    have h0 : (SubRoutes.postOrder 0 config.Route.SubRoutes).find?
        (fun p => SubRoute.ownMatch feed p.val) = none := by
      rw [List.find?_eq_none]
      intro p hp
      simp [hnone p hp]
    simp [router.routeFeeds.targetRoute, SubRoutes.Match, hfind, h0]
  · intro A B hA hAB hB hmA hmB
    rw [SubRoutes.Match, hfind, hA]
    simp [SubRoutes.postOrder, SubRoute.postOrder_single A B hAB hB, hmB]
  · intro A B hAB hA hB hmA hmB
    rw [SubRoutes.Match, hfind, hAB]
    simp [SubRoutes.postOrder, SubRoute.postOrder_leaf A hA, SubRoute.postOrder_leaf B hB,
      hmA, hmB]

/-- The tree `[A[B]]` with the feed `env=prod, team=infra`, which satisfies the matchers
of both `A` and `B`, is resolved to `B`. -/
theorem C1_match_first_in_post_order_witness :
    SubRoutes.Match [exampleA] (exampleFeed 1 [("env", "prod"), ("team", "infra")])
      = some ⟨[0, 0], exampleB⟩ :=
  (C1_match_first_in_post_order ⟨.mk [] none [] [exampleA]⟩
    (exampleFeed 1 [("env", "prod"), ("team", "infra")])).2.2.2.1 exampleA exampleB
    rfl rfl rfl (by decide) (by decide)

theorem SubRoute.Validate.parseLoop_ok (ms : List String) (m1 : List matcher)
    (h : SubRoute.Validate.parseLoop ms = (m1, none)) :
    m1 = ms.map (fun s => (parseMatcher s).1) ∧ ∀ s ∈ ms, (parseMatcher s).2 = none := by
  induction ms generalizing m1 with
  | nil =>
    simp only [SubRoute.Validate.parseLoop, Prod.mk.injEq] at h
    simp [← h.1]
  | cons s rest ih =>
    rw [SubRoute.Validate.parseLoop] at h
    rcases hp : parseMatcher s with ⟨m, _ | err⟩
    · rw [hp] at h
      simp only at h
      rcases hr : SubRoute.Validate.parseLoop rest with ⟨ms1, e⟩
      rw [hr] at h
      simp only [Prod.mk.injEq] at h
      obtain ⟨h1, h2⟩ := h
      subst h2
      obtain ⟨ih1, ih2⟩ := ih ms1 hr
      refine ⟨?_, ?_⟩
      · simp [← h1, hp, ← ih1]
      · intro s1 hs1
        rcases List.mem_cons.1 hs1 with rfl | hs1
        · simp [hp]
        · exact ih2 s1 hs1
    · rw [hp] at h
      simp at h

theorem SubRoute.Validate_ok (g : List String) (t : Option Float32) (rc : List String)
    (subs : List SubRoute) (ms : List String) (m : List matcher) (r : SubRoute)
    (h : SubRoute.Validate (.mk (.mk g t rc subs) ms m) = (r, none)) :
    ∃ subs1 m1, r = .mk (.mk (if g.length = 0 then [model.LabelSource] else g)
          (match t with
            | none => ptr.To (Float32.num (85 / 100))
            | some v => some v) rc subs1) ms m1
      ∧ ms ≠ [] ∧ SubRoute.Validate.parseLoop ms = (m1, none)
      ∧ SubRoutes.Validate.loop subs = (subs1, none) := by
  unfold SubRoute.Validate at h
  simp only at h
  split at h
  · simp at h
  · rename_i hms
    rcases hp : SubRoute.Validate.parseLoop ms with ⟨m1, _ | err⟩
    · rw [hp] at h
      simp only at h
      rcases hl : SubRoutes.Validate.loop subs with ⟨subs1, e⟩
      rw [hl] at h
      simp only [Prod.mk.injEq] at h
      obtain ⟨h1, h2⟩ := h
      subst h2
      refine ⟨subs1, m1, h1.symm, ?_, rfl, rfl⟩
      intro h0
      exact hms (by simp [h0])
    · rw [hp] at h
      simp at h

theorem SubRoute.Match_leaf (feed : block.FeedVO) (r : SubRoute) (h : r.Route.SubRoutes = []) :
    SubRoute.Match feed r = if SubRoute.ownMatch feed r then some ⟨[], r⟩ else none := by
  rw [SubRoute.Match_eq_find, SubRoute.postOrder_leaf r h]
  cases hm : SubRoute.ownMatch feed r <;> simp [hm]

/-- C4: a validated sub-route without nested sub-routes is returned by `SubRoute.Match`
iff all of its matchers hold for the feed, and `nil` is returned otherwise; the matchers
are the parsed matcher strings; an equality matcher holds iff the feed's label value for
the key equals the matcher's value, an inequality matcher iff it differs, and the label
value of an absent label is the empty string. -/
theorem C4_leaf_match_iff_all_matchers (r0 r : SubRoute) (feed : block.FeedVO)
    (hv : SubRoute.Validate r0 = (r, none)) (hleaf : r.Route.SubRoutes = []) :
    (SubRoute.Match feed r = some ⟨[], r⟩ ↔ ∀ m ∈ r.matchers, matcher.holds feed m = true)
    ∧ (SubRoute.Match feed r = none ↔ ∃ m ∈ r.matchers, matcher.holds feed m = false)
    ∧ r.matchers = r0.Matchers.map (fun s => (parseMatcher s).1)
    ∧ (∀ s ∈ r0.Matchers, (parseMatcher s).2 = none)
    ∧ (∀ m : matcher, m.equal = true →
        (matcher.holds feed m = true ↔ model.Labels.Get feed.Feed.Labels m.key = m.value))
    ∧ (∀ m : matcher, m.equal = false →
        (matcher.holds feed m = true ↔ model.Labels.Get feed.Feed.Labels m.key ≠ m.value))
    ∧ (∀ k : String, (∀ l ∈ feed.Feed.Labels, l.Key ≠ k) →
        model.Labels.Get feed.Feed.Labels k = "") := by
  have hown : SubRoute.ownMatch feed r = true ↔ ∀ m ∈ r.matchers, matcher.holds feed m = true := by
    simp [SubRoute.ownMatch, List.all_eq_true]
  refine ⟨?_, ?_, ?_, ?_, ?_, ?_, ?_⟩
  · rw [SubRoute.Match_leaf feed r hleaf, ← hown]
    cases SubRoute.ownMatch feed r <;> simp
  · rw [SubRoute.Match_leaf feed r hleaf]
    have hex : (∃ m ∈ r.matchers, matcher.holds feed m = false)
        ↔ ¬ (∀ m ∈ r.matchers, matcher.holds feed m = true) := by
      simp
    rw [hex, ← hown]
    cases SubRoute.ownMatch feed r <;> simp
  · obtain ⟨⟨g, t, rc, subs⟩, ms, m⟩ := r0
    obtain ⟨subs1, m1, hr, _, hp, _⟩ := SubRoute.Validate_ok g t rc subs ms m r hv
    subst hr
    exact (SubRoute.Validate.parseLoop_ok ms m1 hp).1
  · obtain ⟨⟨g, t, rc, subs⟩, ms, m⟩ := r0
    obtain ⟨subs1, m1, hr, _, hp, _⟩ := SubRoute.Validate_ok g t rc subs ms m r hv
    exact (SubRoute.Validate.parseLoop_ok ms m1 hp).2
  · intro m hm
    simp [matcher.holds, hm]
  · intro m hm
    simp [matcher.holds, hm]
  · intro k hk
    have hnone : List.find? (fun l => l.Key == k) feed.Feed.Labels = none := by
      rw [List.find?_eq_none]
      intro l hl
      simpa using hk l hl
    simp [model.Labels.Get, hnone]

/-- The matchers `env=prod` and `team!=infra` on the feed `env=prod, team=infra` give no
match: the second matcher fails. -/
theorem C4_leaf_match_iff_all_matchers_witness :
    SubRoute.Match (exampleFeed 1 [("env", "prod"), ("team", "infra")])
      (SubRoute.Validate exampleAnd).1 = none :=
  (C4_leaf_match_iff_all_matchers exampleAnd (SubRoute.Validate exampleAnd).1
    (exampleFeed 1 [("env", "prod"), ("team", "infra")]) rfl rfl).2.1.2
    ⟨⟨"team", "infra", false⟩, by decide, by decide⟩

/-! ## Compression -/

theorem Feed.listed_append (a b : List Feed) :
    Feed.listed (a ++ b) = Feed.listed a ++ Feed.listed b := by
  induction a with
  | nil => rfl
  | cons x xs ih => simp [Feed.listed, ih]

theorem Feed.withRelated_absorb (rep : Feed) (feed : block.FeedVO) :
    (rep.absorb feed).withRelated = rep.withRelated ++ [feed.Feed] := by
  obtain ⟨f, rel, v⟩ := rep
  simp [Feed.absorb, Feed.withRelated, Feed.relatedEntry, Feed.feed, Feed.Related]

theorem Feed.listed_absorb (pre post : List Feed) (rep : Feed) (feed : block.FeedVO) :
    (Feed.listed (pre ++ rep.absorb feed :: post)).Perm
      (Feed.listed (pre ++ rep :: post) ++ [feed.Feed]) := by
  rw [List.perm_iff_count]
  intro x
  simp only [Feed.listed_append, Feed.listed, Feed.withRelated_absorb, List.count_append]
  omega

/-- What the scan over the representatives does for one feed when the scores it asks for
are delivered: the first representative whose score reaches the threshold absorbs the
feed, and the scan reports `false` when there is none. -/
theorem router.compressRelatedFeedsForGroup.tryJoin_spec (deps : Dependencies)
    (route : RoutePtr) (thr : Float32) (hthr : route.val.CompressByRelatedThreshold = some thr)
    (feed : block.FeedVO) (fwr : List Feed)
    (hscore : ∀ r ∈ fwr, (deps.RelatedScore r.Vectors feed.Vectors).2 = none) :
    (∃ pre rep post, fwr = pre ++ rep :: post
        ∧ thr ≤ (deps.RelatedScore rep.Vectors feed.Vectors).1
        ∧ (∀ r ∈ pre, ¬ thr ≤ (deps.RelatedScore r.Vectors feed.Vectors).1)
        ∧ router.compressRelatedFeedsForGroup.tryJoin deps route feed fwr
            = some (.ok (true, pre ++ rep.absorb feed :: post)))
    ∨ ((∀ r ∈ fwr, ¬ thr ≤ (deps.RelatedScore r.Vectors feed.Vectors).1)
        ∧ router.compressRelatedFeedsForGroup.tryJoin deps route feed fwr
            = some (.ok (false, fwr))) := by
  induction fwr with
  | nil =>
    right
    simp [router.compressRelatedFeedsForGroup.tryJoin]
  | cons rep rest ih =>
    have hrep := hscore rep (List.mem_cons_self _ _)
    rcases hs : deps.RelatedScore rep.Vectors feed.Vectors with ⟨score, e⟩
    rw [hs] at hrep
    simp only at hrep
    subst hrep
    by_cases hge : thr ≤ score
    · left
      refine ⟨[], rep, rest, rfl, by simp [hs, hge], by simp, ?_⟩
      simp [router.compressRelatedFeedsForGroup.tryJoin, hs, hthr, hge, Feed.absorb,
        Feed.relatedEntry]
    · rcases ih (fun r hr => hscore r (List.mem_cons_of_mem _ hr)) with
        ⟨pre, rep1, post, hfwr, hge1, hlt, hjoin⟩ | ⟨hlt, hjoin⟩
      · left
        refine ⟨rep :: pre, rep1, post, by simp [hfwr], hge1, ?_, ?_⟩
        · intro r hr
          rcases List.mem_cons.1 hr with rfl | hr
          · simpa [hs] using hge
          · exact hlt r hr
        · simp [router.compressRelatedFeedsForGroup.tryJoin, hs, hthr, hge, hjoin]
      · right
        refine ⟨?_, ?_⟩
        · intro r hr
          rcases List.mem_cons.1 hr with rfl | hr
          · simpa [hs] using hge
          · exact hlt r hr
        · simp [router.compressRelatedFeedsForGroup.tryJoin, hs, hthr, hge, hjoin]

/-- Induction over the loop of `compressRelatedFeedsForGroup`: a property of the feeds
processed so far and the representatives, kept by both ways of placing a feed, holds at
the end, and the loop ends without error when every score it asks for is delivered. -/
theorem router.compressRelatedFeedsForGroup.loop_ind (deps : Dependencies) (route : RoutePtr)
    (thr : Float32) (hthr : route.val.CompressByRelatedThreshold = some thr)
    (all : List block.FeedVO) (I : List block.FeedVO → List Feed → Prop)
    (hscore : ∀ done feed rest fwr, all = done ++ feed :: rest → I done fwr →
      ∀ r ∈ fwr, (deps.RelatedScore r.Vectors feed.Vectors).2 = none)
    (hjoin : ∀ done feed rest pre rep post, all = done ++ feed :: rest →
      I done (pre ++ rep :: post) → thr ≤ (deps.RelatedScore rep.Vectors feed.Vectors).1 →
      (∀ r ∈ pre, ¬ thr ≤ (deps.RelatedScore r.Vectors feed.Vectors).1) →
      I (done ++ [feed]) (pre ++ rep.absorb feed :: post))
    (hnew : ∀ done feed rest fwr, all = done ++ feed :: rest → I done fwr →
      (∀ r ∈ fwr, ¬ thr ≤ (deps.RelatedScore r.Vectors feed.Vectors).1) →
      I (done ++ [feed]) (fwr ++ [Feed.representative feed])) :
    ∀ rest done fwr, all = done ++ rest → I done fwr →
      ∃ out, router.compressRelatedFeedsForGroup.loop deps route rest fwr = some (.ok out)
        ∧ I all out := by
  intro rest
  induction rest with
  | nil =>
    intro done fwr hall hI
    refine ⟨fwr, by simp [router.compressRelatedFeedsForGroup.loop], ?_⟩
    simpa [hall] using hI
  | cons feed rest ih =>
    intro done fwr hall hI
    have hall1 : all = (done ++ [feed]) ++ rest := by simp [hall]
    rcases router.compressRelatedFeedsForGroup.tryJoin_spec deps route thr hthr feed fwr
        (hscore done feed rest fwr hall hI) with
      ⟨pre, rep, post, hfwr, hge, hlt, hj⟩ | ⟨hlt, hj⟩
    · subst hfwr
      obtain ⟨out, hout, hIout⟩ := ih (done ++ [feed]) (pre ++ rep.absorb feed :: post) hall1
        (hjoin done feed rest pre rep post hall hI hge hlt)
      exact ⟨out, by simp [router.compressRelatedFeedsForGroup.loop, hj, hout], hIout⟩
    · obtain ⟨out, hout, hIout⟩ := ih (done ++ [feed]) (fwr ++ [Feed.representative feed]) hall1
        (hnew done feed rest fwr hall hI hlt)
      refine ⟨out, ?_, hIout⟩
      simp only [router.compressRelatedFeedsForGroup.loop, hj]
      exact hout

theorem router.compressRelatedFeedsForGroup.loop_perm (deps : Dependencies) (route : RoutePtr)
    (thr : Float32) (feeds : List block.FeedVO)
    (hthr : route.val.CompressByRelatedThreshold = some thr)
    (hscore : ∀ a b, (deps.RelatedScore a b).2 = none) :
    ∃ out, router.compressRelatedFeedsForGroup.loop deps route feeds [] = some (.ok out)
      ∧ (Feed.listed out).Perm (feeds.map (fun feed => feed.Feed))
      ∧ ∀ rep ∈ out, ∀ f ∈ rep.Related, f.Related = [] :=
    router.compressRelatedFeedsForGroup.loop_ind deps route thr hthr feeds
      (fun done fwr => (Feed.listed fwr).Perm (done.map (fun feed => feed.Feed))
        ∧ ∀ rep ∈ fwr, ∀ f ∈ rep.Related, f.Related = [])
      (fun _ _ _ _ _ _ r _ => hscore r.Vectors _)
      (by
        rintro done feed rest pre rep post - ⟨hp, hl⟩ - -
        refine ⟨?_, ?_⟩
        · refine (Feed.listed_absorb pre post rep feed).trans ?_
          simpa using hp.append_right [feed.Feed]
        · intro r hr f hf
          rcases List.mem_append.1 hr with hr | hr
          · exact hl r (by simp [hr]) f hf
          · rcases List.mem_cons.1 hr with rfl | hr
            · simp only [Feed.absorb, Feed.Related, List.mem_append, List.mem_singleton] at hf
              rcases hf with hf | rfl
              · exact hl rep (by simp) f hf
              · rfl
            · exact hl r (by simp [hr]) f hf)
      (by
        rintro done feed rest fwr - ⟨hp, hl⟩ -
        refine ⟨?_, ?_⟩
        · simpa [Feed.listed_append, Feed.listed, Feed.representative, Feed.withRelated,
            Feed.feed, Feed.Related] using hp.append_right [feed.Feed]
        · intro r hr f hf
          rcases List.mem_append.1 hr with hr | hr
          · exact hl r hr f hf
          · rw [List.mem_singleton] at hr
            subst hr
            simp [Feed.representative, Feed.Related] at hf)
      feeds [] [] rfl ⟨by simp [Feed.listed], by simp⟩

/-- C2: when the threshold is set and the score never fails, `compressRelatedFeedsForGroup`
succeeds, and the representatives of its output together with the entries of their
related lists are a permutation of the input feeds: every input feed occurs exactly once
and nothing else occurs (a related entry has no related list of its own). -/
theorem C2_compress_output_is_permutation (deps : Dependencies) (route : RoutePtr)
    (thr : Float32) (feeds : List block.FeedVO)
    (hthr : route.val.CompressByRelatedThreshold = some thr)
    (hscore : ∀ a b, (deps.RelatedScore a b).2 = none) :
    ∃ out, router.compressRelatedFeedsForGroup deps route feeds = some (out, none)
      ∧ (Feed.listed out).Perm (feeds.map (fun feed => feed.Feed))
      ∧ ∀ rep ∈ out, ∀ f ∈ rep.Related, f.Related = [] := by
  obtain ⟨out, hout, hperm, hleaf⟩ :=
    router.compressRelatedFeedsForGroup.loop_perm deps route thr feeds hthr hscore
  refine ⟨out, ?_, hperm, hleaf⟩
  unfold router.compressRelatedFeedsForGroup
  rw [hout]

/-- Three feeds of one bucket under a score that is always `1`: all three occur once. -/
theorem C2_compress_output_is_permutation_witness :
    ∃ out, router.compressRelatedFeedsForGroup (exampleScore 1) exampleRoute
        [exampleVO 1, exampleVO 2, exampleVO 3] = some (out, none)
      ∧ (Feed.listed out).Perm ([exampleVO 1, exampleVO 2, exampleVO 3].map (fun feed => feed.Feed))
      ∧ ∀ rep ∈ out, ∀ f ∈ rep.Related, f.Related = [] :=
  C2_compress_output_is_permutation (exampleScore 1) exampleRoute (Float32.num (85 / 100))
    [exampleVO 1, exampleVO 2, exampleVO 3] rfl (fun _ _ => rfl)

theorem Feed.getElem?_absorb (pre post : List Feed) (rep : Feed) (feed : block.FeedVO) (i : Nat)
    (ri1 : Feed) (h : (pre ++ rep.absorb feed :: post)[i]? = some ri1) :
    ∃ ri, (pre ++ rep :: post)[i]? = some ri ∧ ri1.feed = ri.feed ∧ ri1.Vectors = ri.Vectors
      ∧ (ri1 = ri ∨ (i = pre.length ∧ ri = rep ∧ ri1 = rep.absorb feed)) := by
  rcases lt_trichotomy i pre.length with hlt | heq | hgt
  · rw [List.getElem?_append_left hlt] at h
    exact ⟨ri1, by rw [List.getElem?_append_left hlt]; exact h, rfl, rfl, Or.inl rfl⟩
  · subst heq
    rw [List.getElem?_append_right (le_refl _)] at h
    simp only [Nat.sub_self, List.getElem?_cons_zero, Option.some.injEq] at h
    subst h
    refine ⟨rep, by rw [List.getElem?_append_right (le_refl _)]; simp, ?_, ?_,
      Or.inr ⟨rfl, rfl, rfl⟩⟩
    · simp [Feed.absorb, Feed.feed]
    · simp [Feed.absorb, Feed.Vectors]
  · rw [List.getElem?_append_right (le_of_lt hgt)] at h
    obtain ⟨j, hj⟩ : ∃ j, i - pre.length = j + 1 := ⟨i - pre.length - 1, by omega⟩
    rw [hj, List.getElem?_cons_succ] at h
    refine ⟨ri1, ?_, rfl, rfl, Or.inl rfl⟩
    rw [List.getElem?_append_right (le_of_lt hgt), hj, List.getElem?_cons_succ]
    exact h

theorem FirstMatch.absorb (deps : Dependencies) (thr : Float32) (done : List block.FeedVO)
    (feed : block.FeedVO) (pre post : List Feed) (rep : Feed)
    (hI : FirstMatch deps thr done (pre ++ rep :: post))
    (hge : thr ≤ (deps.RelatedScore rep.Vectors feed.Vectors).1)
    (hlt : ∀ r ∈ pre, ¬ thr ≤ (deps.RelatedScore r.Vectors feed.Vectors).1) :
    FirstMatch deps thr (done ++ [feed]) (pre ++ rep.absorb feed :: post) := by
  intro i ri1 hi
  obtain ⟨ri, hri, hfeed, hvec, hcase⟩ := Feed.getElem?_absorb pre post rep feed i ri1 hi
  obtain ⟨⟨x, hx, hxf, hxv⟩, hreps, hrel⟩ := hI i ri hri
  have hearlier : ∀ (v : Vectors), (∀ k rk, k < i → (pre ++ rep :: post)[k]? = some rk →
        ¬ thr ≤ (deps.RelatedScore rk.Vectors v).1) →
      ∀ k rk, k < i → (pre ++ rep.absorb feed :: post)[k]? = some rk →
        ¬ thr ≤ (deps.RelatedScore rk.Vectors v).1 := by
    intro v hv k rk1 hk hrk1
    obtain ⟨rk, hrk, _, hkv, _⟩ := Feed.getElem?_absorb pre post rep feed k rk1 hrk1
    rw [hkv]
    exact hv k rk hk hrk
  refine ⟨⟨x, by simp [hx], by rw [hfeed, hxf], by rw [hvec, hxv]⟩, ?_, ?_⟩
  · rw [hvec]
    exact hearlier _ hreps
  · intro f hf
    have hold : f ∈ ri.Related → ∃ x ∈ done ++ [feed], f = Feed.relatedEntry x
        ∧ thr ≤ (deps.RelatedScore ri1.Vectors x.Vectors).1
        ∧ ∀ k rk, k < i → (pre ++ rep.absorb feed :: post)[k]? = some rk →
            ¬ thr ≤ (deps.RelatedScore rk.Vectors x.Vectors).1 := by
      intro hf0
      obtain ⟨y, hy, hfy, hgey, hlty⟩ := hrel f hf0
      exact ⟨y, by simp [hy], hfy, by rw [hvec]; exact hgey, hearlier _ hlty⟩
    rcases hcase with rfl | ⟨hipre, hrep, hri1⟩
    · exact hold hf
    · subst hrep hri1
      simp only [Feed.absorb, Feed.Related, List.mem_append, List.mem_singleton] at hf
      rcases hf with hf | rfl
      · exact hold hf
      · refine ⟨feed, by simp, rfl, by rw [hvec]; exact hge, ?_⟩
        intro k rk1 hk hrk1
        rw [hipre] at hk
        rw [List.getElem?_append_left hk] at hrk1
        exact hlt rk1 (List.getElem?_mem hrk1)

theorem FirstMatch.append (deps : Dependencies) (thr : Float32) (done : List block.FeedVO)
    (feed : block.FeedVO) (fwr : List Feed) (hI : FirstMatch deps thr done fwr)
    (hlt : ∀ r ∈ fwr, ¬ thr ≤ (deps.RelatedScore r.Vectors feed.Vectors).1) :
    FirstMatch deps thr (done ++ [feed]) (fwr ++ [Feed.representative feed]) := by
  intro i ri hi
  have hfront : ∀ (k : Nat) (rk : Feed), k < fwr.length →
      (fwr ++ [Feed.representative feed])[k]? = some rk → fwr[k]? = some rk := by
    intro k rk hk hrk
    rw [List.getElem?_append_left hk] at hrk
    exact hrk
  rcases Nat.lt_or_ge i fwr.length with hlen | hlen
  · obtain ⟨⟨x, hx, hxf, hxv⟩, hreps, hrel⟩ := hI i ri (hfront i ri hlen hi)
    refine ⟨⟨x, by simp [hx], hxf, hxv⟩, ?_, ?_⟩
    · intro k rk hk hrk
      exact hreps k rk hk (hfront k rk (by omega) hrk)
    · intro f hf
      obtain ⟨y, hy, hfy, hgey, hlty⟩ := hrel f hf
      refine ⟨y, by simp [hy], hfy, hgey, ?_⟩
      intro k rk hk hrk
      exact hlty k rk hk (hfront k rk (by omega) hrk)
  · rw [List.getElem?_append_right hlen] at hi
    have hieq : i = fwr.length := by
      by_contra hne
      obtain ⟨j, hj⟩ : ∃ j, i - fwr.length = j + 1 := ⟨i - fwr.length - 1, by omega⟩
      rw [hj] at hi
      simp at hi
    subst hieq
    simp only [Nat.sub_self, List.getElem?_cons_zero, Option.some.injEq] at hi
    subst hi
    refine ⟨⟨feed, by simp, rfl, rfl⟩, ?_, ?_⟩
    · intro k rk hk hrk
      exact hlt rk (List.getElem?_mem (hfront k rk hk hrk))
    · intro f hf
      simp [Feed.representative, Feed.Related] at hf

/-- C5: compression places every feed by first match over the representatives in
insertion order. When the threshold is set and the score never fails,
`compressRelatedFeedsForGroup` returns, and every input feed is a representative of its
output or an entry of one related list. Every representative `r_i` of the output carries
the feed and the vectors of an input feed, and the test
`RelatedScore(r_k.vectors, r_i.vectors) >= threshold` is false for every earlier
representative `r_k`. Every entry of the related list of `r_i` is an input feed `x`, without
vectors, with `RelatedScore(r_i.vectors, x.vectors) >= threshold`, and the test
`RelatedScore(r_k.vectors, x.vectors) >= threshold` is false for every earlier
representative `r_k`. Where the test is false the score is below the threshold, unless
the score or the threshold is `NaN`. The representative's vectors are the first argument
of the score and the incoming feed's vectors the second. -/
theorem C5_compress_first_match (deps : Dependencies) (route : RoutePtr) (thr : Float32)
    (feeds : List block.FeedVO) (hthr : route.val.CompressByRelatedThreshold = some thr)
    (hscore : ∀ a b, (deps.RelatedScore a b).2 = none) :
    ∃ out, router.compressRelatedFeedsForGroup deps route feeds = some (out, none)
      ∧ (Feed.listed out).Perm (feeds.map (fun feed => feed.Feed))
      ∧ ∀ (i : Nat) (ri : Feed), out[i]? = some ri →
        (∃ x ∈ feeds, ri.feed = x.Feed ∧ ri.Vectors = x.Vectors)
        ∧ (∀ (k : Nat) (rk : Feed), k < i → out[k]? = some rk →
            ¬ thr ≤ (deps.RelatedScore rk.Vectors ri.Vectors).1
            ∧ (thr ≠ Float32.NaN → (deps.RelatedScore rk.Vectors ri.Vectors).1 ≠ Float32.NaN →
                (deps.RelatedScore rk.Vectors ri.Vectors).1 < thr))
        ∧ (∀ f ∈ ri.Related, ∃ x ∈ feeds, f = Feed.mk x.Feed [] []
            ∧ thr ≤ (deps.RelatedScore ri.Vectors x.Vectors).1
            ∧ ∀ (k : Nat) (rk : Feed), k < i → out[k]? = some rk →
                ¬ thr ≤ (deps.RelatedScore rk.Vectors x.Vectors).1
                ∧ (thr ≠ Float32.NaN →
                    (deps.RelatedScore rk.Vectors x.Vectors).1 ≠ Float32.NaN →
                    (deps.RelatedScore rk.Vectors x.Vectors).1 < thr)) := by
  obtain ⟨out, hout, hI⟩ :=
    router.compressRelatedFeedsForGroup.loop_ind deps route thr hthr feeds (FirstMatch deps thr)
      (fun _ _ _ _ _ _ r _ => hscore r.Vectors _)
      (fun done feed _ pre rep post _ hI hge hlt =>
        FirstMatch.absorb deps thr done feed pre post rep hI hge hlt)
      (fun done feed _ fwr _ hI hlt => FirstMatch.append deps thr done feed fwr hI hlt)
      feeds [] [] rfl (by intro i ri hi; simp at hi)
  obtain ⟨out1, hout1, hperm, _⟩ :=
    router.compressRelatedFeedsForGroup.loop_perm deps route thr feeds hthr hscore
  have heq : out1 = out := by
    rw [hout] at hout1
    simp only [Option.some.injEq, Except.ok.injEq] at hout1
    exact hout1.symm
  rw [heq] at hperm
  have hlt : ∀ (s : Float32), ¬ thr ≤ s →
      ¬ thr ≤ s ∧ (thr ≠ Float32.NaN → s ≠ Float32.NaN → s < thr) :=
    fun s hs => ⟨hs, fun h1 h2 => Float32.lt_of_not_le s thr h2 h1 hs⟩
  refine ⟨out, by simp [router.compressRelatedFeedsForGroup, hout], hperm, ?_⟩
  intro i ri hi
  obtain ⟨hfeed, hreps, hrel⟩ := hI i ri hi
  refine ⟨hfeed, fun k rk hk hrk => hlt _ (hreps k rk hk hrk), ?_⟩
  intro f hf
  obtain ⟨x, hx, hfx, hge, hearlier⟩ := hrel f hf
  exact ⟨x, hx, hfx, hge, fun k rk hk hrk => hlt _ (hearlier k rk hk hrk)⟩

theorem exampleCompress_two :
    router.compressRelatedFeedsForGroup exampleScoreSame exampleRoute
        [exampleVec 1 [[1, 0]], exampleVec 2 [[0, 1]], exampleVec 3 [[0, 1]]]
      = some ([Feed.mk (exampleVec 1 [[1, 0]]).Feed [] [[1, 0]],
          Feed.mk (exampleVec 2 [[0, 1]]).Feed [Feed.mk (exampleVec 3 [[0, 1]]).Feed [] []]
            [[0, 1]]], none) := by
  have h10 : ¬ Float32.num (85 / 100) ≤ (0 : Float32) := by
    show ¬ ((85 / 100 : ℚ) ≤ ((0 : ℕ) : ℚ))
    norm_num
  have h11 : Float32.num (85 / 100) ≤ (1 : Float32) := by
    show (85 / 100 : ℚ) ≤ ((1 : ℕ) : ℚ)
    norm_num
  have hne : ¬ ([[1, 0]] : Vectors) = [[0, 1]] := by decide
  simp [router.compressRelatedFeedsForGroup, router.compressRelatedFeedsForGroup.loop,
    router.compressRelatedFeedsForGroup.tryJoin, exampleScoreSame, exampleRoute, exampleVec,
    Route.CompressByRelatedThreshold, Feed.Vectors, Feed.feed, Feed.Related, hne, h10, h11]

/-- Three feeds under a score that is `1` for equal vectors and `0` otherwise: the first
two become representatives, and the third joins the second, after the first has scored
below the threshold against it. -/
theorem C5_compress_first_match_witness :
    router.compressRelatedFeedsForGroup exampleScoreSame exampleRoute
        [exampleVec 1 [[1, 0]], exampleVec 2 [[0, 1]], exampleVec 3 [[0, 1]]]
      = some ([Feed.mk (exampleVec 1 [[1, 0]]).Feed [] [[1, 0]],
          Feed.mk (exampleVec 2 [[0, 1]]).Feed [Feed.mk (exampleVec 3 [[0, 1]]).Feed [] []]
            [[0, 1]]], none)
    ∧ ¬ Float32.num (85 / 100) ≤ (exampleScoreSame.RelatedScore [[1, 0]] [[0, 1]]).1
    ∧ (exampleScoreSame.RelatedScore [[1, 0]] [[0, 1]]).1 < Float32.num (85 / 100)
    ∧ Float32.num (85 / 100) ≤ (exampleScoreSame.RelatedScore [[0, 1]] [[0, 1]]).1 := by
  obtain ⟨out, hout, _, hI⟩ := C5_compress_first_match exampleScoreSame exampleRoute
    (Float32.num (85 / 100))
    [exampleVec 1 [[1, 0]], exampleVec 2 [[0, 1]], exampleVec 3 [[0, 1]]] rfl (fun _ _ => rfl)
  rw [exampleCompress_two] at hout
  simp only [Option.some.injEq, Prod.mk.injEq, and_true] at hout
  subst hout
  obtain ⟨_, hreps, hrel⟩ := hI 1 _ rfl
  obtain ⟨hnot, hlt⟩ := hreps 0 _ (by decide) rfl
  obtain ⟨x, hx, hfx, hge, _⟩ := hrel _ (List.mem_cons_self _ _)
  refine ⟨exampleCompress_two, hnot, hlt (by decide) ?_, ?_⟩
  · show (exampleScoreSame.RelatedScore [[1, 0]] [[0, 1]]).1 ≠ Float32.NaN
    decide
  · simp only [List.mem_cons, List.mem_singleton, List.not_mem_nil, or_false] at hx
    rcases hx with rfl | rfl | rfl
    · simp [exampleVec] at hfx
    · simp [exampleVec] at hfx
    · exact hge

/-- Two feeds under a score that is always `NaN` and never fails: both become
representatives, although the score of the first against the second is not below the
threshold. -/
theorem C5_compress_first_match_counterexample :
    router.compressRelatedFeedsForGroup (exampleScore Float32.NaN) exampleRoute
        [exampleVO 1, exampleVO 2]
      = some ([Feed.mk (exampleVO 1).Feed [] (exampleVO 1).Vectors,
          Feed.mk (exampleVO 2).Feed [] (exampleVO 2).Vectors], none)
    ∧ (exampleScore Float32.NaN).RelatedScore (exampleVO 1).Vectors (exampleVO 2).Vectors
        = (Float32.NaN, none)
    ∧ exampleRoute.val.CompressByRelatedThreshold = some (Float32.num (85 / 100))
    ∧ ¬ ((exampleScore Float32.NaN).RelatedScore (exampleVO 1).Vectors
          (exampleVO 2).Vectors).1 < Float32.num (85 / 100) :=
  ⟨rfl, rfl, rfl, fun h => h⟩

/-- C6: in a bucket of at least two feeds whose first feed `X` and second feed `Y` have
`RelatedScore(X.vectors, Y.vectors)` at or above the threshold (the score never failing),
the output of `compressRelatedFeedsForGroup` has `X` as its first representative, with
exactly the vectors of `X`, and `Y` as the first entry of the related list of `X`, without
vectors and without a related list of its own. -/
theorem C6_second_absorbed_by_first (deps : Dependencies) (route : RoutePtr) (thr : Float32)
    (X Y : block.FeedVO) (rest : List block.FeedVO)
    (hthr : route.val.CompressByRelatedThreshold = some thr)
    (hscore : ∀ a b, (deps.RelatedScore a b).2 = none)
    (hge : thr ≤ (deps.RelatedScore X.Vectors Y.Vectors).1) :
    ∃ rel tail, router.compressRelatedFeedsForGroup deps route (X :: Y :: rest)
      = some (Feed.mk X.Feed (Feed.mk Y.Feed [] [] :: rel) X.Vectors :: tail, none) := by
  obtain ⟨out, hout, rel, tail, hshape⟩ :=
    router.compressRelatedFeedsForGroup.loop_ind deps route thr hthr rest
      (fun _ fwr => ∃ rel tail, fwr = Feed.mk X.Feed (Feed.mk Y.Feed [] [] :: rel) X.Vectors :: tail)
      (fun _ _ _ _ _ _ r _ => hscore r.Vectors _)
      (by
        rintro done feed rest1 pre rep post - ⟨rel, tail, hfwr⟩ - -
        cases pre with
        | nil =>
          simp only [List.nil_append, List.cons.injEq] at hfwr
          obtain ⟨hrep, hpost⟩ := hfwr
          subst hrep
          exact ⟨rel ++ [Feed.relatedEntry feed], post, by simp [Feed.absorb, Feed.feed,
            Feed.Related, Feed.Vectors]⟩
        | cons a pre1 =>
          simp only [List.cons_append, List.cons.injEq] at hfwr
          obtain ⟨ha, htail⟩ := hfwr
          exact ⟨rel, pre1 ++ rep.absorb feed :: post, by simp [ha]⟩)
      (by
        rintro done feed rest1 fwr - ⟨rel, tail, hfwr⟩ -
        exact ⟨rel, tail ++ [Feed.representative feed], by simp [hfwr]⟩)
      rest [] [Feed.mk X.Feed [Feed.mk Y.Feed [] []] X.Vectors] rfl ⟨[], [], rfl⟩
  refine ⟨rel, tail, ?_⟩
  rcases hs : deps.RelatedScore X.Vectors Y.Vectors with ⟨score, e⟩
  have he : e = none := by simpa [hs] using hscore X.Vectors Y.Vectors
  subst he
  have hge1 : thr ≤ score := by simpa [hs] using hge
  simp [router.compressRelatedFeedsForGroup, router.compressRelatedFeedsForGroup.loop,
    router.compressRelatedFeedsForGroup.tryJoin, Feed.Vectors, Feed.feed, Feed.Related, hs, hthr,
    hge1, hout, hshape]

/-- Under a score that is always `1`, the second of three feeds is absorbed by the
first. -/
theorem C6_second_absorbed_by_first_witness :
    ∃ rel tail, router.compressRelatedFeedsForGroup (exampleScore 1) exampleRoute
        [exampleVO 1, exampleVO 2, exampleVO 3]
      = some (Feed.mk (exampleVO 1).Feed (Feed.mk (exampleVO 2).Feed [] [] :: rel)
          (exampleVO 1).Vectors :: tail, none) :=
  C6_second_absorbed_by_first (exampleScore 1) exampleRoute (Float32.num (85 / 100)) (exampleVO 1)
    (exampleVO 2) [exampleVO 3] rfl (fun _ _ => rfl)
    (by show (85 / 100 : ℚ) ≤ ((1 : ℕ) : ℚ); norm_num)

/-- C7: in a bucket in which `RelatedScore(a.vectors, b.vectors)` is delivered and below
the threshold for every pair of feeds with `a` earlier than `b`,
`compressRelatedFeedsForGroup` returns exactly one representative per input feed, in
input order, each with its feed's vectors and an empty related list. -/
theorem C7_no_compression_below_threshold (deps : Dependencies) (route : RoutePtr)
    (thr : Float32) (feeds : List block.FeedVO)
    (hthr : route.val.CompressByRelatedThreshold = some thr)
    (hlow : feeds.Pairwise (fun a b => (deps.RelatedScore a.Vectors b.Vectors).2 = none
      ∧ (deps.RelatedScore a.Vectors b.Vectors).1 < thr)) :
    router.compressRelatedFeedsForGroup deps route feeds
        = some (feeds.map (fun feed => Feed.mk feed.Feed [] feed.Vectors), none)
    ∧ (feeds.map (fun feed => Feed.mk feed.Feed [] feed.Vectors)).length = feeds.length := by
  have hpair : ∀ done feed rest, feeds = done ++ feed :: rest → ∀ x ∈ done,
      (deps.RelatedScore x.Vectors feed.Vectors).2 = none
        ∧ (deps.RelatedScore x.Vectors feed.Vectors).1 < thr := by
    intro done feed rest hall x hx
    rw [hall, List.pairwise_append] at hlow
    exact hlow.2.2 x hx feed (List.mem_cons_self _ _)
  obtain ⟨out, hout, hI⟩ :=
    router.compressRelatedFeedsForGroup.loop_ind deps route thr hthr feeds
      (fun done fwr => fwr = done.map Feed.representative)
      (by
        intro done feed rest fwr hall hI r hr
        subst hI
        obtain ⟨x, hx, rfl⟩ := List.mem_map.1 hr
        exact (hpair done feed rest hall x hx).1)
      (by
        intro done feed rest pre rep post hall hI hge _
        have hr : rep ∈ done.map Feed.representative := by simp [← hI]
        obtain ⟨x, hx, rfl⟩ := List.mem_map.1 hr
        exact absurd hge (Float32.not_le_of_lt _ _ (hpair done feed rest hall x hx).2))
      (by
        intro done feed rest fwr _ hI _
        simp [hI])
      feeds [] [] rfl rfl
  refine ⟨?_, by simp⟩
  simp only [router.compressRelatedFeedsForGroup, hout, hI]
  rfl

/-- Under a score that is always `0`, three feeds give three representatives. -/
theorem C7_no_compression_below_threshold_witness :
    router.compressRelatedFeedsForGroup (exampleScore 0) exampleRoute
        [exampleVO 1, exampleVO 2, exampleVO 3]
        = some ([exampleVO 1, exampleVO 2, exampleVO 3].map
            (fun feed => Feed.mk feed.Feed [] feed.Vectors), none)
    ∧ ([exampleVO 1, exampleVO 2, exampleVO 3].map
        (fun feed => Feed.mk feed.Feed [] feed.Vectors)).length
      = [exampleVO 1, exampleVO 2, exampleVO 3].length :=
  C7_no_compression_below_threshold (exampleScore 0) exampleRoute (Float32.num (85 / 100))
    [exampleVO 1, exampleVO 2, exampleVO 3] rfl
    (by
      have h0 : (0 : Float32) < Float32.num (85 / 100) := by
        show ((0 : ℕ) : ℚ) < 85 / 100
        norm_num
      simp [exampleScore, h0])

/-! ## Validated configurations -/

theorem SubRoutes.Validate.loop_cons_ok (sub : SubRoute) (rest s : List SubRoute)
    (h : SubRoutes.Validate.loop (sub :: rest) = (s, none)) :
    ∃ sub1 rest1, s = sub1 :: rest1 ∧ SubRoute.Validate sub = (sub1, none)
      ∧ SubRoutes.Validate.loop rest = (rest1, none) := by
  unfold SubRoutes.Validate.loop at h
  rcases hs : SubRoute.Validate sub with ⟨sub1, _ | err⟩
  · rw [hs] at h
    simp only at h
    rcases hr : SubRoutes.Validate.loop rest with ⟨rest1, e⟩
    rw [hr] at h
    simp only [Prod.mk.injEq] at h
    obtain ⟨h1, h2⟩ := h
    subst h2
    exact ⟨sub1, rest1, h1.symm, rfl, rfl⟩
  · rw [hs] at h
    simp at h

mutual
theorem SubRoute.Validate_threshold : ∀ (r0 r : SubRoute), SubRoute.Validate r0 = (r, none) →
    ∀ p ∈ SubRoute.postOrder r, p.val.Route.CompressByRelatedThreshold ≠ none
  | .mk (.mk g t rc subs) ms m, r, h => by
    obtain ⟨subs1, m1, hr, _, _, hl⟩ := SubRoute.Validate_ok g t rc subs ms m r h
    have ih := SubRoutes.Validate_loop_threshold subs subs1 0 hl
    subst hr
    intro p hp
    simp only [SubRoute.postOrder, List.mem_append, List.mem_singleton] at hp
    rcases hp with hp | rfl
    · exact ih p hp
    · cases t <;> simp [SubRoute.Route, Route.CompressByRelatedThreshold, ptr.To]
theorem SubRoutes.Validate_loop_threshold : ∀ (s0 s : List SubRoute) (i : Nat),
    SubRoutes.Validate.loop s0 = (s, none) →
    ∀ p ∈ SubRoutes.postOrder i s, p.val.Route.CompressByRelatedThreshold ≠ none
  | [], s, i, h => by
    simp only [SubRoutes.Validate.loop, Prod.mk.injEq] at h
    intro p hp
    simp [← h.1, SubRoutes.postOrder] at hp
  | sub :: rest, s, i, h => by
    obtain ⟨sub1, rest1, hs, h1, h2⟩ := SubRoutes.Validate.loop_cons_ok sub rest s h
    have ih1 := SubRoute.Validate_threshold sub sub1 h1
    have ih2 := SubRoutes.Validate_loop_threshold rest rest1 (i + 1) h2
    subst hs
    intro p hp
    simp only [SubRoutes.postOrder, List.mem_append, List.mem_map] at hp
    rcases hp with ⟨q, hq, rfl⟩ | hp
    · exact ih1 q hq
    · exact ih2 p hp
end

/-- In a validated configuration the target route of every feed has its threshold set. -/
theorem router.routeFeeds.targetRoute_threshold (c0 config : Config)
    (hv : Config.Validate c0 = (config, none)) (feed : block.FeedVO) :
    ∃ thr, (router.routeFeeds.targetRoute config feed).val.CompressByRelatedThreshold
      = some thr := by
  unfold Config.Validate at hv
  simp only at hv
  rcases hl : SubRoutes.Validate.loop c0.Route.SubRoutes with ⟨subs1, e⟩
  rw [hl] at hv
  simp only [Prod.mk.injEq] at hv
  obtain ⟨hc, he⟩ := hv
  subst he
  subst hc
  have hsub := SubRoutes.Validate_loop_threshold c0.Route.SubRoutes subs1 0 hl
  simp only [router.routeFeeds.targetRoute, Route.SubRoutes, SubRoutes.Match]
  rw [SubRoutes.Match_loop_eq_find]
  cases hf : (SubRoutes.postOrder 0 subs1).find? (fun p => SubRoute.ownMatch feed p.val) with
  | none =>
    cases ht : c0.Route.CompressByRelatedThreshold <;>
      simp [Route.CompressByRelatedThreshold, ptr.To]
  | some p =>
    have hp := hsub p (List.mem_of_find?_eq_some hf)
    exact Option.ne_none_iff_exists'.1 hp

/-! ## Maps -/

theorem mapAppend_values {P F : Type} (same : P → P → Bool) (m : List (P × List F)) (k : P)
    (f : F) : ((mapAppend same m k f).flatMap Prod.snd).Perm (m.flatMap Prod.snd ++ [f]) := by
  induction m with
  | nil => simp [mapAppend]
  | cons e rest ih =>
    obtain ⟨k1, fs⟩ := e
    unfold mapAppend
    split
    · simp only [List.flatMap_cons, List.append_assoc]
      exact List.Perm.append_left fs List.perm_append_comm
    · simp only [List.flatMap_cons, List.append_assoc]
      exact List.Perm.append_left fs ih

theorem mapAppend_keys {P F : Type} (same : P → P → Bool) (m : List (P × List F)) (k : P)
    (f : F) : (mapAppend same m k f).map Prod.fst
      = if m.any (fun e => same e.1 k) then m.map Prod.fst else m.map Prod.fst ++ [k] := by
  induction m with
  | nil => simp [mapAppend]
  | cons e rest ih =>
    obtain ⟨k1, fs⟩ := e
    unfold mapAppend
    cases h : same k1 k
    · simp only [Bool.false_eq_true, if_false, List.map_cons, ih, List.any_cons, h, Bool.false_or]
      split <;> simp
    · simp [h]

theorem mapSet_fresh {P V : Type} (same : P → P → Bool) (m : List (P × V)) (k : P) (v : V)
    (h : ∀ e ∈ m, same e.1 k = false) : mapSet same m k v = m ++ [(k, v)] := by
  induction m with
  | nil => rfl
  | cons e rest ih =>
    obtain ⟨k1, v1⟩ := e
    have h1 : same k1 k = false := h (k1, v1) (List.mem_cons_self _ _)
    simp [mapSet, h1, ih (fun e he => h e (List.mem_cons_of_mem _ he))]

theorem mapGet_some {V : Type} (m : List (String × V)) (k : String) (v : V)
    (h : mapGet m k = some v) : (k, v) ∈ m := by
  induction m with
  | nil => simp [mapGet] at h
  | cons e rest ih =>
    obtain ⟨k1, v1⟩ := e
    unfold mapGet at h
    split at h
    · rename_i hk
      simp only [Option.some.injEq] at h
      simp [hk, h]
    · exact List.mem_cons_of_mem _ (ih h)

theorem mapGet_none {V : Type} (m : List (String × V)) (k : String) (h : mapGet m k = none) :
    k ∉ m.map Prod.fst := by
  induction m with
  | nil => simp
  | cons e rest ih =>
    obtain ⟨k1, v1⟩ := e
    unfold mapGet at h
    split at h
    · simp at h
    · rename_i hk
      simp only [List.map_cons, List.mem_cons, not_or]
      exact ⟨fun hkk => hk hkk.symm, ih h⟩

/-! ## Grouping by labels -/

/-- The state of the loop of `groupFeedsByLabels`: the keys of `groupedFeeds` are the
pointers stored in `labelGroups`, every pointer renders to the string it is stored under,
and both the strings and the addresses are without repetition. -/
theorem router.groupFeedsByLabels.loop_spec (api : model.LabelsAPI) (route : RoutePtr) :
    ∀ (feeds : List block.FeedVO) (n : Nat) (lg : List (String × LabelsPtr))
      (gf : List (LabelsPtr × List block.FeedVO)),
      gf.map Prod.fst = lg.map Prod.snd → (lg.map Prod.fst).Nodup →
      (∀ e ∈ lg, api.String e.2.val = e.1 ∧ e.2.addr < n) →
      (lg.map (fun e => e.2.addr)).Nodup →
      ∃ lg1 : List (String × LabelsPtr),
        (router.groupFeedsByLabels.loop api route feeds n lg gf).map Prod.fst
            = lg1.map Prod.snd
        ∧ (lg1.map Prod.fst).Nodup
        ∧ (∀ e ∈ lg1, api.String e.2.val = e.1)
        ∧ (lg1.map (fun e => e.2.addr)).Nodup
        ∧ (∀ key, key ∈ lg1.map Prod.fst ↔ key ∈ lg.map Prod.fst
            ∨ ∃ f ∈ feeds, api.String (router.groupFeedsByLabels.group api route f) = key)
        ∧ ((router.groupFeedsByLabels.loop api route feeds n lg gf).flatMap Prod.snd).Perm
            (gf.flatMap Prod.snd ++ feeds) := by
  intro feeds
  induction feeds with
  | nil =>
    intro n lg gf hk hnd hstr hadd
    exact ⟨lg, by simpa [router.groupFeedsByLabels.loop] using hk, hnd,
      fun e he => (hstr e he).1, hadd, by simp, by simp [router.groupFeedsByLabels.loop]⟩
  | cons feed rest ih =>
    intro n lg gf hk hnd hstr hadd
    unfold router.groupFeedsByLabels.loop
    simp only
    cases hget : mapGet lg (api.String (router.groupFeedsByLabels.group api route feed)) with
    | some labelGroup =>
      have hmem := mapGet_some lg _ labelGroup hget
      have hany : gf.any (fun e => LabelsPtr.same e.1 labelGroup) = true := by
        have hin : labelGroup ∈ gf.map Prod.fst := by
          rw [hk]
          exact List.mem_map.2 ⟨_, hmem, rfl⟩
        obtain ⟨e, he, hfst⟩ := List.mem_map.1 hin
        rw [List.any_eq_true]
        exact ⟨e, he, by simp [LabelsPtr.same, hfst]⟩
      obtain ⟨lg1, h1, h2, h3, h4, h5, h6⟩ := ih (n + 1) lg
        (mapAppend LabelsPtr.same gf labelGroup feed)
        (by rw [mapAppend_keys, hany]; simpa using hk) hnd
        (fun e he => ⟨(hstr e he).1, Nat.lt_succ_of_lt (hstr e he).2⟩) hadd
      refine ⟨lg1, h1, h2, h3, h4, ?_, ?_⟩
      · intro key
        rw [h5 key]
        constructor
        · rintro (h | ⟨f, hf, hkey⟩)
          · exact Or.inl h
          · exact Or.inr ⟨f, List.mem_cons_of_mem _ hf, hkey⟩
        · rintro (h | ⟨f, hf, hkey⟩)
          · exact Or.inl h
          · rcases List.mem_cons.1 hf with rfl | hf
            · left
              rw [← hkey]
              exact List.mem_map.2 ⟨_, hmem, rfl⟩
            · exact Or.inr ⟨f, hf, hkey⟩
      · refine h6.trans ?_
        have := (mapAppend_values LabelsPtr.same gf labelGroup feed).append_right rest
        simpa using this
    | none =>
      have hnot := mapGet_none lg _ hget
      have hany : gf.any (fun e => LabelsPtr.same e.1
          ⟨n, router.groupFeedsByLabels.group api route feed⟩) = false := by
        rw [List.any_eq_false]
        intro e he
        have hin : e.1 ∈ lg.map Prod.snd := by
          rw [← hk]
          exact List.mem_map.2 ⟨e, he, rfl⟩
        obtain ⟨e1, he1, hsnd⟩ := List.mem_map.1 hin
        have hlt := (hstr e1 he1).2
        rw [hsnd] at hlt
        simp only [LabelsPtr.same, decide_eq_true_eq]
        omega
      obtain ⟨lg1, h1, h2, h3, h4, h5, h6⟩ := ih (n + 1)
        (lg ++ [(api.String (router.groupFeedsByLabels.group api route feed),
          ⟨n, router.groupFeedsByLabels.group api route feed⟩)])
        (mapAppend LabelsPtr.same gf ⟨n, router.groupFeedsByLabels.group api route feed⟩ feed)
        (by rw [mapAppend_keys, hany]; simp [hk])
        (by
          rw [List.map_append, List.nodup_append]
          refine ⟨hnd, by simp, ?_⟩
          intro a ha hb
          simp only [List.map_cons, List.map_nil, List.mem_singleton] at hb
          subst hb
          exact hnot ha)
        (by
          intro e he
          rcases List.mem_append.1 he with he | he
          · exact ⟨(hstr e he).1, Nat.lt_succ_of_lt (hstr e he).2⟩
          · simp only [List.mem_singleton] at he
            subst he
            exact ⟨rfl, Nat.lt_succ_self n⟩)
        (by
          rw [List.map_append, List.nodup_append]
          refine ⟨hadd, by simp, ?_⟩
          intro a ha hb
          simp only [List.map_cons, List.map_nil, List.mem_singleton] at hb
          subst hb
          obtain ⟨e, he, hea⟩ := List.mem_map.1 ha
          have := (hstr e he).2
          omega)
      refine ⟨lg1, h1, h2, h3, h4, ?_, ?_⟩
      · intro key
        rw [h5 key]
        simp only [List.map_append, List.map_cons, List.map_nil, List.mem_append,
          List.mem_cons, List.not_mem_nil, or_false]
        constructor
        · rintro ((h | h) | ⟨f, hf, hkey⟩)
          · exact Or.inl h
          · exact Or.inr ⟨feed, Or.inl rfl, h.symm⟩
          · exact Or.inr ⟨f, Or.inr hf, hkey⟩
        · rintro (h | ⟨f, hf | hf, hkey⟩)
          · exact Or.inl (Or.inl h)
          · subst hf
            exact Or.inl (Or.inr hkey.symm)
          · exact Or.inr ⟨f, hf, hkey⟩
      · refine h6.trans ?_
        have := (mapAppend_values LabelsPtr.same gf
          ⟨n, router.groupFeedsByLabels.group api route feed⟩ feed).append_right rest
        simpa using this

theorem router.groupFeedsByLabels_spec (api : model.LabelsAPI) (route : RoutePtr)
    (feeds : List block.FeedVO) :
    ((router.groupFeedsByLabels api route feeds).flatMap Prod.snd).Perm feeds
    ∧ ((router.groupFeedsByLabels api route feeds).map (fun b => b.1.addr)).Nodup
    ∧ ((router.groupFeedsByLabels api route feeds).map (fun b => api.String b.1.val)).Nodup
    ∧ ∀ key, key ∈ (router.groupFeedsByLabels api route feeds).map (fun b => api.String b.1.val)
        ↔ ∃ f ∈ feeds, api.String (router.groupFeedsByLabels.group api route f) = key := by
  obtain ⟨lg1, h1, h2, h3, h4, h5, h6⟩ := router.groupFeedsByLabels.loop_spec api route feeds 0
    [] [] rfl (by simp) (by simp) (by simp)
  have haddr : (router.groupFeedsByLabels api route feeds).map (fun b => b.1.addr)
      = lg1.map (fun e => e.2.addr) := by
    have := congrArg (List.map (fun (q : LabelsPtr) => q.addr)) h1
    simpa [router.groupFeedsByLabels, List.map_map, Function.comp_def] using this
  have hstr : (router.groupFeedsByLabels api route feeds).map (fun b => api.String b.1.val)
      = lg1.map Prod.fst := by
    have := congrArg (List.map (fun (q : LabelsPtr) => api.String q.val)) h1
    simp only [List.map_map, Function.comp_def] at this
    rw [router.groupFeedsByLabels, this]
    exact List.map_congr_left (fun e he => h3 e he)
  refine ⟨by simpa [router.groupFeedsByLabels] using h6, by rw [haddr]; exact h4,
    by rw [hstr]; exact h2, ?_⟩
  intro key
  rw [hstr, h5 key]
  simp

/-! ## Compression of all buckets, and the groups of one route -/

theorem router.compressRelatedFeedsForGroup.out_spec (deps : Dependencies) (route : RoutePtr)
    (thr : Float32) (feeds : List block.FeedVO)
    (hthr : route.val.CompressByRelatedThreshold = some thr)
    (hscore : ∀ a b, (deps.RelatedScore a b).2 = none) :
    router.compressRelatedFeedsForGroup deps route feeds
        = some (router.compressRelatedFeedsForGroup.out deps route feeds, none)
    ∧ (Feed.listed (router.compressRelatedFeedsForGroup.out deps route feeds)).Perm
        (feeds.map (fun feed => feed.Feed)) := by
  obtain ⟨out, hout, hperm, _⟩ :=
    router.compressRelatedFeedsForGroup.loop_perm deps route thr feeds hthr hscore
  simp [router.compressRelatedFeedsForGroup.out, router.compressRelatedFeedsForGroup, hout, hperm]

theorem router.compressRelatedFeeds.loop_ok_map (deps : Dependencies) (route : RoutePtr)
    (thr : Float32) (hthr : route.val.CompressByRelatedThreshold = some thr)
    (hscore : ∀ a b, (deps.RelatedScore a b).2 = none) :
    ∀ (entries : List (LabelsPtr × List block.FeedVO)) (result : List (LabelsPtr × List Feed)),
      (entries.map (fun b => b.1.addr)).Nodup →
      (∀ e ∈ entries, ∀ r ∈ result, r.1.addr ≠ e.1.addr) →
      router.compressRelatedFeeds.loop deps route entries result
        = some (.ok (result ++ entries.map
            (fun b => (b.1, router.compressRelatedFeedsForGroup.out deps route b.2)))) := by
  intro entries
  induction entries with
  | nil => intro result _ _; simp [router.compressRelatedFeeds.loop]
  | cons e rest ih =>
    intro result hnd hdis
    obtain ⟨ls, feeds⟩ := e
    have hout := (router.compressRelatedFeedsForGroup.out_spec deps route thr feeds hthr hscore).1
    have hfresh : ∀ r ∈ result, LabelsPtr.same r.1 ls = false := by
      intro r hr
      simpa [LabelsPtr.same] using hdis (ls, feeds) (List.mem_cons_self _ _) r hr
    simp only [List.map_cons, List.nodup_cons, List.mem_map, not_exists, not_and] at hnd
    simp only [router.compressRelatedFeeds.loop, hout, mapSet_fresh LabelsPtr.same result ls _ hfresh]
    rw [ih _ hnd.2]
    · simp
    · intro e he r hr
      rcases List.mem_append.1 hr with hr | hr
      · exact hdis e (List.mem_cons_of_mem _ he) r hr
      · simp only [List.mem_singleton] at hr
        subst hr
        exact fun heq => hnd.1 e he heq.symm

theorem router.compressRelatedFeeds_ok (sched : Sched) (deps : Dependencies) (route : RoutePtr)
    (thr : Float32) (hthr : route.val.CompressByRelatedThreshold = some thr)
    (hscore : ∀ a b, (deps.RelatedScore a b).2 = none)
    (groupedFeeds : List (LabelsPtr × List block.FeedVO))
    (hnd : (groupedFeeds.map (fun b => b.1.addr)).Nodup) :
    router.compressRelatedFeeds sched deps route groupedFeeds
      = some ((sched.groupedFeeds.order groupedFeeds).map
          (fun b => (b.1, router.compressRelatedFeedsForGroup.out deps route b.2)), none) := by
  have hnd1 : ((sched.groupedFeeds.order groupedFeeds).map (fun b => b.1.addr)).Nodup :=
    (((sched.groupedFeeds.perm groupedFeeds).map _).nodup_iff).2 hnd
  simp [router.compressRelatedFeeds,
    router.compressRelatedFeeds.loop_ok_map deps route thr hthr hscore _ [] hnd1 (by simp)]

theorem router.Route.loop_ok_groups (api : model.LabelsAPI) (sched : Sched) (deps : Dependencies)
    (result : rule.Result) (hscore : ∀ a b, (deps.RelatedScore a b).2 = none) :
    ∀ (entries : List (RoutePtr × List block.FeedVO)) (groups : List Group),
      (∀ e ∈ entries, ∃ thr, e.1.val.CompressByRelatedThreshold = some thr) →
      router.Route.loop api sched deps result entries groups
        = some (.ok (groups ++ entries.flatMap (router.Route.groupsOf api sched deps result))) := by
  intro entries
  induction entries with
  | nil => intro groups _; simp [router.Route.loop]
  | cons e rest ih =>
    intro groups hthr
    obtain ⟨route, feeds⟩ := e
    obtain ⟨thr, hthr1⟩ := hthr (route, feeds) (List.mem_cons_self _ _)
    have hc := router.compressRelatedFeeds_ok sched deps route thr hthr1 hscore
      (router.groupFeedsByLabels api route feeds)
      (router.groupFeedsByLabels_spec api route feeds).2.1
    simp only [router.Route.loop, hc]
    rw [ih _ (fun e he => hthr e (List.mem_cons_of_mem _ he))]
    simp [router.Route.groupsOf]

/-! ## Addresses in the configuration tree, and `routeFeeds` -/

theorem SubRoutes.postOrder_addr (s : List SubRoute) : ∀ (i : Nat),
    ∀ p ∈ SubRoutes.postOrder i s, ∃ j tl, p.addr = j :: tl ∧ i ≤ j := by
  induction s with
  | nil => intro i p hp; simp [SubRoutes.postOrder] at hp
  | cons sub rest ih =>
    intro i p hp
    simp only [SubRoutes.postOrder, List.mem_append, List.mem_map] at hp
    rcases hp with ⟨q, _, rfl⟩ | hp
    · exact ⟨i, q.addr, rfl, le_refl _⟩
    · obtain ⟨j, tl, h1, h2⟩ := ih (i + 1) p hp
      exact ⟨j, tl, h1, by omega⟩

mutual
theorem SubRoute.postOrder_addr_inj : ∀ (r : SubRoute),
    ∀ p ∈ SubRoute.postOrder r, ∀ q ∈ SubRoute.postOrder r, p.addr = q.addr → p = q
  | .mk (.mk g t rc subs) ms m => by
    have ih := SubRoutes.postOrder_siblings_addr_inj subs 0
    intro p hp q hq hpq
    simp only [SubRoute.postOrder, List.mem_append, List.mem_singleton] at hp hq
    rcases hp with hp | rfl <;> rcases hq with hq | rfl
    · exact ih p hp q hq hpq
    · obtain ⟨j, tl, h1, _⟩ := SubRoutes.postOrder_addr subs 0 p hp
      simp [h1] at hpq
    · obtain ⟨j, tl, h1, _⟩ := SubRoutes.postOrder_addr subs 0 q hq
      simp [h1] at hpq
    · rfl
theorem SubRoutes.postOrder_siblings_addr_inj : ∀ (s : List SubRoute) (i : Nat),
    ∀ p ∈ SubRoutes.postOrder i s, ∀ q ∈ SubRoutes.postOrder i s, p.addr = q.addr → p = q
  | [], i => by intro p hp; simp [SubRoutes.postOrder] at hp
  | sub :: rest, i => by
    have ih1 := SubRoute.postOrder_addr_inj sub
    have ih2 := SubRoutes.postOrder_siblings_addr_inj rest (i + 1)
    intro p hp q hq hpq
    simp only [SubRoutes.postOrder, List.mem_append, List.mem_map] at hp hq
    rcases hp with ⟨p1, hp1, rfl⟩ | hp <;> rcases hq with ⟨q1, hq1, rfl⟩ | hq
    · simp only [List.cons.injEq, true_and] at hpq
      rw [ih1 p1 hp1 q1 hq1 hpq]
    · obtain ⟨j, tl, h1, h2⟩ := SubRoutes.postOrder_addr rest (i + 1) q hq
      simp only [h1, List.cons.injEq] at hpq
      omega
    · obtain ⟨j, tl, h1, h2⟩ := SubRoutes.postOrder_addr rest (i + 1) p hp
      simp only [h1, List.cons.injEq] at hpq
      omega
    · exact ih2 p hp q hq hpq
end

/-- Two target routes with the same address are the same pointer. -/
theorem router.routeFeeds.targetRoute_addr_inj (config : Config) (f g : block.FeedVO)
    (h : (router.routeFeeds.targetRoute config f).addr
      = (router.routeFeeds.targetRoute config g).addr) :
    router.routeFeeds.targetRoute config f = router.routeFeeds.targetRoute config g := by
  simp only [router.routeFeeds.targetRoute, SubRoutes.Match] at h ⊢
  rw [SubRoutes.Match_loop_eq_find] at h ⊢
  rw [SubRoutes.Match_loop_eq_find] at h ⊢
  cases hf : (SubRoutes.postOrder 0 config.Route.SubRoutes).find?
      (fun p => SubRoute.ownMatch f p.val) <;>
    cases hg : (SubRoutes.postOrder 0 config.Route.SubRoutes).find?
      (fun p => SubRoute.ownMatch g p.val) <;>
    simp only [hf, hg] at h ⊢
  · simp at h
  · simp at h
  · rename_i p q
    simp only [Option.some.injEq] at h
    rw [SubRoutes.postOrder_siblings_addr_inj config.Route.SubRoutes 0 p (List.mem_of_find?_eq_some hf)
      q (List.mem_of_find?_eq_some hg) h]

theorem mapAppend_mem {P F : Type} (same : P → P → Bool) (m : List (P × List F)) (k : P)
    (f : F) : ∀ e ∈ mapAppend same m k f,
      (e ∈ m) ∨ (∃ e0 ∈ m, same e0.1 k = true ∧ e = (e0.1, e0.2 ++ [f])) ∨ e = (k, [f]) := by
  induction m with
  | nil => intro e he; simp [mapAppend] at he; exact Or.inr (Or.inr he)
  | cons e1 rest ih =>
    obtain ⟨k1, fs⟩ := e1
    intro e he
    unfold mapAppend at he
    split at he
    · rename_i hs
      rcases List.mem_cons.1 he with rfl | he
      · exact Or.inr (Or.inl ⟨(k1, fs), List.mem_cons_self _ _, hs, rfl⟩)
      · exact Or.inl (List.mem_cons_of_mem _ he)
    · rcases List.mem_cons.1 he with rfl | he
      · exact Or.inl (List.mem_cons_self _ _)
      · rcases ih e he with h | ⟨e0, he0, hs, rfl⟩ | h
        · exact Or.inl (List.mem_cons_of_mem _ h)
        · exact Or.inr (Or.inl ⟨e0, List.mem_cons_of_mem _ he0, hs, rfl⟩)
        · exact Or.inr (Or.inr h)

/-- The map `feedsByRoute`: its keys have distinct addresses, every feed is filed under
its target route, no entry is empty, and the entries together hold the feeds of the
batch. -/
theorem router.routeFeeds_spec (config : Config) (feeds : List block.FeedVO) :
    ((router.routeFeeds config feeds).map (fun e => e.1.addr)).Nodup
    ∧ (∀ e ∈ router.routeFeeds config feeds,
        e.2 ≠ [] ∧ ∀ f ∈ e.2, router.routeFeeds.targetRoute config f = e.1)
    ∧ ((router.routeFeeds config feeds).flatMap Prod.snd).Perm feeds := by
  have key : ∀ (feeds : List block.FeedVO) (acc : List (RoutePtr × List block.FeedVO)),
      (acc.map (fun e => e.1.addr)).Nodup →
      (∀ e ∈ acc, e.2 ≠ [] ∧ ∀ f ∈ e.2, router.routeFeeds.targetRoute config f = e.1) →
      ((feeds.foldl (fun feedsByRoute feed => mapAppend RoutePtr.same feedsByRoute
            (router.routeFeeds.targetRoute config feed) feed) acc).map (fun e => e.1.addr)).Nodup
      ∧ (∀ e ∈ feeds.foldl (fun feedsByRoute feed => mapAppend RoutePtr.same feedsByRoute
            (router.routeFeeds.targetRoute config feed) feed) acc,
          e.2 ≠ [] ∧ ∀ f ∈ e.2, router.routeFeeds.targetRoute config f = e.1)
      ∧ ((feeds.foldl (fun feedsByRoute feed => mapAppend RoutePtr.same feedsByRoute
            (router.routeFeeds.targetRoute config feed) feed) acc).flatMap Prod.snd).Perm
          (acc.flatMap Prod.snd ++ feeds) := by
    intro feeds
    induction feeds with
    | nil => intro acc h1 h2; exact ⟨h1, h2, by simp⟩
    | cons feed rest ih =>
      intro acc h1 h2
      simp only [List.foldl_cons]
      have hsame : ∀ e ∈ acc, RoutePtr.same e.1 (router.routeFeeds.targetRoute config feed) = true →
          e.1 = router.routeFeeds.targetRoute config feed := by
        intro e he hs
        obtain ⟨hne, hall⟩ := h2 e he
        obtain ⟨f0, hf0⟩ := List.exists_mem_of_ne_nil _ hne
        have h0 := hall f0 hf0
        simp only [RoutePtr.same, decide_eq_true_eq] at hs
        rw [← h0] at hs ⊢
        exact router.routeFeeds.targetRoute_addr_inj config f0 feed hs
      obtain ⟨r1, r2, r3⟩ := ih
        (mapAppend RoutePtr.same acc (router.routeFeeds.targetRoute config feed) feed)
        (by
          have hk := congrArg (List.map (fun (q : RoutePtr) => q.addr))
            (mapAppend_keys RoutePtr.same acc (router.routeFeeds.targetRoute config feed) feed)
          simp only [List.map_map, Function.comp_def] at hk
          rw [hk]
          split
          · simpa [List.map_map, Function.comp_def] using h1
          · rename_i hany
            simp only [Bool.not_eq_true, List.any_eq_false] at hany
            simp only [List.map_append, List.map_map, Function.comp_def, List.map_cons,
              List.map_nil]
            rw [List.nodup_append]
            refine ⟨h1, by simp, ?_⟩
            intro a ha hb
            simp only [List.mem_singleton] at hb
            subst hb
            obtain ⟨e, he, hea⟩ := List.mem_map.1 ha
            have := hany e he
            simp [RoutePtr.same, hea] at this)
        (by
          intro e he
          rcases mapAppend_mem RoutePtr.same acc _ feed e he with h | ⟨e0, he0, hs, rfl⟩ | rfl
          · exact h2 e h
          · refine ⟨by simp, ?_⟩
            intro f hf
            rcases List.mem_append.1 hf with hf | hf
            · exact (h2 e0 he0).2 f hf
            · simp only [List.mem_singleton] at hf
              subst hf
              exact (hsame e0 he0 hs).symm
          · exact ⟨by simp, by simp⟩)
      refine ⟨r1, r2, r3.trans ?_⟩
      have := (mapAppend_values RoutePtr.same acc
        (router.routeFeeds.targetRoute config feed) feed).append_right rest
      simpa using this
  simpa [router.routeFeeds] using key feeds [] (by simp) (by simp)

/-! ## Sorting -/

theorem sort.Slice.insert_perm {α : Type} (less : α → α → Bool) (x : α) (l : List α) :
    (sort.Slice.insert less x l).Perm (x :: l) := by
  induction l with
  | nil => simp [sort.Slice.insert]
  | cons y ys ih =>
    unfold sort.Slice.insert
    split
    · exact List.Perm.refl _
    · exact (List.Perm.cons y ih).trans (List.Perm.swap x y ys)

theorem sort.Slice_perm {α : Type} (pre : Reorder α) (less : α → α → Bool) (l : List α) :
    (sort.Slice pre less l).Perm l := by
  have key : ∀ m : List α, (m.foldr (sort.Slice.insert less) []).Perm m := by
    intro m
    induction m with
    | nil => simp
    | cons x xs ih =>
      simp only [List.foldr_cons]
      exact (sort.Slice.insert_perm less x _).trans (List.Perm.cons x ih)
  exact (key _).trans (pre.perm l)

theorem sort.Slice.insert_sorted {α : Type} (key : α → String) (x : α) (l : List α)
    (h : l.Pairwise (fun a b => key a ≤ key b)) :
    (sort.Slice.insert (fun a b => decide (key a < key b)) x l).Pairwise
      (fun a b => key a ≤ key b) := by
  induction l with
  | nil => simp [sort.Slice.insert]
  | cons y ys ih =>
    rw [List.pairwise_cons] at h
    unfold sort.Slice.insert
    split
    · rename_i hlt
      simp only [decide_eq_true_eq] at hlt
      rw [List.pairwise_cons]
      refine ⟨?_, List.pairwise_cons.2 h⟩
      intro z hz
      rcases List.mem_cons.1 hz with rfl | hz
      · exact le_of_lt hlt
      · exact le_trans (le_of_lt hlt) (h.1 z hz)
    · rename_i hlt
      simp only [decide_eq_true_eq, not_lt] at hlt
      rw [List.pairwise_cons]
      refine ⟨?_, ih h.2⟩
      intro z hz
      rcases List.mem_cons.1 ((sort.Slice.insert_perm _ x ys).subset hz) with rfl | hz
      · exact hlt
      · exact h.1 z hz

theorem sort.Slice_sorted {α : Type} (pre : Reorder α) (key : α → String) (l : List α) :
    (sort.Slice pre (fun a b => decide (key a < key b)) l).Pairwise
      (fun a b => key a ≤ key b) := by
  unfold sort.Slice
  induction pre.order l with
  | nil => simp
  | cons x xs ih =>
    simp only [List.foldr_cons]
    exact sort.Slice.insert_sorted key x _ ih

/-! ## The result of `Route` -/

/-- With a validated configuration and a score that never fails, `Route` returns, sorted,
the groups of the entries of `feedsByRoute`. -/
theorem router.Route_ok (api : model.LabelsAPI) (sched : Sched) (deps : Dependencies)
    (c0 config : Config) (result : rule.Result) (hv : Config.Validate c0 = (config, none))
    (hscore : ∀ a b, (deps.RelatedScore a b).2 = none) :
    router.Route api sched deps config result
      = some (sort.Slice sched.sortSlice (fun a b => decide (a.Name < b.Name))
          ((sched.feedsByRoute.order (router.routeFeeds config result.Feeds)).flatMap
            (router.Route.groupsOf api sched deps result)), none) := by
  have hthr : ∀ e ∈ sched.feedsByRoute.order (router.routeFeeds config result.Feeds),
      ∃ thr, e.1.val.CompressByRelatedThreshold = some thr := by
    intro e he
    have he1 := (sched.feedsByRoute.perm _).subset he
    obtain ⟨hne, hall⟩ := (router.routeFeeds_spec config result.Feeds).2.1 e he1
    obtain ⟨f0, hf0⟩ := List.exists_mem_of_ne_nil _ hne
    rw [← hall f0 hf0]
    exact router.routeFeeds.targetRoute_threshold c0 config hv f0
  simp [router.Route, router.Route.loop_ok_groups api sched deps result hscore _ [] hthr]

theorem Feed.listed_eq_withRelated (l : List Feed) : Feed.listed l = l.flatMap Feed.withRelated := by
  induction l with
  | nil => rfl
  | cons x xs ih => simp [Feed.listed, ih]

theorem Group.listed_eq_flatMap (gs : List Group) :
    Group.listed gs = gs.flatMap (fun g => Feed.listed g.FeedGroup.Feeds) := by
  induction gs with
  | nil => rfl
  | cons x xs ih => simp [Group.listed, ih]

theorem router.Route.groupsOf_listed (api : model.LabelsAPI) (sched : Sched)
    (deps : Dependencies) (result : rule.Result) (e : RoutePtr × List block.FeedVO)
    (thr : Float32) (hthr : e.1.val.CompressByRelatedThreshold = some thr)
    (hscore : ∀ a b, (deps.RelatedScore a b).2 = none) :
    (Group.listed (router.Route.groupsOf api sched deps result e)).Perm
      (e.2.map (fun feed => feed.Feed)) := by
  rw [Group.listed_eq_flatMap, router.Route.groupsOf, List.flatMap_map]
  simp only [router.Route.group]
  refine ((sched.relatedGroups.perm _).flatMap_right _).trans ?_
  rw [List.flatMap_map]
  refine ((sched.groupedFeeds.perm _).flatMap_right _).trans ?_
  refine (List.Perm.flatMap_left _ (fun b _ =>
    (router.compressRelatedFeedsForGroup.out_spec deps e.1 thr b.2 hthr hscore).2)).trans ?_
  have hp := ((router.groupFeedsByLabels_spec api e.1 e.2).1).map (fun feed => feed.Feed)
  rw [List.map_flatMap] at hp
  exact hp

/-- C3: with a validated configuration and a score that never fails, `Route` succeeds
and every input feed occurs exactly once across all output groups, counting the
representatives in `Group.Feeds` and the entries of their related lists: no feed is
dropped and none is emitted twice. -/
theorem C3_route_keeps_every_feed_once (api : model.LabelsAPI) (sched : Sched)
    (deps : Dependencies) (c0 config : Config) (result : rule.Result)
    (hv : Config.Validate c0 = (config, none))
    (hscore : ∀ a b, (deps.RelatedScore a b).2 = none) :
    ∃ groups, router.Route api sched deps config result = some (groups, none)
      ∧ (Group.listed groups).Perm (result.Feeds.map (fun feed => feed.Feed)) := by
  refine ⟨_, router.Route_ok api sched deps c0 config result hv hscore, ?_⟩
  have hsort := sort.Slice_perm sched.sortSlice (fun a b => decide (a.Name < b.Name))
    ((sched.feedsByRoute.order (router.routeFeeds config result.Feeds)).flatMap
      (router.Route.groupsOf api sched deps result))
  rw [Group.listed_eq_flatMap]
  refine (hsort.flatMap_right _).trans ?_
  rw [List.flatMap_assoc]
  refine ((sched.feedsByRoute.perm _).flatMap_right _).trans ?_
  obtain ⟨_, hroute, hperm⟩ := router.routeFeeds_spec config result.Feeds
  have hentry : ∀ e ∈ router.routeFeeds config result.Feeds,
      ((router.Route.groupsOf api sched deps result e).flatMap
        (fun g => Feed.listed g.FeedGroup.Feeds)).Perm (e.2.map (fun feed => feed.Feed)) := by
    intro e he
    obtain ⟨hne, hall⟩ := hroute e he
    obtain ⟨f0, hf0⟩ := List.exists_mem_of_ne_nil _ hne
    obtain ⟨thr, hthr⟩ := router.routeFeeds.targetRoute_threshold c0 config hv f0
    rw [hall f0 hf0] at hthr
    rw [← Group.listed_eq_flatMap]
    exact router.Route.groupsOf_listed api sched deps result e thr hthr hscore
  refine (List.Perm.flatMap_left _ hentry).trans ?_
  have hp := hperm.map (fun feed => feed.Feed)
  rw [List.map_flatMap] at hp
  exact hp

/-- A batch of three feeds routed through a validated configuration with one sub-route:
every feed occurs exactly once in the groups. -/
theorem C3_route_keeps_every_feed_once_witness :
    ∃ groups, router.Route exampleAPI exampleSched (exampleScore 0)
        (Config.Validate exampleConfig).1 exampleResult = some (groups, none)
      ∧ (Group.listed groups).Perm (exampleResult.Feeds.map (fun feed => feed.Feed)) :=
  C3_route_keeps_every_feed_once exampleAPI exampleSched (exampleScore 0) exampleConfig
    (Config.Validate exampleConfig).1 exampleResult rfl (fun _ _ => rfl)

/-- C9: whenever `Route` succeeds, the returned groups are in ascending lexicographic
order of `Name`: the name at position `i` is at most the name at every later position
`j`. -/
theorem C9_groups_sorted_by_name (api : model.LabelsAPI) (sched : Sched) (deps : Dependencies)
    (config : Config) (result : rule.Result) (groups : List Group)
    (h : router.Route api sched deps config result = some (groups, none)) :
    ∀ (i j : Nat) (gi gj : Group), i < j → groups[i]? = some gi → groups[j]? = some gj →
      gi.Name ≤ gj.Name := by
  unfold router.Route at h
  simp only at h
  split at h
  · simp at h
  · simp at h
  · rename_i pre _
    simp only [Option.some.injEq, Prod.mk.injEq, and_true] at h
    have hsorted := sort.Slice_sorted sched.sortSlice Group.Name pre
    rw [h] at hsorted
    intro i j gi gj hij hi hj
    obtain ⟨hi1, hi2⟩ := List.getElem?_eq_some_iff.1 hi
    obtain ⟨hj1, hj2⟩ := List.getElem?_eq_some_iff.1 hj
    rw [← hi2, ← hj2]
    exact List.pairwise_iff_getElem.1 hsorted i j hi1 hj1 hij

/-- A batch whose feed of source `B` comes first: the group of `A` is returned first. -/
theorem exampleRoute_sorted :
    router.Route exampleAPI exampleSched (exampleScore 0) (Config.Validate exampleConfig).1
        ⟨"rule", 0, [exampleSourceVO 3 "B", exampleSourceVO 1 "A"]⟩
      = some ([exampleGroupA, exampleGroupB], none) := by
  have h1 : router.Route.loop exampleAPI exampleSched (exampleScore 0)
      ⟨"rule", 0, [exampleSourceVO 3 "B", exampleSourceVO 1 "A"]⟩
      (exampleSched.feedsByRoute.order (router.routeFeeds (Config.Validate exampleConfig).1
        [exampleSourceVO 3 "B", exampleSourceVO 1 "A"])) []
      = some (.ok [exampleGroupB, exampleGroupA]) := rfl
  unfold router.Route
  simp only [h1]
  simp [sort.Slice, exampleSched, sort.Slice.insert, Group.Name, exampleGroupA, exampleGroupB]
  decide

/-- The batch with the feed of source `B` first comes out sorted by name: the group of `A`
at position 0, the group of `B` at position 1. -/
theorem C9_groups_sorted_by_name_witness :
    router.Route exampleAPI exampleSched (exampleScore 0) (Config.Validate exampleConfig).1
        ⟨"rule", 0, [exampleSourceVO 3 "B", exampleSourceVO 1 "A"]⟩
      = some ([exampleGroupA, exampleGroupB], none)
    ∧ exampleGroupA.Name ≤ exampleGroupB.Name :=
  ⟨exampleRoute_sorted,
    C9_groups_sorted_by_name exampleAPI exampleSched (exampleScore 0)
      (Config.Validate exampleConfig).1
      ⟨"rule", 0, [exampleSourceVO 3 "B", exampleSourceVO 1 "A"]⟩
      [exampleGroupA, exampleGroupB] exampleRoute_sorted 0 1 exampleGroupA exampleGroupB
      (by decide) rfl rfl⟩

/-! ## Independence of the order of the batch -/

theorem router.Route.bucketKeys_spec (api : model.LabelsAPI) (config : Config)
    (feeds : List block.FeedVO) :
    (router.Route.bucketKeys api config feeds).Nodup
    ∧ ∀ p, p ∈ router.Route.bucketKeys api config feeds
        ↔ ∃ f ∈ feeds, router.Route.bucketKey api config f = p := by
  obtain ⟨hnd, hroute, hperm⟩ := router.routeFeeds_spec config feeds
  refine ⟨?_, ?_⟩
  · rw [router.Route.bucketKeys, List.nodup_flatMap]
    refine ⟨?_, ?_⟩
    · intro e _
      have hs := (router.groupFeedsByLabels_spec api e.1 e.2).2.2.1
      have hinj : Function.Injective (fun (key : String) => (e.1.addr, key)) := by
        intro a b hab
        simpa using hab
      have := hs.map hinj
      simpa [List.map_map, Function.comp_def] using this
    · rw [List.Nodup, List.pairwise_map] at hnd
      refine hnd.imp ?_
      intro a b hab
      simp only [Function.onFun]
      rw [List.disjoint_left]
      intro p hpa hpb
      obtain ⟨_, _, rfl⟩ := List.mem_map.1 hpa
      obtain ⟨_, _, hb⟩ := List.mem_map.1 hpb
      simp only [Prod.mk.injEq] at hb
      exact hab hb.1.symm
  · intro p
    simp only [router.Route.bucketKeys, List.mem_flatMap, router.Route.bucketKey]
    constructor
    · rintro ⟨e, he, hp⟩
      obtain ⟨b, hb, rfl⟩ := List.mem_map.1 hp
      have hkey := ((router.groupFeedsByLabels_spec api e.1 e.2).2.2.2 (api.String b.1.val)).1
        (List.mem_map.2 ⟨b, hb, rfl⟩)
      obtain ⟨f, hf, hfkey⟩ := hkey
      refine ⟨f, hperm.subset (List.mem_flatMap.2 ⟨e, he, hf⟩), ?_⟩
      rw [(hroute e he).2 f hf, hfkey]
    · rintro ⟨f, hf, rfl⟩
      obtain ⟨e, he, hfe⟩ := List.mem_flatMap.1 (hperm.symm.subset hf)
      refine ⟨e, he, ?_⟩
      rw [(hroute e he).2 f hfe]
      have hkey := ((router.groupFeedsByLabels_spec api e.1 e.2).2.2.2
        (api.String (router.groupFeedsByLabels.group api e.1 f))).2 ⟨f, hfe, rfl⟩
      obtain ⟨b, hb, hbkey⟩ := List.mem_map.1 hkey
      exact List.mem_map.2 ⟨b, hb, by rw [hbkey]⟩

/-- The names of the groups before sorting are, up to order, the names of the buckets. -/
theorem router.Route.groupsOf_names (api : model.LabelsAPI) (sched : Sched)
    (deps : Dependencies) (config : Config) (result : rule.Result) :
    (((sched.feedsByRoute.order (router.routeFeeds config result.Feeds)).flatMap
        (router.Route.groupsOf api sched deps result)).map Group.Name).Perm
      ((router.Route.bucketKeys api config result.Feeds).map
        (fun p => result.Rule ++ "  " ++ p.2)) := by
  rw [List.map_flatMap, router.Route.bucketKeys, List.map_flatMap]
  refine ((sched.feedsByRoute.perm _).flatMap_right _).trans ?_
  refine List.Perm.flatMap_left _ ?_
  intro e _
  simp only [router.Route.groupsOf, List.map_map]
  refine ((sched.relatedGroups.perm _).map _).trans ?_
  rw [List.map_map]
  exact (sched.groupedFeeds.perm _).map _

theorem router.Route.bucketKeys_perm (api : model.LabelsAPI) (config : Config)
    (feeds1 feeds2 : List block.FeedVO) (hperm : feeds1.Perm feeds2) :
    (router.Route.bucketKeys api config feeds1).Perm
      (router.Route.bucketKeys api config feeds2) := by
  obtain ⟨hnd1, hmem1⟩ := router.Route.bucketKeys_spec api config feeds1
  obtain ⟨hnd2, hmem2⟩ := router.Route.bucketKeys_spec api config feeds2
  rw [List.perm_ext_iff_of_nodup hnd1 hnd2]
  intro p
  rw [hmem1 p, hmem2 p]
  constructor
  · rintro ⟨f, hf, hp⟩
    exact ⟨f, hperm.subset hf, hp⟩
  · rintro ⟨f, hf, hp⟩
    exact ⟨f, hperm.symm.subset hf, hp⟩

theorem sorted_names_unique (l1 l2 : List String) (hp : l1.Perm l2)
    (h1 : l1.Pairwise (fun a b => a ≤ b)) (h2 : l2.Pairwise (fun a b => a ≤ b)) : l1 = l2 := by
  haveI : IsAntisymm String (fun a b => a ≤ b) := ⟨fun a b hab hba => le_antisymm hab hba⟩
  exact List.eq_of_perm_of_sorted hp h1 h2

/-- C10: the order of the groups does not depend on the order of the input feeds.  For a
validated configuration, a rule name, a timestamp, a score that never fails and two
batches that are permutations of each other, both calls of `Route` succeed and return
the same sequence of group names, whatever order the map iterations and the sort take
in either call. -/
theorem C10_group_names_independent_of_feed_order (api : model.LabelsAPI)
    (sched1 sched2 : Sched) (deps : Dependencies) (c0 config : Config) (rule : String)
    (time : Nat) (feeds1 feeds2 : List block.FeedVO)
    (hv : Config.Validate c0 = (config, none))
    (hscore : ∀ a b, (deps.RelatedScore a b).2 = none) (hperm : feeds1.Perm feeds2) :
    ∃ groups1 groups2,
      router.Route api sched1 deps config ⟨rule, time, feeds1⟩ = some (groups1, none)
      ∧ router.Route api sched2 deps config ⟨rule, time, feeds2⟩ = some (groups2, none)
      ∧ groups1.map Group.Name = groups2.map Group.Name := by
  refine ⟨_, _, router.Route_ok api sched1 deps c0 config ⟨rule, time, feeds1⟩ hv hscore,
    router.Route_ok api sched2 deps c0 config ⟨rule, time, feeds2⟩ hv hscore, ?_⟩
  apply sorted_names_unique
  · have hn1 := ((sort.Slice_perm sched1.sortSlice (fun a b => decide (a.Name < b.Name))
        _).map Group.Name).trans
      (router.Route.groupsOf_names api sched1 deps config ⟨rule, time, feeds1⟩)
    have hn2 := ((sort.Slice_perm sched2.sortSlice (fun a b => decide (a.Name < b.Name))
        _).map Group.Name).trans
      (router.Route.groupsOf_names api sched2 deps config ⟨rule, time, feeds2⟩)
    have hk := (router.Route.bucketKeys_perm api config feeds1 feeds2 hperm).map
      (fun p => rule ++ "  " ++ p.2)
    exact (hn1.trans hk).trans hn2.symm
  · exact List.pairwise_map.2 (sort.Slice_sorted sched1.sortSlice Group.Name _)
  · exact List.pairwise_map.2 (sort.Slice_sorted sched2.sortSlice Group.Name _)

/-- A batch and its reversal, routed under two different schedules, give the same
sequence of group names. -/
theorem C10_group_names_independent_of_feed_order_witness :
    ∃ groups1 groups2,
      router.Route exampleAPI exampleSched (exampleScore 0) (Config.Validate exampleConfig).1
          ⟨"rule", 0, [exampleSourceVO 3 "B", exampleSourceVO 1 "A"]⟩ = some (groups1, none)
      ∧ router.Route exampleAPI exampleSchedReverse (exampleScore 0)
          (Config.Validate exampleConfig).1
          ⟨"rule", 0, [exampleSourceVO 1 "A", exampleSourceVO 3 "B"]⟩ = some (groups2, none)
      ∧ groups1.map Group.Name = groups2.map Group.Name :=
  C10_group_names_independent_of_feed_order exampleAPI exampleSched exampleSchedReverse
    (exampleScore 0) exampleConfig (Config.Validate exampleConfig).1 "rule" 0
    [exampleSourceVO 3 "B", exampleSourceVO 1 "A"] [exampleSourceVO 1 "A", exampleSourceVO 3 "B"]
    rfl (fun _ _ => rfl) (List.Perm.swap _ _ _)

/-! ## Errors of the similarity score -/

theorem Dependencies.failsOn_append (deps : Dependencies) (a b : List (Vectors × Vectors)) :
    deps.failsOn (a ++ b) ↔ deps.failsOn a ∨ deps.failsOn b := by
  simp only [Dependencies.failsOn, List.mem_append]
  constructor
  · rintro ⟨c, hc | hc, hf⟩
    · exact Or.inl ⟨c, hc, hf⟩
    · exact Or.inr ⟨c, hc, hf⟩
  · rintro (⟨c, hc, hf⟩ | ⟨c, hc, hf⟩)
    · exact ⟨c, Or.inl hc, hf⟩
    · exact ⟨c, Or.inr hc, hf⟩

theorem Dependencies.failsOn_nil (deps : Dependencies) : ¬ deps.failsOn [] := by
  simp [Dependencies.failsOn]

/-- The scan over the representatives returns an error exactly when one of its calls of
`RelatedScore` does, and it returns when the threshold is set. -/
theorem router.compressRelatedFeedsForGroup.tryJoin_calls (deps : Dependencies)
    (route : RoutePtr) (feed : block.FeedVO) (fwr : List Feed) :
    ((∃ thr, route.val.CompressByRelatedThreshold = some thr) →
        router.compressRelatedFeedsForGroup.tryJoin deps route feed fwr ≠ none)
    ∧ (deps.failsOn (router.compressRelatedFeedsForGroup.tryJoin.calls deps route feed fwr)
        ↔ ∃ e, router.compressRelatedFeedsForGroup.tryJoin deps route feed fwr
            = some (.error e)) := by
  induction fwr with
  | nil =>
    simp [router.compressRelatedFeedsForGroup.tryJoin,
      router.compressRelatedFeedsForGroup.tryJoin.calls, Dependencies.failsOn]
  | cons rep rest ih =>
    obtain ⟨ih1, ih2⟩ := ih
    unfold router.compressRelatedFeedsForGroup.tryJoin
      router.compressRelatedFeedsForGroup.tryJoin.calls
    rcases hs : deps.RelatedScore rep.Vectors feed.Vectors with ⟨score, _ | err⟩
    · cases hthr : route.val.CompressByRelatedThreshold with
      | none => simp [Dependencies.failsOn, hs]
      | some thr =>
        simp only
        by_cases hge : thr ≤ score
        · simp [hge, Dependencies.failsOn, hs]
        · simp only [ge_iff_le, hge, if_false]
          have hcons : deps.failsOn ((rep.Vectors, feed.Vectors) ::
              router.compressRelatedFeedsForGroup.tryJoin.calls deps route feed rest)
              ↔ deps.failsOn
                (router.compressRelatedFeedsForGroup.tryJoin.calls deps route feed rest) := by
            simp [Dependencies.failsOn, hs]
          rw [hcons, ih2]
          have ih1 := ih1 ⟨thr, hthr⟩
          rcases hr : router.compressRelatedFeedsForGroup.tryJoin deps route feed rest with
            _ | ⟨e | ⟨found, rest1⟩⟩
          · exact absurd hr ih1
          · simp
          · simp
    · simp [Dependencies.failsOn, hs]

theorem router.compressRelatedFeedsForGroup.loop_calls_of_bucket (deps : Dependencies) (route : RoutePtr) :
    ∀ (feeds : List block.FeedVO) (fwr : List Feed),
      ((∃ thr, route.val.CompressByRelatedThreshold = some thr) →
          router.compressRelatedFeedsForGroup.loop deps route feeds fwr ≠ none)
      ∧ (deps.failsOn (router.compressRelatedFeedsForGroup.loop.calls deps route feeds fwr)
          ↔ ∃ e, router.compressRelatedFeedsForGroup.loop deps route feeds fwr
              = some (.error e)) := by
  intro feeds
  induction feeds with
  | nil =>
    intro fwr
    simp [router.compressRelatedFeedsForGroup.loop,
      router.compressRelatedFeedsForGroup.loop.calls, Dependencies.failsOn]
  | cons feed rest ih =>
    intro fwr
    obtain ⟨hj1, hj2⟩ := router.compressRelatedFeedsForGroup.tryJoin_calls deps route feed fwr
    unfold router.compressRelatedFeedsForGroup.loop
      router.compressRelatedFeedsForGroup.loop.calls
    rw [Dependencies.failsOn_append, hj2]
    rcases hr : router.compressRelatedFeedsForGroup.tryJoin deps route feed fwr with
      _ | ⟨e | ⟨found, joined⟩⟩
    · refine ⟨fun hthr => absurd hr (hj1 hthr), ?_⟩
      simp [Dependencies.failsOn_nil]
    · simp [Dependencies.failsOn_nil]
    · cases found
      · obtain ⟨i1, i2⟩ := ih (fwr ++ [Feed.mk feed.Feed [] feed.Vectors])
        refine ⟨i1, ?_⟩
        rw [i2]
        simp
      · obtain ⟨i1, i2⟩ := ih joined
        refine ⟨i1, ?_⟩
        rw [i2]
        simp

/-- `compressRelatedFeedsForGroup` returns an error exactly when one of its calls of
`RelatedScore` does, returns no feeds with an error, and returns when the threshold is
set. -/
theorem router.compressRelatedFeedsForGroup_calls (deps : Dependencies) (route : RoutePtr)
    (feeds : List block.FeedVO) :
    ((∃ thr, route.val.CompressByRelatedThreshold = some thr) →
        router.compressRelatedFeedsForGroup deps route feeds ≠ none)
    ∧ (deps.failsOn (router.compressRelatedFeedsForGroup.loop.calls deps route feeds [])
        ↔ ∃ e, router.compressRelatedFeedsForGroup deps route feeds = some ([], some e))
    ∧ (∀ out e, router.compressRelatedFeedsForGroup deps route feeds = some (out, some e) →
        out = []) := by
  obtain ⟨h1, h2⟩ := router.compressRelatedFeedsForGroup.loop_calls_of_bucket deps route feeds []
  unfold router.compressRelatedFeedsForGroup
  rw [h2]
  rcases hr : router.compressRelatedFeedsForGroup.loop deps route feeds [] with _ | ⟨e | out⟩
  · exact ⟨fun hthr => absurd hr (h1 hthr), by simp, by simp⟩
  · refine ⟨by simp, by simp, ?_⟩
    intro out e1 h
    simp only [Option.some.injEq, Prod.mk.injEq] at h
    exact h.1.symm
  · exact ⟨by simp, by simp, by simp⟩

theorem router.compressRelatedFeeds.loop_calls_of_buckets (deps : Dependencies) (route : RoutePtr) :
    ∀ (entries : List (LabelsPtr × List block.FeedVO)) (result : List (LabelsPtr × List Feed)),
      ((∃ thr, route.val.CompressByRelatedThreshold = some thr) →
          router.compressRelatedFeeds.loop deps route entries result ≠ none)
      ∧ (deps.failsOn (router.compressRelatedFeeds.loop.calls deps route entries)
          ↔ ∃ e, router.compressRelatedFeeds.loop deps route entries result
              = some (.error e)) := by
  intro entries
  induction entries with
  | nil =>
    intro result
    simp [router.compressRelatedFeeds.loop, router.compressRelatedFeeds.loop.calls,
      Dependencies.failsOn]
  | cons entry rest ih =>
    intro result
    obtain ⟨ls, feeds⟩ := entry
    obtain ⟨h1, h2, h3⟩ := router.compressRelatedFeedsForGroup_calls deps route feeds
    unfold router.compressRelatedFeeds.loop router.compressRelatedFeeds.loop.calls
    rw [Dependencies.failsOn_append, h2]
    rcases hr : router.compressRelatedFeedsForGroup deps route feeds with _ | ⟨out, _ | e⟩
    · refine ⟨fun hthr => absurd hr (h1 hthr), ?_⟩
      simp [Dependencies.failsOn_nil]
    · obtain ⟨i1, i2⟩ := ih (mapSet LabelsPtr.same result ls out)
      refine ⟨i1, ?_⟩
      rw [i2]
      simp
    · have hout := h3 out e hr
      subst hout
      simp [Dependencies.failsOn_nil]

/-- `compressRelatedFeeds` returns an error exactly when one of its calls of
`RelatedScore` does, returns no buckets with an error, and returns when the threshold is
set. -/
theorem router.compressRelatedFeeds_calls (sched : Sched) (deps : Dependencies)
    (route : RoutePtr) (groupedFeeds : List (LabelsPtr × List block.FeedVO)) :
    ((∃ thr, route.val.CompressByRelatedThreshold = some thr) →
        router.compressRelatedFeeds sched deps route groupedFeeds ≠ none)
    ∧ (deps.failsOn (router.compressRelatedFeeds.loop.calls deps route
          (sched.groupedFeeds.order groupedFeeds))
        ↔ ∃ e, router.compressRelatedFeeds sched deps route groupedFeeds = some ([], some e))
    ∧ (∀ out e, router.compressRelatedFeeds sched deps route groupedFeeds
        = some (out, some e) → out = []) := by
  obtain ⟨h1, h2⟩ := router.compressRelatedFeeds.loop_calls_of_buckets deps route
    (sched.groupedFeeds.order groupedFeeds) []
  unfold router.compressRelatedFeeds
  rw [h2]
  rcases hr : router.compressRelatedFeeds.loop deps route
      (sched.groupedFeeds.order groupedFeeds) [] with _ | ⟨e | out⟩
  · exact ⟨fun hthr => absurd hr (h1 hthr), by simp, by simp⟩
  · refine ⟨by simp, by simp, ?_⟩
    intro out e1 h
    simp only [Option.some.injEq, Prod.mk.injEq] at h
    exact h.1.symm
  · exact ⟨by simp, by simp, by simp⟩

theorem router.Route.loop_calls_of_routes (api : model.LabelsAPI) (sched : Sched) (deps : Dependencies)
    (result : rule.Result) :
    ∀ (entries : List (RoutePtr × List block.FeedVO)) (groups : List Group),
      ((∀ e ∈ entries, ∃ thr, e.1.val.CompressByRelatedThreshold = some thr) →
          router.Route.loop api sched deps result entries groups ≠ none)
      ∧ (deps.failsOn (router.Route.loop.calls api sched deps entries)
          ↔ ∃ e, router.Route.loop api sched deps result entries groups
              = some (.error e)) := by
  intro entries
  induction entries with
  | nil =>
    intro groups
    simp [router.Route.loop, router.Route.loop.calls, Dependencies.failsOn]
  | cons entry rest ih =>
    intro groups
    obtain ⟨route, feeds⟩ := entry
    obtain ⟨h1, h2, h3⟩ := router.compressRelatedFeeds_calls sched deps route
      (router.groupFeedsByLabels api route feeds)
    unfold router.Route.loop router.Route.loop.calls
    simp only
    rw [Dependencies.failsOn_append, h2]
    rcases hr : router.compressRelatedFeeds sched deps route
        (router.groupFeedsByLabels api route feeds) with _ | ⟨out, _ | e⟩
    · refine ⟨fun hthr => absurd hr (h1 (hthr (route, feeds) (List.mem_cons_self _ _))), ?_⟩
      simp [Dependencies.failsOn_nil]
    · obtain ⟨i1, i2⟩ := ih
        (groups ++ (sched.relatedGroups.order out).map (router.Route.group api result route))
      refine ⟨fun hthr => i1 (fun e he => hthr e (List.mem_cons_of_mem _ he)), ?_⟩
      rw [i2]
      simp
    · have hout := h3 out e hr
      subst hout
      simp [Dependencies.failsOn_nil]

/-- C8: `Route` is atomic with respect to errors of the similarity score.  If any call of
`RelatedScore` made during a call of `Route` returns an error, `Route` returns an error
together with no groups; if every call made succeeds, `Route` (which returns for a
validated configuration) returns no error; and whenever `Route` returns an error it
returns no groups, and a call of `RelatedScore` has failed. -/
theorem C8_route_atomic_on_score_errors (api : model.LabelsAPI) (sched : Sched)
    (deps : Dependencies) (config : Config) (result : rule.Result) :
    (deps.failsOn (router.Route.calls api sched deps config result) →
        ∃ e, router.Route api sched deps config result = some ([], some e))
    ∧ ((∀ c ∈ router.Route.calls api sched deps config result,
          (deps.RelatedScore c.1 c.2).2 = none) →
        (∀ groups err, router.Route api sched deps config result = some (groups, err) →
          err = none)
        ∧ ∀ c0, Config.Validate c0 = (config, none) →
          ∃ groups, router.Route api sched deps config result = some (groups, none))
    ∧ (∀ groups e, router.Route api sched deps config result = some (groups, some e) →
        groups = [] ∧ deps.failsOn (router.Route.calls api sched deps config result)) := by
  obtain ⟨h1, h2⟩ := router.Route.loop_calls_of_routes api sched deps result
    (sched.feedsByRoute.order (router.routeFeeds config result.Feeds)) []
  have hthr : ∀ c0, Config.Validate c0 = (config, none) →
      ∀ e ∈ sched.feedsByRoute.order (router.routeFeeds config result.Feeds),
      ∃ thr, e.1.val.CompressByRelatedThreshold = some thr := by
    intro c0 hv e he
    have he1 := (sched.feedsByRoute.perm _).subset he
    obtain ⟨hne, hall⟩ := (router.routeFeeds_spec config result.Feeds).2.1 e he1
    obtain ⟨f0, hf0⟩ := List.exists_mem_of_ne_nil _ hne
    rw [← hall f0 hf0]
    exact router.routeFeeds.targetRoute_threshold c0 config hv f0
  have hnot : (∀ c ∈ router.Route.calls api sched deps config result,
      (deps.RelatedScore c.1 c.2).2 = none)
      → ¬ deps.failsOn (router.Route.calls api sched deps config result) := by
    rintro hall ⟨c, hc, hf⟩
    exact hf (hall c hc)
  unfold router.Route.calls at hnot ⊢
  unfold router.Route
  simp only
  rw [h2] at hnot ⊢
  rcases hr : router.Route.loop api sched deps result
      (sched.feedsByRoute.order (router.routeFeeds config result.Feeds)) [] with _ | ⟨e | gs⟩
  · refine ⟨by simp, fun hall => ⟨by simp, fun c0 hv => absurd hr (h1 (hthr c0 hv))⟩, by simp⟩
  · rw [hr] at hnot
    refine ⟨fun _ => ⟨e, rfl⟩, fun hall => absurd ⟨e, rfl⟩ (hnot hall), ?_⟩
    intro groups e1 h
    simp only [Option.some.injEq, Prod.mk.injEq] at h
    exact ⟨h.1.symm, ⟨e, rfl⟩⟩
  · refine ⟨by simp, fun _ => ⟨?_, fun _ _ => ⟨_, rfl⟩⟩, by simp⟩
    intro groups err h
    simp only [Option.some.injEq, Prod.mk.injEq] at h
    exact h.2.symm

/-- A batch of two feeds of one bucket whose score fails: `Route` returns the wrapped
error and no groups. -/
theorem exampleRoute_failing :
    router.Route exampleAPI exampleSched exampleFailingScore (Config.Validate exampleConfig).1
        ⟨"rule", 0, [exampleSourceVO 1 "A", ⟨⟨2, [⟨"source", "A"⟩]⟩, [[0]]⟩]⟩
      = some ([], some "compress related feeds: compress related feeds: related score: no score") :=
  rfl

/-- The one call of `RelatedScore` made for the batch of `exampleRoute_failing`
fails, and `Route` returns an error and no groups. -/
theorem C8_route_atomic_on_score_errors_witness :
    ∃ e, router.Route exampleAPI exampleSched exampleFailingScore
        (Config.Validate exampleConfig).1
        ⟨"rule", 0, [exampleSourceVO 1 "A", ⟨⟨2, [⟨"source", "A"⟩]⟩, [[0]]⟩]⟩
      = some ([], some e) :=
  (C8_route_atomic_on_score_errors exampleAPI exampleSched exampleFailingScore
    (Config.Validate exampleConfig).1
    ⟨"rule", 0, [exampleSourceVO 1 "A", ⟨⟨2, [⟨"source", "A"⟩]⟩, [[0]]⟩]⟩).1
    ⟨([[1, 0]], [[0]]), by decide, by decide⟩


/-! ## Descendants and ancestors -/

/-- C20: the own matchers of a sub-route do not gate its descendants.  If some descendant
of `A`, at any depth, has all of its own matchers satisfied by the feed, then `A.Match`
returns a descendant of `A` whose own matchers hold: never `nil` and never `A` itself,
whether or not the own matchers of `A` hold for the feed. -/
theorem C20_descendants_not_gated_by_own_matchers (A : SubRoute) (feed : block.FeedVO)
    (hdesc : ∃ p ∈ SubRoutes.postOrder 0 A.Route.SubRoutes, SubRoute.ownMatch feed p.val = true) :
    ∃ q ∈ SubRoutes.postOrder 0 A.Route.SubRoutes,
      SubRoute.Match feed A = some q ∧ SubRoute.ownMatch feed q.val = true ∧ q.addr ≠ [] := by
  obtain ⟨⟨g, t, rc, subs⟩, ms, m⟩ := A
  simp only [SubRoute.Route, Route.SubRoutes] at hdesc ⊢
  obtain ⟨p, hp, hpm⟩ := hdesc
  rw [SubRoute.Match_eq_find]
  simp only [SubRoute.postOrder, List.find?_append]
  cases hf : (SubRoutes.postOrder 0 subs).find? (fun p => SubRoute.ownMatch feed p.val) with
  | none =>
    rw [List.find?_eq_none] at hf
    exact absurd hpm (by simpa using hf p hp)
  | some q =>
    have hq := List.mem_of_find?_eq_some hf
    have hqm := List.find?_some hf
    obtain ⟨j, tl, haddr, _⟩ := SubRoutes.postOrder_addr subs 0 q hq
    exact ⟨q, hq, by simp, hqm, by simp [haddr]⟩

/-- A feed with `env=prod` and `team=other` does not match `A` (`team=infra`), yet `A.Match`
returns the child `B` (`env=prod`), and the feed is routed to the route of `B`. -/
theorem C20_descendants_not_gated_by_own_matchers_witness :
    (∃ q ∈ SubRoutes.postOrder 0 exampleA.Route.SubRoutes,
      SubRoute.Match (exampleFeed 1 [("env", "prod"), ("team", "other")]) exampleA = some q
        ∧ SubRoute.ownMatch (exampleFeed 1 [("env", "prod"), ("team", "other")]) q.val = true
        ∧ q.addr ≠ [])
    ∧ SubRoute.ownMatch (exampleFeed 1 [("env", "prod"), ("team", "other")]) exampleA = false
    ∧ router.routeFeeds.targetRoute ⟨.mk [] none [] [exampleA]⟩
        (exampleFeed 1 [("env", "prod"), ("team", "other")]) = ⟨some [0, 0], exampleB.Route⟩ :=
  ⟨C20_descendants_not_gated_by_own_matchers exampleA
      (exampleFeed 1 [("env", "prod"), ("team", "other")])
      ⟨⟨[0], exampleB⟩, List.mem_singleton.2 rfl, by decide⟩,
    by decide, rfl⟩


/-! ## Errors of validation -/

theorem SubRoute.Validate.parseLoop_err (ms : List String) :
    (SubRoute.Validate.parseLoop ms).2 ≠ none ↔ ∃ s ∈ ms, (parseMatcher s).2 ≠ none := by
  induction ms with
  | nil => simp [SubRoute.Validate.parseLoop]
  | cons s rest ih =>
    unfold SubRoute.Validate.parseLoop
    rcases hp : parseMatcher s with ⟨m, _ | err⟩
    · simp only [List.mem_cons, exists_eq_or_imp, hp, ne_eq, not_true_eq_false, false_or]
      rw [← ih]
    · simp [hp]

mutual
theorem SubRoute.Validate_err : ∀ (r : SubRoute),
    (SubRoute.Validate r).2 ≠ none ↔ ∃ p ∈ SubRoute.postOrder r, SubRoute.badMatchers p.val
  | .mk (.mk g t rc subs) ms m => by
    have ih := SubRoutes.Validate_loop_err subs 0
    have hp := SubRoute.Validate.parseLoop_err ms
    have hself : SubRoute.badMatchers (.mk (.mk g t rc subs) ms m)
        ↔ ms = [] ∨ (SubRoute.Validate.parseLoop ms).2 ≠ none := by
      rw [hp]
      rfl
    unfold SubRoute.Validate
    simp only [SubRoute.postOrder, List.mem_append, List.mem_singleton, or_and_right, exists_or,
      exists_eq_left]
    rw [← ih, hself]
    by_cases hms : ms.length = 0
    · have hnil : ms = [] := List.length_eq_zero.1 hms
      simp [hnil]
    · have hne : ms ≠ [] := fun h => hms (by simp [h])
      simp only [hms, if_false, hne, false_or]
      rcases hl : SubRoute.Validate.parseLoop ms with ⟨m1, _ | err⟩
      · simp
      · simp
theorem SubRoutes.Validate_loop_err : ∀ (s : List SubRoute) (i : Nat),
    (SubRoutes.Validate.loop s).2 ≠ none
      ↔ ∃ p ∈ SubRoutes.postOrder i s, SubRoute.badMatchers p.val
  | [], i => by simp [SubRoutes.Validate.loop, SubRoutes.postOrder]
  | sub :: rest, i => by
    have ih1 := SubRoute.Validate_err sub
    have ih2 := SubRoutes.Validate_loop_err rest (i + 1)
    unfold SubRoutes.Validate.loop
    simp only [SubRoutes.postOrder, List.mem_append, List.mem_map, or_and_right, exists_or]
    rw [← ih2]
    have hmap : (∃ p, (∃ q ∈ SubRoute.postOrder sub, (⟨i :: q.addr, q.val⟩ : SubRoutePtr) = p)
        ∧ SubRoute.badMatchers p.val) ↔ ∃ q ∈ SubRoute.postOrder sub, SubRoute.badMatchers q.val := by
      constructor
      · rintro ⟨p, ⟨q, hq, rfl⟩, hb⟩
        exact ⟨q, hq, hb⟩
      · rintro ⟨q, hq, hb⟩
        exact ⟨_, ⟨q, hq, rfl⟩, hb⟩
    rw [hmap, ← ih1]
    rcases hs : SubRoute.Validate sub with ⟨sub1, _ | err⟩
    · simp
    · simp
end

/-- C15: `Config.Validate` returns an error if and only if some sub-route at some depth
of the tree declares zero matchers or declares a matcher string that `parseMatcher`
rejects.  In particular a sub-route with an empty matcher list always makes validation
fail, and a configuration without sub-routes is valid: the top-level route needs no
matchers. -/
theorem C15_validate_error_iff_bad_matchers (c0 : Config) :
    ((Config.Validate c0).2 ≠ none
      ↔ ∃ p ∈ SubRoutes.postOrder 0 c0.Route.SubRoutes,
          p.val.Matchers = [] ∨ ∃ s ∈ p.val.Matchers, (parseMatcher s).2 ≠ none)
    ∧ (∀ p ∈ SubRoutes.postOrder 0 c0.Route.SubRoutes, p.val.Matchers = [] →
        (Config.Validate c0).2 ≠ none)
    ∧ (c0.Route.SubRoutes = [] → (Config.Validate c0).2 = none) := by
  have hloop := SubRoutes.Validate_loop_err c0.Route.SubRoutes 0
  have hval : (Config.Validate c0).2 = (SubRoutes.Validate.loop c0.Route.SubRoutes).2 := by
    unfold Config.Validate
    rfl
  rw [hval]
  refine ⟨hloop, ?_, ?_⟩
  · intro p hp hnil
    exact hloop.2 ⟨p, hp, Or.inl hnil⟩
  · intro hsubs
    rw [hsubs]
    rfl

/-- A nested sub-route without matchers makes the validation of the whole configuration
fail. -/
theorem C15_validate_error_iff_bad_matchers_witness :
    (Config.Validate exampleConfigNoMatchers).2 ≠ none :=
  (C15_validate_error_iff_bad_matchers exampleConfigNoMatchers).2.1
    ⟨[0, 0], exampleSubRoute ["b"] [] []⟩ (List.mem_cons_self _ _) rfl


/-! ## Defaults applied by validation -/

theorem SubRoutes.Validate.loop_length : ∀ (s0 s : List SubRoute),
    SubRoutes.Validate.loop s0 = (s, none) → s.length = s0.length
  | [], s, h => by
    simp only [SubRoutes.Validate.loop, Prod.mk.injEq] at h
    simp [← h.1]
  | sub :: rest, s, h => by
    obtain ⟨sub1, rest1, hs, _, h2⟩ := SubRoutes.Validate.loop_cons_ok sub rest s h
    have ih := SubRoutes.Validate.loop_length rest rest1 h2
    simp [hs, ih]

mutual
theorem SubRoute.Validate_defaults : ∀ (r0 r : SubRoute), SubRoute.Validate r0 = (r, none) →
    List.Forall₂ SubRoutePtr.validatedFrom (SubRoute.postOrder r0) (SubRoute.postOrder r)
  | .mk (.mk g t rc subs) ms m, r, h => by
    obtain ⟨subs1, m1, hr, _, _, hl⟩ := SubRoute.Validate_ok g t rc subs ms m r h
    have ih := SubRoutes.Validate_loop_defaults subs subs1 0 hl
    have hlen := SubRoutes.Validate.loop_length subs subs1 hl
    subst hr
    simp only [SubRoute.postOrder]
    refine List.rel_append ih (List.Forall₂.cons ?_ List.Forall₂.nil)
    refine ⟨rfl, ?_, ?_, rfl, rfl, hlen⟩
    · cases g <;> simp [SubRoute.Route, Route.GroupBy, model.LabelSource]
    · cases t <;> simp [SubRoute.Route, Route.CompressByRelatedThreshold, ptr.To]
theorem SubRoutes.Validate_loop_defaults : ∀ (s0 s : List SubRoute) (i : Nat),
    SubRoutes.Validate.loop s0 = (s, none) →
    List.Forall₂ SubRoutePtr.validatedFrom (SubRoutes.postOrder i s0) (SubRoutes.postOrder i s)
  | [], s, i, h => by
    simp only [SubRoutes.Validate.loop, Prod.mk.injEq] at h
    simp [← h.1, SubRoutes.postOrder]
  | sub :: rest, s, i, h => by
    obtain ⟨sub1, rest1, hs, h1, h2⟩ := SubRoutes.Validate.loop_cons_ok sub rest s h
    have ih1 := SubRoute.Validate_defaults sub sub1 h1
    have ih2 := SubRoutes.Validate_loop_defaults rest rest1 (i + 1) h2
    subst hs
    simp only [SubRoutes.postOrder]
    refine List.rel_append ?_ ih2
    rw [List.forall₂_map_left_iff, List.forall₂_map_right_iff]
    refine ih1.imp ?_
    rintro p0 p ⟨ha, hrest⟩
    exact ⟨by simp [ha], hrest⟩
end

theorem forall₂_exists_left {α β : Type} {R : α → β → Prop} {l1 : List α} {l2 : List β}
    (h : List.Forall₂ R l1 l2) : ∀ b ∈ l2, ∃ a ∈ l1, R a b := by
  induction h with
  | nil => intro b hb; simp at hb
  | cons hab _ ih =>
    intro b hb
    rcases List.mem_cons.1 hb with rfl | hb
    · exact ⟨_, List.mem_cons_self _ _, hab⟩
    · obtain ⟨a, ha, hr⟩ := ih b hb
      exact ⟨a, List.mem_cons_of_mem _ ha, hr⟩

/-- C16: after a successful `Config.Validate` the top-level route and every sub-route at
every depth have a non-empty `GroupBy` and a set threshold.  An empty `GroupBy` has become
the single key `source` and an unset threshold `0.85`; a non-empty `GroupBy` and a set
threshold, `0` included, are unchanged, as are the receivers, the matcher strings and the
shape of the tree (the sub-routes before and after correspond one to one, at the same
addresses and with the same numbers of children). -/
theorem C16_validate_applies_defaults (c0 c : Config) (hv : Config.Validate c0 = (c, none)) :
    c.Route.GroupBy = (if c0.Route.GroupBy = [] then ["source"] else c0.Route.GroupBy)
    ∧ c.Route.CompressByRelatedThreshold
        = some (c0.Route.CompressByRelatedThreshold.getD (Float32.num (85 / 100)))
    ∧ c.Route.Receivers = c0.Route.Receivers
    ∧ List.Forall₂ SubRoutePtr.validatedFrom (SubRoutes.postOrder 0 c0.Route.SubRoutes)
        (SubRoutes.postOrder 0 c.Route.SubRoutes)
    ∧ c.Route.GroupBy ≠ [] ∧ c.Route.CompressByRelatedThreshold ≠ none
    ∧ (∀ p ∈ SubRoutes.postOrder 0 c.Route.SubRoutes,
        p.val.Route.GroupBy ≠ [] ∧ p.val.Route.CompressByRelatedThreshold ≠ none)
    ∧ (∀ t : Float32, c0.Route.CompressByRelatedThreshold = some t →
        c.Route.CompressByRelatedThreshold = some t) := by
  unfold Config.Validate at hv
  simp only at hv
  rcases hl : SubRoutes.Validate.loop c0.Route.SubRoutes with ⟨subs1, e⟩
  rw [hl] at hv
  simp only [Prod.mk.injEq] at hv
  obtain ⟨hc, he⟩ := hv
  subst he
  subst hc
  have hsubs := SubRoutes.Validate_loop_defaults c0.Route.SubRoutes subs1 0 hl
  have hg : (Route.mk (if c0.Route.GroupBy.length = 0 then [model.LabelSource]
        else c0.Route.GroupBy)
      (match c0.Route.CompressByRelatedThreshold with
        | none => ptr.To (Float32.num (85 / 100))
        | some v => some v) c0.Route.Receivers subs1).GroupBy
      = (if c0.Route.GroupBy = [] then ["source"] else c0.Route.GroupBy) := by
    cases c0.Route.GroupBy <;> simp [Route.GroupBy, model.LabelSource]
  have ht : (Route.mk (if c0.Route.GroupBy.length = 0 then [model.LabelSource]
        else c0.Route.GroupBy)
      (match c0.Route.CompressByRelatedThreshold with
        | none => ptr.To (Float32.num (85 / 100))
        | some v => some v) c0.Route.Receivers subs1).CompressByRelatedThreshold
      = some (c0.Route.CompressByRelatedThreshold.getD (Float32.num (85 / 100))) := by
    cases c0.Route.CompressByRelatedThreshold <;>
      simp [Route.CompressByRelatedThreshold, ptr.To]
  refine ⟨hg, ht, rfl, hsubs, ?_, ?_, ?_, ?_⟩
  · rw [hg]
    split
    · simp
    · assumption
  · rw [ht]
    simp
  · intro p hp
    obtain ⟨p0, _, hrel⟩ := forall₂_exists_left hsubs p hp
    obtain ⟨_, hgb, hthr, _⟩ := hrel
    refine ⟨?_, ?_⟩
    · rw [hgb]
      split
      · simp
      · assumption
    · rw [hthr]
      simp
  · intro t htc
    rw [ht, htc]
    rfl

/-- The sample configuration with the group-by key `team` and the threshold `0` keeps
both, and its sub-route, which has neither, gets `source` and `0.85`. -/
theorem C16_validate_applies_defaults_witness :
    (Config.Validate exampleConfigExplicit).1.Route.GroupBy = ["team"]
    ∧ (Config.Validate exampleConfigExplicit).1.Route.CompressByRelatedThreshold = some 0
    ∧ List.Forall₂ SubRoutePtr.validatedFrom
        (SubRoutes.postOrder 0 exampleConfigExplicit.Route.SubRoutes)
        (SubRoutes.postOrder 0 (Config.Validate exampleConfigExplicit).1.Route.SubRoutes) :=
  have h := C16_validate_applies_defaults exampleConfigExplicit
    (Config.Validate exampleConfigExplicit).1 rfl
  ⟨h.1, h.2.2.2.2.2.2.2 0 rfl, h.2.2.2.1⟩


/-! ## Splitting on `=` and on `!=` -/

theorem strings.isPrefixOf_equal (c : Char) (cs : List Char) :
    List.isPrefixOf ['='] (c :: cs) = true ↔ c = '=' := by
  simp [List.isPrefixOf]
  exact eq_comm

theorem strings.isPrefixOf_notEqual (c : Char) (cs : List Char) :
    List.isPrefixOf ['!', '='] (c :: cs) = true ↔ c = '!' ∧ ∃ rest, cs = '=' :: rest := by
  cases cs with
  | nil => simp [List.isPrefixOf]
  | cons d ds =>
    simp [List.isPrefixOf]
    constructor
    · rintro ⟨h1, h2⟩
      exact ⟨h1.symm, h2.symm⟩
    · rintro ⟨h1, h2⟩
      exact ⟨h1.symm, h2.symm⟩

theorem strings.Split.scan_nonempty (sep : List Char) :
    ∀ (s : List Char) (skip : Nat) (cur : List Char), strings.Split.scan sep s skip cur ≠ [] := by
  intro s
  induction s with
  | nil => intro skip cur; simp [strings.Split.scan]
  | cons c cs ih =>
    intro skip cur
    cases skip with
    | zero =>
      simp only [strings.Split.scan]
      split
      · simp
      · exact ih 0 _
    | succ n =>
      simp only [strings.Split.scan]
      exact ih n _

theorem strings.Join.chars_cons (sep a : List Char) (rest : List (List Char)) (h : rest ≠ []) :
    strings.Join.chars sep (a :: rest) = a ++ sep ++ strings.Join.chars sep rest := by
  cases rest with
  | nil => exact absurd rfl h
  | cons b rest => rfl

theorem strings.Split.scan_equal_length : ∀ (s cur : List Char),
    (strings.Split.scan ['='] s 0 cur).length = strings.Count.scan ['='] s + 1 := by
  intro s
  induction s with
  | nil => intro cur; simp [strings.Split.scan, strings.Count.scan]
  | cons c cs ih =>
    intro cur
    simp only [strings.Split.scan, strings.Count.scan]
    split
    · have hlen : (['='] : List Char).length - 1 = 0 := rfl
      rw [hlen, List.length_cons, ih]
      omega
    · rw [ih]
      omega

theorem strings.Split.scan_equal_join : ∀ (s cur : List Char),
    strings.Join.chars ['='] (strings.Split.scan ['='] s 0 cur) = cur.reverse ++ s := by
  intro s
  induction s with
  | nil => intro cur; simp [strings.Split.scan, strings.Join.chars]
  | cons c cs ih =>
    intro cur
    simp only [strings.Split.scan]
    split
    · rename_i hp
      have hc := (strings.isPrefixOf_equal c cs).1 hp
      rw [strings.Join.chars_cons _ _ _ (strings.Split.scan_nonempty _ _ _ _)]
      simp only [List.length_singleton, Nat.sub_self]
      rw [ih]
      simp [hc]
    · rw [ih]
      simp

theorem strings.Split.scan_notEqual_length : ∀ (s : List Char),
    (∀ cur, (strings.Split.scan ['!', '='] s 0 cur).length
        = strings.Count.scan ['!', '='] s + 1)
    ∧ (∀ cur, (strings.Split.scan ['!', '='] s 1 cur).length
        = strings.Count.scan ['!', '='] s.tail + 1) := by
  intro s
  induction s with
  | nil => simp [strings.Split.scan, strings.Count.scan]
  | cons c cs ih =>
    obtain ⟨ih0, ih1⟩ := ih
    refine ⟨?_, ?_⟩
    · intro cur
      simp only [strings.Split.scan, strings.Count.scan]
      split
      · rename_i hp
        obtain ⟨_, rest, hcs⟩ := (strings.isPrefixOf_notEqual c cs).1 hp
        have hlen : (['!', '='] : List Char).length - 1 = 1 := rfl
        rw [hlen, List.length_cons, ih1]
        subst hcs
        have hno : List.isPrefixOf ['!', '='] ('=' :: rest) = false := by
          cases hq : List.isPrefixOf ['!', '='] ('=' :: rest)
          · rfl
          · exact absurd ((strings.isPrefixOf_notEqual '=' rest).1 hq).1 (by decide)
        simp only [List.tail_cons, strings.Count.scan, hno]
        simp
        omega
      · rw [ih0]
        omega
    · intro cur
      simp only [strings.Split.scan, List.tail_cons]
      exact ih0 cur

theorem strings.Split.scan_notEqual_join : ∀ (s : List Char),
    (∀ cur, strings.Join.chars ['!', '='] (strings.Split.scan ['!', '='] s 0 cur)
        = cur.reverse ++ s)
    ∧ (∀ cur, strings.Join.chars ['!', '='] (strings.Split.scan ['!', '='] s 1 cur)
        = cur.reverse ++ s.tail) := by
  intro s
  induction s with
  | nil => simp [strings.Split.scan, strings.Join.chars]
  | cons c cs ih =>
    obtain ⟨ih0, ih1⟩ := ih
    refine ⟨?_, ?_⟩
    · intro cur
      simp only [strings.Split.scan]
      split
      · rename_i hp
        obtain ⟨hc, rest, hcs⟩ := (strings.isPrefixOf_notEqual c cs).1 hp
        have hlen : (['!', '='] : List Char).length - 1 = 1 := rfl
        rw [strings.Join.chars_cons _ _ _ (strings.Split.scan_nonempty _ _ _ _), hlen, ih1]
        subst hcs
        simp [hc]
      · rw [ih0]
        simp
    · intro cur
      simp only [strings.Split.scan, List.tail_cons]
      exact ih0 cur

theorem strings.Count.scan_notEqual_le : ∀ (s : List Char),
    strings.Count.scan ['!', '='] s ≤ strings.Count.scan ['='] s := by
  have key : ∀ (cs : List Char) (c : Char),
      strings.Count.scan ['!', '='] (c :: cs) ≤ strings.Count.scan ['='] cs := by
    intro cs
    induction cs with
    | nil =>
      intro c
      simp [strings.Count.scan, List.isPrefixOf]
    | cons d ds ih =>
      intro c
      have h1 := ih d
      have e1 : strings.Count.scan ['!', '='] (c :: d :: ds)
          = (if List.isPrefixOf ['!', '='] (c :: d :: ds) then 1 else 0)
            + strings.Count.scan ['!', '='] (d :: ds) := rfl
      have e2 : strings.Count.scan ['='] (d :: ds)
          = (if List.isPrefixOf ['='] (d :: ds) then 1 else 0)
            + strings.Count.scan ['='] ds := rfl
      rw [e1, e2]
      by_cases hp : List.isPrefixOf ['!', '='] (c :: d :: ds) = true
      · obtain ⟨_, rest, hrest⟩ := (strings.isPrefixOf_notEqual c (d :: ds)).1 hp
        simp only [List.cons.injEq] at hrest
        have hd : List.isPrefixOf ['='] (d :: ds) = true :=
          (strings.isPrefixOf_equal d ds).2 hrest.1
        rw [if_pos hp, if_pos hd]
        omega
      · rw [if_neg hp]
        omega
  intro s
  cases s with
  | nil => simp [strings.Count.scan]
  | cons c cs =>
    have h := key cs c
    have e2 : strings.Count.scan ['='] (c :: cs)
        = (if List.isPrefixOf ['='] (c :: cs) then 1 else 0)
          + strings.Count.scan ['='] cs := rfl
    rw [e2]
    omega


theorem strings.Split.scan_cons_zero (sep : List Char) (c : Char) (cs cur : List Char) :
    strings.Split.scan sep (c :: cs) 0 cur
      = if sep.isPrefixOf (c :: cs) then
          cur.reverse :: strings.Split.scan sep cs (sep.length - 1) []
        else strings.Split.scan sep cs 0 (c :: cur) := rfl

theorem strings.Count.scan_cons (sep : List Char) (c : Char) (cs : List Char) :
    strings.Count.scan sep (c :: cs)
      = (if sep.isPrefixOf (c :: cs) then 1 else 0) + strings.Count.scan sep cs := rfl

theorem strings.Split.scan_equal_skip : ∀ (k cur rest : List Char), (∀ c ∈ k, c ≠ '=') →
    strings.Split.scan ['='] (k ++ rest) 0 cur = strings.Split.scan ['='] rest 0 (k.reverse ++ cur) := by
  intro k
  induction k with
  | nil => intro cur rest _; rfl
  | cons c k ih =>
    intro cur rest hk
    have hc : ¬ List.isPrefixOf ['='] (c :: (k ++ rest)) = true := fun hp =>
      hk c (List.mem_cons_self _ _) ((strings.isPrefixOf_equal c _).1 hp)
    rw [List.cons_append, strings.Split.scan_cons_zero, if_neg hc,
      ih _ _ (fun d hd => hk d (List.mem_cons_of_mem _ hd))]
    simp

theorem strings.Split.scan_notEqual_skip : ∀ (k cur rest : List Char), (∀ c ∈ k, c ≠ '=') →
    rest.head? ≠ some '=' →
    strings.Split.scan ['!', '='] (k ++ rest) 0 cur
      = strings.Split.scan ['!', '='] rest 0 (k.reverse ++ cur) := by
  intro k
  induction k with
  | nil => intro cur rest _ _; rfl
  | cons c k ih =>
    intro cur rest hk hrest
    have hc : ¬ List.isPrefixOf ['!', '='] (c :: (k ++ rest)) = true := by
      intro hp
      obtain ⟨_, tl, htl⟩ := (strings.isPrefixOf_notEqual c _).1 hp
      cases k with
      | nil =>
        simp only [List.nil_append] at htl
        exact hrest (by simp [htl])
      | cons d k1 =>
        simp only [List.cons_append, List.cons.injEq] at htl
        exact hk d (by simp) htl.1
    rw [List.cons_append, strings.Split.scan_cons_zero, if_neg hc,
      ih _ _ (fun d hd => hk d (List.mem_cons_of_mem _ hd)) hrest]
    simp

theorem strings.Split.scan_equal_pair (k v : List Char) (hk : ∀ c ∈ k, c ≠ '=')
    (hv : ∀ c ∈ v, c ≠ '=') :
    strings.Split.scan ['='] (k ++ '=' :: v) 0 [] = [k, v] := by
  rw [strings.Split.scan_equal_skip k [] _ hk]
  have hp : List.isPrefixOf ['='] ('=' :: v) = true := (strings.isPrefixOf_equal _ _).2 rfl
  have hlen : (['='] : List Char).length - 1 = 0 := rfl
  rw [strings.Split.scan_cons_zero, if_pos hp, hlen]
  have h2 := strings.Split.scan_equal_skip v [] [] hv
  simp only [List.append_nil] at h2
  rw [h2]
  simp [strings.Split.scan]

theorem strings.Split.scan_notEqual_pair (k v : List Char) (hk : ∀ c ∈ k, c ≠ '=')
    (hv : ∀ c ∈ v, c ≠ '=') :
    strings.Split.scan ['!', '='] (k ++ '!' :: '=' :: v) 0 [] = [k, v] := by
  rw [strings.Split.scan_notEqual_skip k [] _ hk (by simp)]
  have hp : List.isPrefixOf ['!', '='] ('!' :: '=' :: v) = true :=
    (strings.isPrefixOf_notEqual _ _).2 ⟨rfl, v, rfl⟩
  have hlen : (['!', '='] : List Char).length - 1 = 1 := rfl
  have hstep : strings.Split.scan ['!', '='] ('=' :: v) 1 [] = strings.Split.scan ['!', '='] v 0 [] :=
    rfl
  rw [strings.Split.scan_cons_zero, if_pos hp, hlen, hstep]
  have h2 := strings.Split.scan_notEqual_skip v [] [] hv (by simp)
  simp only [List.append_nil] at h2
  rw [h2]
  simp [strings.Split.scan]

theorem strings.Count.scan_equal_zero (s : List Char) (hs : ∀ c ∈ s, c ≠ '=') :
    strings.Count.scan ['='] s = 0 := by
  induction s with
  | nil => rfl
  | cons c cs ih =>
    have hc : ¬ List.isPrefixOf ['='] (c :: cs) = true := fun hp =>
      hs c (List.mem_cons_self _ _) ((strings.isPrefixOf_equal c _).1 hp)
    rw [strings.Count.scan_cons, if_neg hc, ih (fun d hd => hs d (List.mem_cons_of_mem _ hd))]

/-- A key without `=` that does not end in `!`, followed by `=` and a value without `=`,
holds no `!=`. -/
theorem strings.Count.scan_notEqual_zero : ∀ (k v : List Char), (∀ c ∈ k, c ≠ '=') →
    k.getLast? ≠ some '!' → (∀ c ∈ v, c ≠ '=') →
    strings.Count.scan ['!', '='] (k ++ '=' :: v) = 0 := by
  intro k
  induction k with
  | nil =>
    intro v _ _ hv
    have hp : ¬ List.isPrefixOf ['!', '='] ('=' :: v) = true := fun hp =>
      absurd ((strings.isPrefixOf_notEqual _ _).1 hp).1 (by decide)
    have hle := strings.Count.scan_notEqual_le v
    rw [strings.Count.scan_equal_zero v hv] at hle
    rw [List.nil_append, strings.Count.scan_cons, if_neg hp]
    omega
  | cons c k ih =>
    intro v hk hlast hv
    have hp : ¬ List.isPrefixOf ['!', '='] (c :: (k ++ '=' :: v)) = true := by
      intro hp
      obtain ⟨hc, tl, htl⟩ := (strings.isPrefixOf_notEqual c _).1 hp
      cases k with
      | nil => exact hlast (by simp [hc])
      | cons d k1 =>
        simp only [List.cons_append, List.cons.injEq] at htl
        exact hk d (by simp) htl.1
    have hlast1 : k.getLast? ≠ some '!' := by
      cases k with
      | nil => simp
      | cons d k1 => simpa [List.getLast?_cons_cons] using hlast
    rw [List.cons_append, strings.Count.scan_cons, if_neg hp,
      ih v (fun d hd => hk d (List.mem_cons_of_mem _ hd)) hlast1 hv]


/-! ## `parseMatcher` -/

theorem strings.Split_length_notEqual (s : String) :
    (strings.Split s matcherNotEqual).length = strings.Count s matcherNotEqual + 1 := by
  simp only [strings.Split, strings.Count, List.length_map]
  exact (strings.Split.scan_notEqual_length s.toList).1 []

theorem strings.Split_length_equal (s : String) :
    (strings.Split s matcherEqual).length = strings.Count s matcherEqual + 1 := by
  simp only [strings.Split, strings.Count, List.length_map]
  exact strings.Split.scan_equal_length s.toList []

theorem strings.Count_notEqual_le (s : String) :
    strings.Count s matcherNotEqual ≤ strings.Count s matcherEqual :=
  strings.Count.scan_notEqual_le s.toList

theorem strings.Split_pair_notEqual (s k v : String)
    (h : strings.Split s matcherNotEqual = [k, v]) : s = k ++ matcherNotEqual ++ v := by
  have hj := (strings.Split.scan_notEqual_join s.toList).1 []
  replace h : (strings.Split.scan matcherNotEqual.toList s.toList 0 []).map String.mk = [k, v] := h
  rcases hscan : strings.Split.scan matcherNotEqual.toList s.toList 0 [] with
    _ | ⟨a, _ | ⟨b, _ | ⟨c, rest⟩⟩⟩
  · rw [hscan] at h
    simp at h
  · rw [hscan] at h
    simp at h
  · rw [hscan] at h
    simp only [List.map_cons, List.map_nil, List.cons.injEq, and_true] at h
    have hscan1 : strings.Split.scan ['!', '='] s.toList 0 [] = [a, b] := hscan
    rw [hscan1] at hj
    simp only [strings.Join.chars, List.reverse_nil, List.nil_append] at hj
    rw [← h.1, ← h.2]
    apply String.ext
    simp only [String.data_append]
    exact hj.symm
  · rw [hscan] at h
    simp at h

theorem strings.Split_pair_equal (s k v : String)
    (h : strings.Split s matcherEqual = [k, v]) : s = k ++ matcherEqual ++ v := by
  have hj := strings.Split.scan_equal_join s.toList []
  replace h : (strings.Split.scan matcherEqual.toList s.toList 0 []).map String.mk = [k, v] := h
  rcases hscan : strings.Split.scan matcherEqual.toList s.toList 0 [] with
    _ | ⟨a, _ | ⟨b, _ | ⟨c, rest⟩⟩⟩
  · rw [hscan] at h
    simp at h
  · rw [hscan] at h
    simp at h
  · rw [hscan] at h
    simp only [List.map_cons, List.map_nil, List.cons.injEq, and_true] at h
    have hscan1 : strings.Split.scan ['='] s.toList 0 [] = [a, b] := hscan
    rw [hscan1] at hj
    simp only [strings.Join.chars, List.reverse_nil, List.nil_append] at hj
    rw [← h.1, ← h.2]
    apply String.ext
    simp only [String.data_append]
    exact hj.symm
  · rw [hscan] at h
    simp at h

theorem List.length_two_iff {α : Type} (l : List α) : l.length = 2 ↔ ∃ a b, l = [a, b] := by
  constructor
  · intro h
    match l, h with
    | [a, b], _ => exact ⟨a, b, rfl⟩
  · rintro ⟨a, b, rfl⟩
    rfl

theorem parseMatcher_notEqual (filter k v : String)
    (h : strings.Split filter matcherNotEqual = [k, v]) :
    parseMatcher filter = (⟨k, v, false⟩, none) := by
  simp [parseMatcher, h]

theorem parseMatcher_equal (filter k v : String)
    (h1 : (strings.Split filter matcherNotEqual).length ≠ 2)
    (h : strings.Split filter matcherEqual = [k, v]) :
    parseMatcher filter = (⟨k, v, true⟩, none) := by
  simp [parseMatcher, h1, h]

theorem parseMatcher_invalid (filter : String)
    (h1 : (strings.Split filter matcherNotEqual).length ≠ 2)
    (h2 : (strings.Split filter matcherEqual).length ≠ 2) :
    parseMatcher filter = (⟨"", "", false⟩, some (errors.New "invalid matcher")) := by
  simp only [parseMatcher, h1, ne_eq, not_false_eq_true, if_true]
  split
  · rename_i k v hkv
    exact absurd (by rw [hkv]; rfl) h2
  · rfl

/-- The three ways `parseMatcher` ends, by the numbers of `!=` and of `=` in the string. -/
theorem parseMatcher_cases (s : String) :
    (strings.Count s matcherNotEqual = 1 →
      ∃ k v, parseMatcher s = (⟨k, v, false⟩, none) ∧ s = k ++ matcherNotEqual ++ v)
    ∧ (strings.Count s matcherNotEqual ≠ 1 → strings.Count s matcherEqual = 1 →
      ∃ k v, parseMatcher s = (⟨k, v, true⟩, none) ∧ s = k ++ matcherEqual ++ v)
    ∧ (strings.Count s matcherNotEqual ≠ 1 → strings.Count s matcherEqual ≠ 1 →
      parseMatcher s = (⟨"", "", false⟩, some (errors.New "invalid matcher"))) := by
  have hl1 := strings.Split_length_notEqual s
  have hl2 := strings.Split_length_equal s
  refine ⟨?_, ?_, ?_⟩
  · intro h1
    obtain ⟨k, v, hkv⟩ := (List.length_two_iff _).1 (by rw [hl1, h1])
    exact ⟨k, v, parseMatcher_notEqual s k v hkv, strings.Split_pair_notEqual s k v hkv⟩
  · intro h1 h2
    obtain ⟨k, v, hkv⟩ := (List.length_two_iff _).1 (by rw [hl2, h2])
    exact ⟨k, v, parseMatcher_equal s k v (by rw [hl1]; omega) hkv,
      strings.Split_pair_equal s k v hkv⟩
  · intro h1 h2
    exact parseMatcher_invalid s (by rw [hl1]; omega) (by rw [hl2]; omega)


theorem strings.toList_pair (k sep v : String) :
    (k ++ sep ++ v).toList = k.toList ++ (sep.toList ++ v.toList) := by
  simp [String.toList]

/-- C17, as amended: a string with exactly one `!=` is parsed to a matcher with
`equal = false`; a string with no `!=` and exactly one `=` is parsed to a matcher with
`equal = true`; a string with neither `=` nor `!=` is rejected with the invalid-matcher
error. -/
theorem C17_parseMatcher_operator (s : String) :
    (strings.Count s "!=" = 1 → ∃ k v, parseMatcher s = (⟨k, v, false⟩, none))
    ∧ (strings.Count s "!=" = 0 → strings.Count s "=" = 1 →
        ∃ k v, parseMatcher s = (⟨k, v, true⟩, none))
    ∧ (strings.Count s "!=" = 0 → strings.Count s "=" = 0 →
        parseMatcher s = (⟨"", "", false⟩, some (errors.New "invalid matcher"))) := by
  obtain ⟨h1, h2, h3⟩ := parseMatcher_cases s
  simp only [matcherNotEqual, matcherEqual] at h1 h2 h3
  refine ⟨?_, ?_, ?_⟩
  · intro hn
    obtain ⟨k, v, hp, _⟩ := h1 hn
    exact ⟨k, v, hp⟩
  · intro hn he
    obtain ⟨k, v, hp, _⟩ := h2 (by omega) he
    exact ⟨k, v, hp⟩
  · intro hn he
    exact h3 (by omega) (by omega)

/-- The string `env=prod` has no `!=` and one `=`, and is parsed to an equality matcher. -/
theorem C17_parseMatcher_operator_witness :
    ∃ k v, parseMatcher "env=prod" = (⟨k, v, true⟩, none) :=
  (C17_parseMatcher_operator "env=prod").2.1 (by decide) (by decide)

/-- The string `a=b=c` contains `=` and no `!=`, yet it is not parsed to a matcher with
`equal = true`; the string `a!=b!=c` contains `!=`, yet it is not parsed to a matcher with
`equal = false`: both are rejected. -/
theorem C17_parseMatcher_operator_counterexample :
    (0 < strings.Count "a=b=c" "=" ∧ strings.Count "a=b=c" "!=" = 0
      ∧ ¬ ∃ k v, parseMatcher "a=b=c" = (⟨k, v, true⟩, none))
    ∧ (0 < strings.Count "a!=b!=c" "!="
      ∧ ¬ ∃ k v, parseMatcher "a!=b!=c" = (⟨k, v, false⟩, none)) := by
  have h1 : parseMatcher "a=b=c" = (⟨"", "", false⟩, some "invalid matcher") := by decide
  have h2 : parseMatcher "a!=b!=c" = (⟨"", "", false⟩, some "invalid matcher") := by decide
  refine ⟨⟨by decide, by decide, ?_⟩, ⟨by decide, ?_⟩⟩
  · rintro ⟨k, v, h⟩
    rw [h1] at h
    simp at h
  · rintro ⟨k, v, h⟩
    rw [h2] at h
    simp at h

/-- C18: `parseMatcher` keeps key and value exactly as the substrings around the
operator.  Whenever it succeeds with `(key, value, equal)`, the string is
`key ++ "=" ++ value` if `equal` and `key ++ "!=" ++ value` otherwise.  Conversely, for a
key and a value without the character `=`, `key ++ "!=" ++ value` is parsed to
`(key, value, false)`, and, if the key does not end in `!`, `key ++ "=" ++ value` is
parsed to `(key, value, true)`. -/
theorem C18_parseMatcher_keeps_substrings :
    (∀ (s k v : String) (eq : Bool), parseMatcher s = (⟨k, v, eq⟩, none) →
      s = k ++ (if eq then "=" else "!=") ++ v)
    ∧ (∀ (k v : String), (∀ c ∈ k.toList, c ≠ '=') → (∀ c ∈ v.toList, c ≠ '=') →
        parseMatcher (k ++ "!=" ++ v) = (⟨k, v, false⟩, none)
        ∧ (k.toList.getLast? ≠ some '!' →
            parseMatcher (k ++ "=" ++ v) = (⟨k, v, true⟩, none))) := by
  refine ⟨?_, ?_⟩
  · intro s k v eq h
    obtain ⟨h1, h2, h3⟩ := parseMatcher_cases s
    by_cases hn : strings.Count s matcherNotEqual = 1
    · obtain ⟨k1, v1, hp, hs⟩ := h1 hn
      rw [hp] at h
      simp only [Prod.mk.injEq, matcher.mk.injEq, and_true] at h
      obtain ⟨hk, hv, he⟩ := h
      subst hk hv he
      exact hs
    · by_cases he : strings.Count s matcherEqual = 1
      · obtain ⟨k1, v1, hp, hs⟩ := h2 hn he
        rw [hp] at h
        simp only [Prod.mk.injEq, matcher.mk.injEq, and_true] at h
        obtain ⟨hk, hv, he1⟩ := h
        subst hk hv he1
        exact hs
      · rw [h3 hn he] at h
        simp at h
  · intro k v hk hv
    refine ⟨?_, ?_⟩
    · apply parseMatcher_notEqual
      simp only [strings.Split]
      have hl : (k ++ "!=" ++ v).toList = k.toList ++ '!' :: '=' :: v.toList :=
        strings.toList_pair k "!=" v
      have hsep : matcherNotEqual.toList = ['!', '='] := rfl
      rw [hl, hsep, strings.Split.scan_notEqual_pair k.toList v.toList hk hv]
      rfl
    · intro hlast
      have hl : (k ++ "=" ++ v).toList = k.toList ++ '=' :: v.toList :=
        strings.toList_pair k "=" v
      apply parseMatcher_equal
      · rw [strings.Split_length_notEqual]
        have hz : strings.Count (k ++ "=" ++ v) matcherNotEqual = 0 := by
          simp only [strings.Count]
          have hsep : matcherNotEqual.toList = ['!', '='] := rfl
          rw [hl, hsep]
          exact strings.Count.scan_notEqual_zero k.toList v.toList hk hlast hv
        omega
      · simp only [strings.Split]
        have hsep : matcherEqual.toList = ['='] := rfl
        rw [hl, hsep, strings.Split.scan_equal_pair k.toList v.toList hk hv]
        rfl

/-- The key `team` and the value `infra ops`, blank included, come back unchanged from
`team!=infra ops`, and `env=prod` is `env`, `=`, `prod`. -/
theorem C18_parseMatcher_keeps_substrings_witness :
    parseMatcher ("team" ++ "!=" ++ "infra ops") = (⟨"team", "infra ops", false⟩, none)
    ∧ "env=prod" = "env" ++ (if true then "=" else "!=") ++ "prod" :=
  ⟨(C18_parseMatcher_keeps_substrings.2 "team" "infra ops" (by decide) (by decide)).1,
    C18_parseMatcher_keeps_substrings.1 "env=prod" "env" "prod" true (by decide)⟩

/-- C19: `parseMatcher` succeeds if and only if the string contains exactly one `!=`, or
no `!=` and exactly one `=`; every other string is rejected with the invalid-matcher
error.  With exactly one `!=` the result is an inequality matcher whose key and value are
the parts around it, whatever further `=` the string contains: `a!=b=c` gives the key `a`
and the value `b=c`, while `a=b=c` and `a==b` are rejected. -/
theorem C19_parseMatcher_succeeds_iff (s : String) :
    ((parseMatcher s).2 = none
      ↔ strings.Count s "!=" = 1 ∨ (strings.Count s "!=" = 0 ∧ strings.Count s "=" = 1))
    ∧ ((parseMatcher s).2 ≠ none →
        parseMatcher s = (⟨"", "", false⟩, some (errors.New "invalid matcher")))
    ∧ (strings.Count s "!=" = 1 →
        ∃ k v, parseMatcher s = (⟨k, v, false⟩, none) ∧ s = k ++ "!=" ++ v)
    ∧ parseMatcher "a!=b=c" = (⟨"a", "b=c", false⟩, none)
    ∧ parseMatcher "a=b=c" = (⟨"", "", false⟩, some (errors.New "invalid matcher"))
    ∧ parseMatcher "a==b" = (⟨"", "", false⟩, some (errors.New "invalid matcher")) := by
  obtain ⟨h1, h2, h3⟩ := parseMatcher_cases s
  have hle := strings.Count_notEqual_le s
  simp only [matcherNotEqual, matcherEqual] at h1 h2 h3 hle
  refine ⟨?_, ?_, h1, by decide, by decide, by decide⟩
  · by_cases hn : strings.Count s "!=" = 1
    · obtain ⟨k, v, hp, _⟩ := h1 hn
      simp [hp, hn]
    · by_cases he : strings.Count s "=" = 1
      · obtain ⟨k, v, hp, _⟩ := h2 hn he
        have hz : strings.Count s "!=" = 0 := by omega
        simp [hp, hz, he]
      · rw [h3 hn he]
        simp [hn, he]
  · intro herr
    by_cases hn : strings.Count s "!=" = 1
    · obtain ⟨k, v, hp, _⟩ := h1 hn
      rw [hp] at herr
      exact absurd rfl herr
    · by_cases he : strings.Count s "=" = 1
      · obtain ⟨k, v, hp, _⟩ := h2 hn he
        rw [hp] at herr
        exact absurd rfl herr
      · exact h3 hn he

/-- The string `a!=b=c` holds exactly one `!=` and is parsed to the key `a` and the value
`b=c`. -/
theorem C19_parseMatcher_succeeds_iff_witness :
    ∃ k v, parseMatcher "a!=b=c" = (⟨k, v, false⟩, none) ∧ "a!=b=c" = k ++ "!=" ++ v :=
  (C19_parseMatcher_succeeds_iff "a!=b=c").2.2.1 (by decide)


/-! ## What a successful `Route` returns -/

theorem router.compressRelatedFeedsForGroup.tryJoin_joined (deps : Dependencies)
    (route : RoutePtr) (feed : block.FeedVO) : ∀ (fwr joined : List Feed),
    router.compressRelatedFeedsForGroup.tryJoin deps route feed fwr = some (.ok (true, joined)) →
    ∃ pre rep post, fwr = pre ++ rep :: post ∧ joined = pre ++ rep.absorb feed :: post := by
  intro fwr
  induction fwr with
  | nil =>
    intro joined h
    simp [router.compressRelatedFeedsForGroup.tryJoin] at h
  | cons rep rest ih =>
    intro joined h
    unfold router.compressRelatedFeedsForGroup.tryJoin at h
    rcases hs : deps.RelatedScore rep.Vectors feed.Vectors with ⟨score, _ | err⟩
    · rw [hs] at h
      simp only at h
      cases hthr : route.val.CompressByRelatedThreshold with
      | none =>
        rw [hthr] at h
        simp at h
      | some thr =>
        rw [hthr] at h
        simp only at h
        split at h
        · simp only [Option.some.injEq, Except.ok.injEq, Prod.mk.injEq, true_and] at h
          exact ⟨[], rep, rest, rfl, by rw [← h]; rfl⟩
        · rcases hr : router.compressRelatedFeedsForGroup.tryJoin deps route feed rest with
            _ | ⟨e | ⟨found, rest1⟩⟩
          · rw [hr] at h
            simp at h
          · rw [hr] at h
            simp at h
          · rw [hr] at h
            simp only [Option.some.injEq, Except.ok.injEq, Prod.mk.injEq] at h
            obtain ⟨hf, hj⟩ := h
            subst hf
            obtain ⟨pre, rep1, post, h1, h2⟩ := ih rest1 hr
            exact ⟨rep :: pre, rep1, post, by simp [h1], by simp [← hj, h2]⟩
    · rw [hs] at h
      simp at h

theorem router.compressRelatedFeedsForGroup.loop_listed (deps : Dependencies)
    (route : RoutePtr) : ∀ (feeds : List block.FeedVO) (fwr out : List Feed),
    router.compressRelatedFeedsForGroup.loop deps route feeds fwr = some (.ok out) →
    (Feed.listed out).Perm (Feed.listed fwr ++ feeds.map (fun feed => feed.Feed)) := by
  intro feeds
  induction feeds with
  | nil =>
    intro fwr out h
    simp only [router.compressRelatedFeedsForGroup.loop, Option.some.injEq,
      Except.ok.injEq] at h
    simp [h]
  | cons feed rest ih =>
    intro fwr out h
    unfold router.compressRelatedFeedsForGroup.loop at h
    rcases hr : router.compressRelatedFeedsForGroup.tryJoin deps route feed fwr with
      _ | ⟨e | ⟨found, joined⟩⟩
    · rw [hr] at h
      simp at h
    · rw [hr] at h
      simp at h
    · rw [hr] at h
      cases found
      · simp only at h
        refine (ih _ out h).trans ?_
        simp [Feed.listed_append, Feed.listed, Feed.withRelated, Feed.feed, Feed.Related]
      · simp only at h
        obtain ⟨pre, rep, post, h1, h2⟩ :=
          router.compressRelatedFeedsForGroup.tryJoin_joined deps route feed fwr joined hr
        subst h1 h2
        refine (ih _ out h).trans ?_
        have := (Feed.listed_absorb pre post rep feed).append_right
          (rest.map (fun feed => feed.Feed))
        simpa using this

/-- A bucket whose compression succeeds: the result is `out`, and it lists the feeds of
the bucket once each. -/
theorem router.compressRelatedFeedsForGroup.success (deps : Dependencies) (route : RoutePtr)
    (feeds : List block.FeedVO) (fs : List Feed)
    (h : router.compressRelatedFeedsForGroup deps route feeds = some (fs, none)) :
    fs = router.compressRelatedFeedsForGroup.out deps route feeds
    ∧ (Feed.listed fs).Perm (feeds.map (fun feed => feed.Feed)) := by
  refine ⟨by simp [router.compressRelatedFeedsForGroup.out, h], ?_⟩
  unfold router.compressRelatedFeedsForGroup at h
  rcases hr : router.compressRelatedFeedsForGroup.loop deps route feeds [] with _ | ⟨e | out⟩
  · rw [hr] at h
    simp at h
  · rw [hr] at h
    simp at h
  · rw [hr] at h
    simp only [Option.some.injEq, Prod.mk.injEq, and_true] at h
    subst h
    simpa [Feed.listed] using
      router.compressRelatedFeedsForGroup.loop_listed deps route feeds [] out hr

theorem router.compressRelatedFeeds.loop_success_map (deps : Dependencies) (route : RoutePtr) :
    ∀ (entries : List (LabelsPtr × List block.FeedVO))
      (result r : List (LabelsPtr × List Feed)),
      (entries.map (fun b => b.1.addr)).Nodup →
      (∀ e ∈ entries, ∀ x ∈ result, x.1.addr ≠ e.1.addr) →
      router.compressRelatedFeeds.loop deps route entries result = some (.ok r) →
      r = result ++ entries.map
          (fun b => (b.1, router.compressRelatedFeedsForGroup.out deps route b.2))
      ∧ ∀ b ∈ entries, router.compressRelatedFeedsForGroup deps route b.2
          = some (router.compressRelatedFeedsForGroup.out deps route b.2, none) := by
  intro entries
  induction entries with
  | nil =>
    intro result r _ _ h
    simp only [router.compressRelatedFeeds.loop, Option.some.injEq, Except.ok.injEq] at h
    simp [h]
  | cons e rest ih =>
    intro result r hnd hdis h
    obtain ⟨ls, feeds⟩ := e
    unfold router.compressRelatedFeeds.loop at h
    rcases hc : router.compressRelatedFeedsForGroup deps route feeds with _ | ⟨fs, _ | err⟩
    · rw [hc] at h
      simp at h
    · rw [hc] at h
      simp only at h
      have hfs := (router.compressRelatedFeedsForGroup.success deps route feeds fs hc).1
      have hfresh : ∀ x ∈ result, LabelsPtr.same x.1 ls = false := by
        intro x hx
        simpa [LabelsPtr.same] using hdis (ls, feeds) (List.mem_cons_self _ _) x hx
      rw [mapSet_fresh LabelsPtr.same result ls _ hfresh] at h
      simp only [List.map_cons, List.nodup_cons, List.mem_map, not_exists, not_and] at hnd
      obtain ⟨h1, h2⟩ := ih _ r hnd.2 (by
        intro e he x hx
        rcases List.mem_append.1 hx with hx | hx
        · exact hdis e (List.mem_cons_of_mem _ he) x hx
        · simp only [List.mem_singleton] at hx
          subst hx
          exact fun heq => hnd.1 e he heq.symm) h
      refine ⟨by simp [h1, hfs], ?_⟩
      intro b hb
      rcases List.mem_cons.1 hb with rfl | hb
      · rw [hc, hfs]
      · exact h2 b hb
    · rw [hc] at h
      simp at h

theorem router.compressRelatedFeeds_success (sched : Sched) (deps : Dependencies)
    (route : RoutePtr) (groupedFeeds : List (LabelsPtr × List block.FeedVO))
    (hnd : (groupedFeeds.map (fun b => b.1.addr)).Nodup) (m : List (LabelsPtr × List Feed))
    (h : router.compressRelatedFeeds sched deps route groupedFeeds = some (m, none)) :
    m = (sched.groupedFeeds.order groupedFeeds).map
        (fun b => (b.1, router.compressRelatedFeedsForGroup.out deps route b.2))
    ∧ ∀ b ∈ groupedFeeds, router.compressRelatedFeedsForGroup deps route b.2
        = some (router.compressRelatedFeedsForGroup.out deps route b.2, none) := by
  have hnd1 : ((sched.groupedFeeds.order groupedFeeds).map (fun b => b.1.addr)).Nodup :=
    (((sched.groupedFeeds.perm groupedFeeds).map _).nodup_iff).2 hnd
  unfold router.compressRelatedFeeds at h
  rcases hr : router.compressRelatedFeeds.loop deps route
      (sched.groupedFeeds.order groupedFeeds) [] with _ | ⟨e | out⟩
  · rw [hr] at h
    simp at h
  · rw [hr] at h
    simp at h
  · rw [hr] at h
    simp only [Option.some.injEq, Prod.mk.injEq, and_true] at h
    subst h
    obtain ⟨h1, h2⟩ := router.compressRelatedFeeds.loop_success_map deps route _ [] out hnd1
      (by simp) hr
    refine ⟨by simpa using h1, ?_⟩
    intro b hb
    exact h2 b ((sched.groupedFeeds.perm groupedFeeds).symm.subset hb)

theorem router.Route.loop_success_groups (api : model.LabelsAPI) (sched : Sched) (deps : Dependencies)
    (result : rule.Result) :
    ∀ (entries : List (RoutePtr × List block.FeedVO)) (groups gs : List Group),
      router.Route.loop api sched deps result entries groups = some (.ok gs) →
      gs = groups ++ entries.flatMap (router.Route.groupsOf api sched deps result)
      ∧ ∀ e ∈ entries, ∀ b ∈ router.groupFeedsByLabels api e.1 e.2,
          router.compressRelatedFeedsForGroup deps e.1 b.2
            = some (router.compressRelatedFeedsForGroup.out deps e.1 b.2, none) := by
  intro entries
  induction entries with
  | nil =>
    intro groups gs h
    simp only [router.Route.loop, Option.some.injEq, Except.ok.injEq] at h
    simp [h]
  | cons e rest ih =>
    intro groups gs h
    obtain ⟨route, feeds⟩ := e
    unfold router.Route.loop at h
    simp only at h
    rcases hc : router.compressRelatedFeeds sched deps route
        (router.groupFeedsByLabels api route feeds) with _ | ⟨m, _ | err⟩
    · rw [hc] at h
      simp at h
    · rw [hc] at h
      simp only at h
      obtain ⟨hm, hb⟩ := router.compressRelatedFeeds_success sched deps route
        (router.groupFeedsByLabels api route feeds)
        (router.groupFeedsByLabels_spec api route feeds).2.1 m hc
      obtain ⟨h1, h2⟩ := ih _ gs h
      refine ⟨by simp [h1, hm, router.Route.groupsOf], ?_⟩
      intro e he
      rcases List.mem_cons.1 he with rfl | he
      · exact hb
      · exact h2 e he
    · rw [hc] at h
      simp at h

/-- The groups of a successful `Route`: the groups of the entries of `feedsByRoute`,
sorted; the compression of every bucket has succeeded. -/
theorem router.Route_success (api : model.LabelsAPI) (sched : Sched) (deps : Dependencies)
    (config : Config) (result : rule.Result) (groups : List Group)
    (h : router.Route api sched deps config result = some (groups, none)) :
    groups = sort.Slice sched.sortSlice (fun a b => decide (a.Name < b.Name))
        ((sched.feedsByRoute.order (router.routeFeeds config result.Feeds)).flatMap
          (router.Route.groupsOf api sched deps result))
    ∧ ∀ e ∈ router.routeFeeds config result.Feeds,
        ∀ b ∈ router.groupFeedsByLabels api e.1 e.2,
          router.compressRelatedFeedsForGroup deps e.1 b.2
            = some (router.compressRelatedFeedsForGroup.out deps e.1 b.2, none) := by
  unfold router.Route at h
  simp only at h
  rcases hr : router.Route.loop api sched deps result
      (sched.feedsByRoute.order (router.routeFeeds config result.Feeds)) [] with _ | ⟨e | gs⟩
  · rw [hr] at h
    simp at h
  · rw [hr] at h
    simp at h
  · rw [hr] at h
    simp only [Option.some.injEq, Prod.mk.injEq, and_true] at h
    obtain ⟨h1, h2⟩ := router.Route.loop_success_groups api sched deps result _ [] gs hr
    refine ⟨by rw [← h, h1]; simp, ?_⟩
    intro e he
    exact h2 e ((sched.feedsByRoute.perm _).symm.subset he)


/-! ## The buckets of `groupFeedsByLabels` -/

theorem mapAppend_mem_sharp {P F : Type} (same : P → P → Bool) (k : P) (f : F) :
    ∀ (m : List (P × List F)),
      m.Pairwise (fun a b => ¬ (same a.1 k = true ∧ same b.1 k = true)) →
      ∀ e ∈ mapAppend same m k f,
        (e ∈ m ∧ same e.1 k = false)
        ∨ (∃ e0 ∈ m, same e0.1 k = true ∧ e = (e0.1, e0.2 ++ [f]))
        ∨ (e = (k, [f]) ∧ ∀ e0 ∈ m, same e0.1 k = false) := by
  intro m
  induction m with
  | nil =>
    intro _ e he
    simp only [mapAppend, List.mem_singleton] at he
    exact Or.inr (Or.inr ⟨he, by simp⟩)
  | cons e1 rest ih =>
    obtain ⟨k1, fs⟩ := e1
    intro hp e he
    rw [List.pairwise_cons] at hp
    unfold mapAppend at he
    split at he
    · rename_i hs
      rcases List.mem_cons.1 he with rfl | he
      · exact Or.inr (Or.inl ⟨(k1, fs), List.mem_cons_self _ _, hs, rfl⟩)
      · refine Or.inl ⟨List.mem_cons_of_mem _ he, ?_⟩
        have := hp.1 e he
        simp only [hs, true_and, Bool.not_eq_true] at this
        exact this
    · rename_i hs
      rcases List.mem_cons.1 he with rfl | he
      · exact Or.inl ⟨List.mem_cons_self _ _, by simpa using hs⟩
      · rcases ih hp.2 e he with ⟨h1, h2⟩ | ⟨e0, he0, hs0, rfl⟩ | ⟨h1, h2⟩
        · exact Or.inl ⟨List.mem_cons_of_mem _ h1, h2⟩
        · exact Or.inr (Or.inl ⟨e0, List.mem_cons_of_mem _ he0, hs0, rfl⟩)
        · refine Or.inr (Or.inr ⟨h1, ?_⟩)
          intro e0 he0
          rcases List.mem_cons.1 he0 with rfl | he0
          · simpa using hs
          · exact h2 e0 he0

theorem LabelsPtr.same_pairwise (gf : List (LabelsPtr × List block.FeedVO)) (p : LabelsPtr)
    (hnd : (gf.map (fun b => b.1.addr)).Nodup) :
    gf.Pairwise (fun a b => ¬ (LabelsPtr.same a.1 p = true ∧ LabelsPtr.same b.1 p = true)) := by
  rw [List.Nodup, List.pairwise_map] at hnd
  refine hnd.imp ?_
  intro a b hab
  simp only [LabelsPtr.same, decide_eq_true_eq, not_and]
  intro ha hb
  exact hab (ha.trans hb.symm)

theorem router.groupFeedsByLabels.Inv_step (api : model.LabelsAPI) (route : RoutePtr)
    (done : List block.FeedVO) (feed : block.FeedVO) (n : Nat) (lg : List (String × LabelsPtr))
    (gf : List (LabelsPtr × List block.FeedVO))
    (hI : router.groupFeedsByLabels.Inv api route done n lg gf) :
    (∀ labelGroup, mapGet lg (api.String (router.groupFeedsByLabels.group api route feed))
        = some labelGroup →
      router.groupFeedsByLabels.Inv api route (done ++ [feed]) (n + 1) lg
        (mapAppend LabelsPtr.same gf labelGroup feed))
    ∧ (mapGet lg (api.String (router.groupFeedsByLabels.group api route feed)) = none →
      router.groupFeedsByLabels.Inv api route (done ++ [feed]) (n + 1)
        (lg ++ [(api.String (router.groupFeedsByLabels.group api route feed),
          ⟨n, router.groupFeedsByLabels.group api route feed⟩)])
        (mapAppend LabelsPtr.same gf ⟨n, router.groupFeedsByLabels.group api route feed⟩ feed)) := by
  obtain ⟨hk, hnd, hstr, hadd, hseen, hbk⟩ := hI
  have hgfaddr : (gf.map (fun b => b.1.addr)).Nodup := by
    have := congrArg (List.map (fun (q : LabelsPtr) => q.addr)) hk
    simp only [List.map_map, Function.comp_def] at this
    rw [this]
    exact hadd
  have hkey : ∀ b ∈ gf, ∃ e ∈ lg, e.2 = b.1 := by
    intro b hb
    have hin : b.1 ∈ lg.map Prod.snd := by
      rw [← hk]
      exact List.mem_map.2 ⟨b, hb, rfl⟩
    obtain ⟨e, he, hsnd⟩ := List.mem_map.1 hin
    exact ⟨e, he, hsnd⟩
  have hsplit : ∀ (q : block.FeedVO → Bool),
      (done ++ [feed]).filter q = done.filter q ++ (if q feed then [feed] else []) := by
    intro q
    rw [List.filter_append]
    congr 1
    cases hq : q feed <;> simp [List.filter, hq]
  refine ⟨?_, ?_⟩
  · intro ptr hget
    have hmem := mapGet_some lg _ ptr hget
    have hany : gf.any (fun e => LabelsPtr.same e.1 ptr) = true := by
      have hin : ptr ∈ gf.map Prod.fst := by
        rw [hk]
        exact List.mem_map.2 ⟨_, hmem, rfl⟩
      obtain ⟨e, he, hfst⟩ := List.mem_map.1 hin
      rw [List.any_eq_true]
      exact ⟨e, he, by simp [LabelsPtr.same, hfst]⟩
    refine ⟨by rw [mapAppend_keys, hany]; simpa using hk, hnd,
      fun e he => ⟨(hstr e he).1, Nat.lt_succ_of_lt (hstr e he).2⟩, hadd, ?_, ?_⟩
    · intro f hf
      rcases List.mem_append.1 hf with hf | hf
      · exact hseen f hf
      · simp only [List.mem_singleton] at hf
        subst hf
        exact List.mem_map.2 ⟨_, hmem, rfl⟩
    · intro b hb
      rcases mapAppend_mem_sharp LabelsPtr.same ptr feed gf
          (LabelsPtr.same_pairwise gf ptr hgfaddr) b hb with
        ⟨hbgf, hsame⟩ | ⟨e0, he0, hsame, rfl⟩ | ⟨_, hnone⟩
      · obtain ⟨hfil, hhead⟩ := hbk b hbgf
        refine ⟨?_, hhead⟩
        rw [hsplit]
        have hne : ¬ api.String (router.groupFeedsByLabels.group api route feed)
            = api.String b.1.val := by
          intro heq
          obtain ⟨e, he, hsnd⟩ := hkey b hbgf
          have he1 : e.1 = (api.String (router.groupFeedsByLabels.group api route feed), ptr).1 := by
            rw [← (hstr e he).1, hsnd, heq]
          have := List.inj_on_of_nodup_map hnd he hmem he1
          rw [this] at hsnd
          simp only [LabelsPtr.same, decide_eq_false_iff_not] at hsame
          exact hsame (by rw [← hsnd])
        simp [hne, hfil]
      · obtain ⟨hfil, x, rest, hx, hval⟩ := hbk e0 he0
        obtain ⟨e, he, hsnd⟩ := hkey e0 he0
        have he1 : (fun (e : String × LabelsPtr) => e.2.addr) e
            = (fun (e : String × LabelsPtr) => e.2.addr)
              (api.String (router.groupFeedsByLabels.group api route feed), ptr) := by
          simp only [LabelsPtr.same, decide_eq_true_eq] at hsame
          simp only [hsnd]
          exact hsame
        have heq := List.inj_on_of_nodup_map hadd he hmem he1
        have hptr : e0.1 = ptr := by rw [← hsnd, heq]
        have hs : api.String (router.groupFeedsByLabels.group api route feed)
            = api.String e0.1.val := by
          rw [hptr]
          exact ((hstr _ hmem).1).symm
        refine ⟨?_, x, rest ++ [feed], by simp [hx], hval⟩
        rw [hsplit]
        simp [hs, ← hfil]
      · have := hnone
        rw [List.any_eq_true] at hany
        obtain ⟨e, he, hs⟩ := hany
        rw [this e he] at hs
        exact absurd hs (by simp)
  · intro hget
    have hnot := mapGet_none lg _ hget
    have hlt : ∀ b ∈ gf, b.1.addr < n := by
      intro b hb
      obtain ⟨e, he, hsnd⟩ := hkey b hb
      rw [← hsnd]
      exact (hstr e he).2
    have hany : gf.any (fun e => LabelsPtr.same e.1
        ⟨n, router.groupFeedsByLabels.group api route feed⟩) = false := by
      rw [List.any_eq_false]
      intro e he
      have := hlt e he
      simp only [LabelsPtr.same, decide_eq_true_eq]
      omega
    refine ⟨by rw [mapAppend_keys, hany]; simp [hk], ?_, ?_, ?_, ?_, ?_⟩
    · rw [List.map_append, List.nodup_append]
      refine ⟨hnd, by simp, ?_⟩
      intro a ha hb
      simp only [List.map_cons, List.map_nil, List.mem_singleton] at hb
      subst hb
      exact hnot ha
    · intro e he
      rcases List.mem_append.1 he with he | he
      · exact ⟨(hstr e he).1, Nat.lt_succ_of_lt (hstr e he).2⟩
      · simp only [List.mem_singleton] at he
        subst he
        exact ⟨rfl, Nat.lt_succ_self n⟩
    · rw [List.map_append, List.nodup_append]
      refine ⟨hadd, by simp, ?_⟩
      intro a ha hb
      simp only [List.map_cons, List.map_nil, List.mem_singleton] at hb
      subst hb
      obtain ⟨e, he, hea⟩ := List.mem_map.1 ha
      have := (hstr e he).2
      omega
    · intro f hf
      rw [List.map_append, List.mem_append]
      rcases List.mem_append.1 hf with hf | hf
      · exact Or.inl (hseen f hf)
      · simp only [List.mem_singleton] at hf
        subst hf
        exact Or.inr (by simp)
    · intro b hb
      rcases mapAppend_mem_sharp LabelsPtr.same
          ⟨n, router.groupFeedsByLabels.group api route feed⟩ feed gf
          (LabelsPtr.same_pairwise gf _ hgfaddr) b hb with
        ⟨hbgf, _⟩ | ⟨e0, he0, hsame, rfl⟩ | ⟨rfl, _⟩
      · obtain ⟨hfil, hhead⟩ := hbk b hbgf
        refine ⟨?_, hhead⟩
        rw [hsplit]
        have hne : ¬ api.String (router.groupFeedsByLabels.group api route feed)
            = api.String b.1.val := by
          intro heq
          obtain ⟨e, he, hsnd⟩ := hkey b hbgf
          apply hnot
          rw [heq, ← hsnd, (hstr e he).1]
          exact List.mem_map.2 ⟨e, he, rfl⟩
        simp [hne, hfil]
      · have := hlt e0 he0
        simp only [LabelsPtr.same, decide_eq_true_eq] at hsame
        omega
      · refine ⟨?_, feed, [], rfl, rfl⟩
        rw [hsplit]
        have hdone : done.filter (fun f => decide
            (api.String (router.groupFeedsByLabels.group api route f)
              = api.String (router.groupFeedsByLabels.group api route feed))) = [] := by
          rw [List.filter_eq_nil_iff]
          intro f hf
          simp only [decide_eq_true_eq]
          intro heq
          exact hnot (heq ▸ hseen f hf)
        simp [hdone]


theorem router.groupFeedsByLabels.loop_buckets (api : model.LabelsAPI) (route : RoutePtr) :
    ∀ (feeds done : List block.FeedVO) (n : Nat) (lg : List (String × LabelsPtr))
      (gf : List (LabelsPtr × List block.FeedVO)),
      router.groupFeedsByLabels.Inv api route done n lg gf →
      ∀ b ∈ router.groupFeedsByLabels.loop api route feeds n lg gf,
        b.2 = (done ++ feeds).filter
          (fun f => decide (api.String (router.groupFeedsByLabels.group api route f)
            = api.String b.1.val))
        ∧ ∃ x rest, b.2 = x :: rest
            ∧ b.1.val = router.groupFeedsByLabels.group api route x := by
  intro feeds
  induction feeds with
  | nil =>
    intro done n lg gf hI b hb
    simp only [router.groupFeedsByLabels.loop] at hb
    rw [List.append_nil]
    exact hI.2.2.2.2.2 b hb
  | cons feed rest ih =>
    intro done n lg gf hI b hb
    have hstep := router.groupFeedsByLabels.Inv_step api route done feed n lg gf hI
    unfold router.groupFeedsByLabels.loop at hb
    simp only at hb
    split at hb
    · rename_i ptr hget
      have := ih (done ++ [feed]) (n + 1) lg _ (hstep.1 ptr hget) b hb
      simpa only [List.append_assoc, List.singleton_append] using this
    · rename_i hget
      have := ih (done ++ [feed]) (n + 1) _ _ (hstep.2 hget) b hb
      simpa only [List.append_assoc, List.singleton_append] using this

theorem router.groupFeedsByLabels_buckets (api : model.LabelsAPI) (route : RoutePtr)
    (feeds : List block.FeedVO) :
    ∀ b ∈ router.groupFeedsByLabels api route feeds,
      b.2 = feeds.filter
        (fun f => decide (api.String (router.groupFeedsByLabels.group api route f)
          = api.String b.1.val))
      ∧ ∃ x rest, b.2 = x :: rest
          ∧ b.1.val = router.groupFeedsByLabels.group api route x := by
  intro b hb
  have hI : router.groupFeedsByLabels.Inv api route [] 0 [] [] := by
    refine ⟨rfl, List.nodup_nil, ?_, List.nodup_nil, ?_, ?_⟩ <;> simp
  have := router.groupFeedsByLabels.loop_buckets api route feeds [] 0 [] [] hI b hb
  simpa only [List.nil_append] using this

/-! ## The groups that `Route` returns -/

theorem router.routeFeeds.targetRoute_congr (config : Config) (x y : block.FeedVO)
    (h : x.Feed = y.Feed) :
    router.routeFeeds.targetRoute config x = router.routeFeeds.targetRoute config y := by
  have hown : (fun (p : SubRoutePtr) => SubRoute.ownMatch x p.val)
      = (fun (p : SubRoutePtr) => SubRoute.ownMatch y p.val) := by
    funext p
    have hholds : matcher.holds x = matcher.holds y := by
      funext m
      simp only [matcher.holds, h]
    simp only [SubRoute.ownMatch, hholds]
  simp only [router.routeFeeds.targetRoute, SubRoutes.Match, SubRoutes.Match_loop_eq_find, hown]

theorem router.groupFeedsByLabels.group_congr (api : model.LabelsAPI) (route : RoutePtr)
    (x y : block.FeedVO) (h : x.Feed = y.Feed) :
    router.groupFeedsByLabels.group api route x = router.groupFeedsByLabels.group api route y := by
  simp only [router.groupFeedsByLabels.group, h]

theorem router.Route_returns (api : model.LabelsAPI) (sched : Sched) (deps : Dependencies)
    (config : Config) (result : rule.Result) (groups : List Group) (err : Option error)
    (h : router.Route api sched deps config result = some (groups, err)) :
    ∀ g ∈ groups, ∃ e ∈ router.routeFeeds config result.Feeds,
      ∃ b ∈ router.groupFeedsByLabels api e.1 e.2,
        g = router.Route.group api result e.1
          (b.1, router.compressRelatedFeedsForGroup.out deps e.1 b.2)
        ∧ (Feed.listed g.FeedGroup.Feeds).Perm (b.2.map (fun feed => feed.Feed)) := by
  intro g hg
  cases err with
  | some e0 =>
    exfalso
    unfold router.Route at h
    simp only at h
    split at h
    · exact absurd h (by simp)
    · simp only [Option.some.injEq, Prod.mk.injEq] at h
      rw [← h.1] at hg
      exact absurd hg (List.not_mem_nil _)
    · simp at h
  | none =>
    obtain ⟨hgs, hall⟩ := router.Route_success api sched deps config result groups h
    rw [hgs] at hg
    have hg1 := (sort.Slice_perm _ _ _).subset hg
    obtain ⟨e, he, hge⟩ := List.mem_flatMap.1 hg1
    have he1 := (sched.feedsByRoute.perm _).subset he
    simp only [router.Route.groupsOf] at hge
    obtain ⟨entry, hentry, hgeq⟩ := List.mem_map.1 hge
    have hentry1 := (sched.relatedGroups.perm _).subset hentry
    obtain ⟨b, hb, hbe⟩ := List.mem_map.1 hentry1
    have hb1 := (sched.groupedFeeds.perm _).subset hb
    refine ⟨e, he1, b, hb1, by rw [← hgeq, ← hbe], ?_⟩
    have hok := hall e he1 b hb1
    have := (router.compressRelatedFeedsForGroup.success deps e.1 b.2 _ hok).2
    rw [← hgeq, ← hbe]
    exact this

theorem router.Route_returns_feed (api : model.LabelsAPI) (config : Config)
    (feeds : List block.FeedVO) (e : RoutePtr × List block.FeedVO)
    (he : e ∈ router.routeFeeds config feeds) (b : LabelsPtr × List block.FeedVO)
    (hb : b ∈ router.groupFeedsByLabels api e.1 e.2) (l : List model.Feed)
    (hl : l.Perm (b.2.map (fun feed => feed.Feed))) (x : block.FeedVO) (hx : x.Feed ∈ l) :
    router.routeFeeds.targetRoute config x = e.1
    ∧ api.String (router.groupFeedsByLabels.group api e.1 x) = api.String b.1.val := by
  obtain ⟨f, hf, hfx⟩ := List.mem_map.1 (hl.subset hx)
  have hfil := (router.groupFeedsByLabels_buckets api e.1 e.2 b hb).1
  rw [hfil, List.mem_filter, decide_eq_true_eq] at hf
  have ht := ((router.routeFeeds_spec config feeds).2.1 e he).2 f hf.1
  refine ⟨?_, ?_⟩
  · rw [router.routeFeeds.targetRoute_congr config x f hfx.symm, ht]
  · rw [router.groupFeedsByLabels.group_congr api e.1 x f hfx.symm, hf.2]


/-! ## C13: the receivers of a group -/

/-- C13: every group that `Route` returns carries the receivers of the route that owns
its feeds. Every feed listed in a returned group, as a representative or as a related
feed, is a feed of the batch, and the `Receivers` of the group are those of the route
that route resolution assigns to that feed: the matched sub-route's, or the default
route's when no sub-route matches. -/
theorem C13_group_receivers_of_owning_route (api : model.LabelsAPI) (sched : Sched)
    (deps : Dependencies) (config : Config) (result : rule.Result) (groups : List Group)
    (err : Option error)
    (h : router.Route api sched deps config result = some (groups, err)) :
    ∀ g ∈ groups,
      (∀ m ∈ Feed.listed g.FeedGroup.Feeds, ∃ x ∈ result.Feeds, x.Feed = m)
      ∧ ∀ x : block.FeedVO, x.Feed ∈ Feed.listed g.FeedGroup.Feeds →
          g.Receivers = (router.routeFeeds.targetRoute config x).val.Receivers
          ∧ g.Receivers = (match SubRoutes.Match config.Route.SubRoutes x with
              | some matched => matched.val.Route.Receivers
              | none => config.Route.Receivers) := by
  intro g hg
  obtain ⟨e, he, b, hb, hgeq, hl⟩ := router.Route_returns api sched deps config result groups err h g hg
  have hrecv : g.Receivers = e.1.val.Receivers := by rw [hgeq]; rfl
  refine ⟨?_, ?_⟩
  · intro m hm
    obtain ⟨f, hf, hfm⟩ := List.mem_map.1 (hl.subset hm)
    rw [(router.groupFeedsByLabels_buckets api e.1 e.2 b hb).1] at hf
    have hfe : f ∈ e.2 := (List.mem_filter.1 hf).1
    have hin : f ∈ (router.routeFeeds config result.Feeds).flatMap Prod.snd :=
      List.mem_flatMap.2 ⟨e, he, hfe⟩
    exact ⟨f, (router.routeFeeds_spec config result.Feeds).2.2.subset hin, hfm⟩
  · intro x hx
    have ht := (router.Route_returns_feed api config result.Feeds e he b hb _ hl x hx).1
    have h1 : g.Receivers = (router.routeFeeds.targetRoute config x).val.Receivers := by
      rw [hrecv, ht]
    refine ⟨h1, ?_⟩
    rw [h1]
    unfold router.routeFeeds.targetRoute
    cases SubRoutes.Match config.Route.SubRoutes x <;> rfl

theorem C13_group_receivers_of_owning_route_witness :
    router.Route exampleAPI exampleSched (exampleScore 0) (Config.Validate exampleConfig).1
        ⟨"rule", 0, [exampleSourceVO 3 "B", exampleSourceVO 1 "A"]⟩
      = some ([exampleGroupA, exampleGroupB], none)
    ∧ (exampleSourceVO 3 "B").Feed ∈ Feed.listed exampleGroupB.FeedGroup.Feeds
    ∧ exampleGroupB.Receivers
        = (router.routeFeeds.targetRoute (Config.Validate exampleConfig).1
            (exampleSourceVO 3 "B")).val.Receivers
    ∧ exampleGroupB.Receivers
        = (match SubRoutes.Match (Config.Validate exampleConfig).1.Route.SubRoutes
            (exampleSourceVO 3 "B") with
          | some matched => matched.val.Route.Receivers
          | none => (Config.Validate exampleConfig).1.Route.Receivers) :=
  ⟨exampleRoute_sorted, List.mem_cons_self _ _,
    (C13_group_receivers_of_owning_route exampleAPI exampleSched (exampleScore 0)
      (Config.Validate exampleConfig).1
      ⟨"rule", 0, [exampleSourceVO 3 "B", exampleSourceVO 1 "A"]⟩
      [exampleGroupA, exampleGroupB] none exampleRoute_sorted exampleGroupB
      (List.mem_cons_of_mem _ (List.mem_cons_self _ _))).2 (exampleSourceVO 3 "B")
      (List.mem_cons_self _ _)⟩


/-! ## C12: the name, time and labels of a group -/

theorem RoutePtr.same_pairwise_addr (acc : List (RoutePtr × List block.FeedVO)) (p : RoutePtr)
    (hnd : (acc.map (fun e => e.1.addr)).Nodup) :
    acc.Pairwise (fun a b => ¬ (RoutePtr.same a.1 p = true ∧ RoutePtr.same b.1 p = true)) := by
  rw [List.Nodup, List.pairwise_map] at hnd
  refine hnd.imp ?_
  intro a b hab
  simp only [RoutePtr.same, decide_eq_true_eq, not_and]
  intro ha hb
  exact hab (ha.trans hb.symm)

theorem router.routeFeeds_entries (config : Config) (feeds : List block.FeedVO) :
    ∀ e ∈ router.routeFeeds config feeds,
      e.2 = feeds.filter
        (fun f => decide ((router.routeFeeds.targetRoute config f).addr = e.1.addr)) := by
  have key : ∀ (feeds done : List block.FeedVO) (acc : List (RoutePtr × List block.FeedVO)),
      (acc.map (fun e => e.1.addr)).Nodup →
      (∀ f ∈ done, (router.routeFeeds.targetRoute config f).addr
        ∈ acc.map (fun e => e.1.addr)) →
      (∀ e ∈ acc, e.2 = done.filter
        (fun f => decide ((router.routeFeeds.targetRoute config f).addr = e.1.addr))) →
      ∀ e ∈ feeds.foldl (fun feedsByRoute feed => mapAppend RoutePtr.same feedsByRoute
            (router.routeFeeds.targetRoute config feed) feed) acc,
        e.2 = (done ++ feeds).filter
          (fun f => decide ((router.routeFeeds.targetRoute config f).addr = e.1.addr)) := by
    intro feeds
    induction feeds with
    | nil =>
      intro done acc _ _ h3 e he
      rw [List.append_nil]
      exact h3 e he
    | cons feed rest ih =>
      intro done acc h1 h2 h3 e he
      simp only [List.foldl_cons] at he
      have hk := congrArg (List.map (fun (q : RoutePtr) => q.addr))
        (mapAppend_keys RoutePtr.same acc (router.routeFeeds.targetRoute config feed) feed)
      simp only [List.map_map, Function.comp_def] at hk
      have hsplit : ∀ (q : block.FeedVO → Bool),
          (done ++ [feed]).filter q = done.filter q ++ (if q feed then [feed] else []) := by
        intro q
        rw [List.filter_append]
        congr 1
        cases hq : q feed <;> simp [List.filter, hq]
      have := ih (done ++ [feed])
        (mapAppend RoutePtr.same acc (router.routeFeeds.targetRoute config feed) feed)
        (by
          rw [hk]
          split
          · simpa [List.map_map, Function.comp_def] using h1
          · rename_i hany
            simp only [Bool.not_eq_true, List.any_eq_false] at hany
            simp only [List.map_append, List.map_map, Function.comp_def, List.map_cons,
              List.map_nil]
            rw [List.nodup_append]
            refine ⟨h1, by simp, ?_⟩
            intro a ha hb
            simp only [List.mem_singleton] at hb
            subst hb
            obtain ⟨e0, he0, hea⟩ := List.mem_map.1 ha
            have := hany e0 he0
            simp [RoutePtr.same, hea] at this)
        (by
          intro f hf
          rw [hk]
          rcases List.mem_append.1 hf with hf | hf
          · have := h2 f hf
            split
            · simpa [List.map_map, Function.comp_def] using this
            · simp only [List.map_append, List.map_map, Function.comp_def, List.mem_append]
              exact Or.inl this
          · simp only [List.mem_singleton] at hf
            subst hf
            split
            · rename_i hany
              rw [List.any_eq_true] at hany
              obtain ⟨e0, he0, hs⟩ := hany
              simp only [RoutePtr.same, decide_eq_true_eq] at hs
              simp only [List.map_map, Function.comp_def]
              exact List.mem_map.2 ⟨e0, he0, hs⟩
            · simp)
        (by
          intro e1 he1
          rcases mapAppend_mem_sharp RoutePtr.same (router.routeFeeds.targetRoute config feed)
              feed acc (RoutePtr.same_pairwise_addr acc _ h1) e1 he1 with
            ⟨hacc, hsame⟩ | ⟨e0, he0, hsame, rfl⟩ | ⟨rfl, hnone⟩
          · simp only [RoutePtr.same, decide_eq_false_iff_not] at hsame
            have hne : ¬ (router.routeFeeds.targetRoute config feed).addr = e1.1.addr :=
              fun h => hsame h.symm
            rw [hsplit, h3 e1 hacc]
            simp [hne]
          · simp only [RoutePtr.same, decide_eq_true_eq] at hsame
            rw [hsplit, h3 e0 he0]
            simp [hsame]
          · rw [hsplit]
            have hdone : done.filter (fun f => decide
                ((router.routeFeeds.targetRoute config f).addr
                  = (router.routeFeeds.targetRoute config feed).addr)) = [] := by
              rw [List.filter_eq_nil_iff]
              intro f hf
              simp only [decide_eq_true_eq]
              intro heq
              obtain ⟨e0, he0, hea⟩ := List.mem_map.1 (h2 f hf)
              have := hnone e0 he0
              simp only [RoutePtr.same, decide_eq_false_iff_not] at this
              exact this (hea.trans heq)
            simp [hdone])
        e he
      simpa only [List.append_assoc, List.singleton_append] using this
  intro e he
  have := key feeds [] [] (by simp) (by simp) (by simp) e (by simpa [router.routeFeeds] using he)
  simpa only [List.nil_append] using this

/-- C12: every group that `Route` returns has `Name` equal to the rule name, followed by
two space characters, followed by the string of the group's labels, and has `Time` equal
to the time of the input result. Its `Labels` are the derived label set of its bucket:
the bucket holds, in batch order, the feeds of the batch that are assigned to one route
and whose derived label sets render to one string, the group lists exactly the feeds of
the bucket, and the `Labels` are the label set that the group-by keys of that route
select from the first feed of the bucket. The derived label set of every feed listed in
the group renders to the string of the group's labels. -/
theorem C12_group_name_time_labels (api : model.LabelsAPI) (sched : Sched)
    (deps : Dependencies) (config : Config) (result : rule.Result) (groups : List Group)
    (err : Option error)
    (h : router.Route api sched deps config result = some (groups, err)) :
    ∀ g ∈ groups,
      g.FeedGroup.Name = result.Rule ++ "  " ++ api.String g.FeedGroup.Labels
      ∧ g.FeedGroup.Time = result.Time
      ∧ (∃ x rest,
          result.Feeds.filter (fun f => decide
              ((router.routeFeeds.targetRoute config f).addr
                  = (router.routeFeeds.targetRoute config x).addr
                ∧ api.String (router.groupFeedsByLabels.group api
                      (router.routeFeeds.targetRoute config f) f)
                  = api.String (router.groupFeedsByLabels.group api
                      (router.routeFeeds.targetRoute config x) x)))
            = x :: rest
          ∧ (Feed.listed g.FeedGroup.Feeds).Perm ((x :: rest).map (fun feed => feed.Feed))
          ∧ g.FeedGroup.Labels
            = router.groupFeedsByLabels.group api (router.routeFeeds.targetRoute config x) x)
      ∧ (∃ x ∈ result.Feeds, x.Feed ∈ Feed.listed g.FeedGroup.Feeds
          ∧ g.FeedGroup.Labels
            = router.groupFeedsByLabels.group api (router.routeFeeds.targetRoute config x) x)
      ∧ ∀ y : block.FeedVO, y.Feed ∈ Feed.listed g.FeedGroup.Feeds →
          api.String
              (router.groupFeedsByLabels.group api (router.routeFeeds.targetRoute config y) y)
            = api.String g.FeedGroup.Labels := by
  intro g hg
  obtain ⟨e, he, b, hb, hgeq, hl⟩ := router.Route_returns api sched deps config result groups err h g hg
  have hname : g.FeedGroup.Name = result.Rule ++ "  " ++ api.String g.FeedGroup.Labels := by
    rw [hgeq]; rfl
  have htime : g.FeedGroup.Time = result.Time := by rw [hgeq]; rfl
  have hlabels : g.FeedGroup.Labels = b.1.val := by rw [hgeq]; rfl
  obtain ⟨hfil, x, rest, hx, hval⟩ := router.groupFeedsByLabels_buckets api e.1 e.2 b hb
  have hxb : x ∈ b.2 := by rw [hx]; exact List.mem_cons_self _ _
  have hxl : x.Feed ∈ Feed.listed g.FeedGroup.Feeds :=
    hl.symm.subset (List.mem_map.2 ⟨x, hxb, rfl⟩)
  have hxe : x ∈ e.2 := by
    rw [hfil] at hxb
    exact (List.mem_filter.1 hxb).1
  have hxin : x ∈ result.Feeds :=
    (router.routeFeeds_spec config result.Feeds).2.2.subset (List.mem_flatMap.2 ⟨e, he, hxe⟩)
  have htx : router.routeFeeds.targetRoute config x = e.1 :=
    (router.Route_returns_feed api config result.Feeds e he b hb _ hl x hxl).1
  have hlab : g.FeedGroup.Labels
      = router.groupFeedsByLabels.group api (router.routeFeeds.targetRoute config x) x := by
    rw [hlabels, hval, htx]
  have hbucket : result.Feeds.filter (fun f => decide
        ((router.routeFeeds.targetRoute config f).addr
            = (router.routeFeeds.targetRoute config x).addr
          ∧ api.String (router.groupFeedsByLabels.group api
                (router.routeFeeds.targetRoute config f) f)
            = api.String (router.groupFeedsByLabels.group api
                (router.routeFeeds.targetRoute config x) x)))
      = b.2 := by
    rw [hfil, router.routeFeeds_entries config result.Feeds e he, List.filter_filter]
    apply List.filter_congr
    intro f _
    by_cases ha : (router.routeFeeds.targetRoute config f).addr = e.1.addr
    · have htf : router.routeFeeds.targetRoute config f = e.1 := by
        rw [← htx]
        exact router.routeFeeds.targetRoute_addr_inj config f x (by rw [ha, htx])
      simp [htf, htx, hval]
    · simp [ha, htx]
  refine ⟨hname, htime, ⟨x, rest, by rw [hbucket, hx], by rw [← hx]; exact hl, hlab⟩,
    ⟨x, hxin, hxl, hlab⟩, ?_⟩
  intro y hy
  obtain ⟨ht, hs⟩ := router.Route_returns_feed api config result.Feeds e he b hb _ hl y hy
  rw [ht, hs, hlabels]

theorem C12_group_name_time_labels_witness :
    router.Route exampleAPI exampleSched (exampleScore 0) (Config.Validate exampleConfig).1
        ⟨"rule", 0, [exampleSourceVO 3 "B", exampleSourceVO 1 "A"]⟩
      = some ([exampleGroupA, exampleGroupB], none)
    ∧ exampleGroupA.FeedGroup.Name
        = "rule" ++ "  " ++ exampleAPI.String exampleGroupA.FeedGroup.Labels
    ∧ exampleGroupA.FeedGroup.Time = 0 :=
  ⟨exampleRoute_sorted,
    (C12_group_name_time_labels exampleAPI exampleSched (exampleScore 0)
      (Config.Validate exampleConfig).1
      ⟨"rule", 0, [exampleSourceVO 3 "B", exampleSourceVO 1 "A"]⟩
      [exampleGroupA, exampleGroupB] none exampleRoute_sorted exampleGroupA
      (List.mem_cons_self _ _)).1,
    (C12_group_name_time_labels exampleAPI exampleSched (exampleScore 0)
      (Config.Validate exampleConfig).1
      ⟨"rule", 0, [exampleSourceVO 3 "B", exampleSourceVO 1 "A"]⟩
      [exampleGroupA, exampleGroupB] none exampleRoute_sorted exampleGroupA
      (List.mem_cons_self _ _)).2.1⟩

theorem C12_group_name_time_labels_counterexample :
    router.Route exampleAPI exampleSched (exampleScore 0) (Config.Validate exampleConfig).1
        ⟨"rule", 0, [exampleSourceVO 3 "B", exampleSourceVO 1 "A"]⟩
      = some ([exampleGroupA, exampleGroupB], none)
    ∧ exampleGroupA.FeedGroup.Name = "rule  source=A,"
    ∧ "rule" ++ " " ++ exampleAPI.String exampleGroupA.FeedGroup.Labels = "rule source=A,"
    ∧ exampleGroupA.FeedGroup.Name
        ≠ "rule" ++ " " ++ exampleAPI.String exampleGroupA.FeedGroup.Labels :=
  ⟨exampleRoute_sorted, rfl, by decide, by decide⟩


/-! ## C11: the names of the groups of one route -/

theorem router.Route.groupsOf_mem (api : model.LabelsAPI) (sched : Sched) (deps : Dependencies)
    (result : rule.Result) (e : RoutePtr × List block.FeedVO) (g : Group)
    (hg : g ∈ router.Route.groupsOf api sched deps result e) :
    ∃ b ∈ router.groupFeedsByLabels api e.1 e.2,
      g = router.Route.group api result e.1
        (b.1, router.compressRelatedFeedsForGroup.out deps e.1 b.2) := by
  simp only [router.Route.groupsOf] at hg
  obtain ⟨entry, hentry, hgeq⟩ := List.mem_map.1 hg
  obtain ⟨b, hb, hbe⟩ := List.mem_map.1 ((sched.relatedGroups.perm _).subset hentry)
  exact ⟨b, (sched.groupedFeeds.perm _).subset hb, by rw [← hgeq, ← hbe]⟩

theorem String.append_right_injective (a : String) :
    Function.Injective (fun (s : String) => a ++ s) := by
  intro s t hst
  have := congrArg String.data hst
  simp only [String.data_append] at this
  exact String.ext (List.append_cancel_left this)

theorem router.Route.groupsOf_names_nodup (api : model.LabelsAPI) (sched : Sched)
    (deps : Dependencies) (result : rule.Result) (e : RoutePtr × List block.FeedVO) :
    ((router.Route.groupsOf api sched deps result e).map Group.Name).Nodup := by
  have hperm : ((router.Route.groupsOf api sched deps result e).map Group.Name).Perm
      (((router.groupFeedsByLabels api e.1 e.2).map (fun b => api.String b.1.val)).map
        (fun s => result.Rule ++ "  " ++ s)) := by
    simp only [router.Route.groupsOf, List.map_map]
    refine ((sched.relatedGroups.perm _).map _).trans ?_
    rw [List.map_map]
    exact (sched.groupedFeeds.perm _).map _
  rw [hperm.nodup_iff]
  exact (router.groupFeedsByLabels_spec api e.1 e.2).2.2.1.map
    (String.append_right_injective (result.Rule ++ "  "))

theorem router.Route_names_by_route (api : model.LabelsAPI) (sched : Sched)
    (deps : Dependencies) (config : Config) (result : rule.Result) (groups : List Group)
    (h : router.Route api sched deps config result = some (groups, none)) :
    groups.Pairwise (fun g1 g2 =>
      ∀ x y : block.FeedVO, x.Feed ∈ Feed.listed g1.FeedGroup.Feeds →
        y.Feed ∈ Feed.listed g2.FeedGroup.Feeds →
        router.routeFeeds.targetRoute config x = router.routeFeeds.targetRoute config y →
        g1.Name ≠ g2.Name) := by
  obtain ⟨hgs, hall⟩ := router.Route_success api sched deps config result groups h
  obtain ⟨haddr, _, _⟩ := router.routeFeeds_spec config result.Feeds
  have hsymm : ∀ {g1 g2 : Group},
      (∀ x y : block.FeedVO, x.Feed ∈ Feed.listed g1.FeedGroup.Feeds →
        y.Feed ∈ Feed.listed g2.FeedGroup.Feeds →
        router.routeFeeds.targetRoute config x = router.routeFeeds.targetRoute config y →
        g1.Name ≠ g2.Name) →
      (∀ x y : block.FeedVO, x.Feed ∈ Feed.listed g2.FeedGroup.Feeds →
        y.Feed ∈ Feed.listed g1.FeedGroup.Feeds →
        router.routeFeeds.targetRoute config x = router.routeFeeds.targetRoute config y →
        g2.Name ≠ g1.Name) := by
    intro g1 g2 hr x y hx hy hxy hn
    exact hr y x hy hx hxy.symm hn.symm
  have howner : ∀ e ∈ router.routeFeeds config result.Feeds,
      ∀ g ∈ router.Route.groupsOf api sched deps result e,
      ∀ x : block.FeedVO, x.Feed ∈ Feed.listed g.FeedGroup.Feeds →
        router.routeFeeds.targetRoute config x = e.1 := by
    intro e he g hg x hx
    obtain ⟨b, hb, hgeq⟩ := router.Route.groupsOf_mem api sched deps result e g hg
    have hl := (router.compressRelatedFeedsForGroup.success deps e.1 b.2 _ (hall e he b hb)).2
    have hx1 : x.Feed ∈ Feed.listed (router.compressRelatedFeedsForGroup.out deps e.1 b.2) := by
      rw [hgeq] at hx
      exact hx
    exact (router.Route_returns_feed api config result.Feeds e he b hb _ hl x hx1).1
  rw [hgs]
  refine ((sort.Slice_perm _ _ _).pairwise_iff (fun hr => hsymm hr)).2 ?_
  rw [List.pairwise_flatMap]
  refine ⟨?_, ?_⟩
  · intro e _
    have hnd := router.Route.groupsOf_names_nodup api sched deps result e
    rw [List.Nodup, List.pairwise_map] at hnd
    exact hnd.imp (fun hne _ _ _ _ _ => hne)
  · have hpw : (router.routeFeeds config result.Feeds).Pairwise
        (fun e1 e2 => e1.1.addr ≠ e2.1.addr) := by
      rw [List.Nodup, List.pairwise_map] at haddr
      exact haddr
    have hpw1 := ((sched.feedsByRoute.perm (router.routeFeeds config result.Feeds)).pairwise_iff
      (fun hne => Ne.symm hne)).2 hpw
    have hmem : ∀ e ∈ sched.feedsByRoute.order (router.routeFeeds config result.Feeds),
        e ∈ router.routeFeeds config result.Feeds :=
      fun e he => (sched.feedsByRoute.perm _).subset he
    refine ((List.Pairwise.and_mem.1 hpw1).imp ?_)
    rintro e1 e2 ⟨he1, he2, hne⟩ g1 hg1 g2 hg2 x y hx hy hxy
    exfalso
    apply hne
    rw [← howner e1 (hmem e1 he1) g1 hg1 x hx, ← howner e2 (hmem e2 he2) g2 hg2 y hy, hxy]

/-- C11: in the list that a successful `Route` returns, no two distinct groups whose
feeds belong to the same route have the same `Name`; every returned group lists a feed
of the batch, so each group has an owning route; and for a configuration without
sub-routes no two distinct groups have the same `Name`. -/
theorem C11_group_names_unique_per_route (api : model.LabelsAPI) (sched : Sched)
    (deps : Dependencies) (config : Config) (result : rule.Result) (groups : List Group)
    (h : router.Route api sched deps config result = some (groups, none)) :
    (∀ (i j : Nat) (gi gj : Group), i ≠ j → groups[i]? = some gi → groups[j]? = some gj →
      ∀ x y : block.FeedVO, x.Feed ∈ Feed.listed gi.FeedGroup.Feeds →
        y.Feed ∈ Feed.listed gj.FeedGroup.Feeds →
        router.routeFeeds.targetRoute config x = router.routeFeeds.targetRoute config y →
        gi.Name ≠ gj.Name)
    ∧ (∀ g ∈ groups, ∃ x ∈ result.Feeds, x.Feed ∈ Feed.listed g.FeedGroup.Feeds)
    ∧ (config.Route.SubRoutes = [] →
        ∀ (i j : Nat) (gi gj : Group), i ≠ j → groups[i]? = some gi → groups[j]? = some gj →
          gi.Name ≠ gj.Name) := by
  have hpw := router.Route_names_by_route api sched deps config result groups h
  rw [List.pairwise_iff_getElem] at hpw
  have hidx : ∀ (i j : Nat) (gi gj : Group), i ≠ j → groups[i]? = some gi →
      groups[j]? = some gj →
      ∀ x y : block.FeedVO, x.Feed ∈ Feed.listed gi.FeedGroup.Feeds →
        y.Feed ∈ Feed.listed gj.FeedGroup.Feeds →
        router.routeFeeds.targetRoute config x = router.routeFeeds.targetRoute config y →
        gi.Name ≠ gj.Name := by
    intro i j gi gj hij hi hj x y hx hy hxy
    obtain ⟨hil, hie⟩ := List.getElem?_eq_some_iff.1 hi
    obtain ⟨hjl, hje⟩ := List.getElem?_eq_some_iff.1 hj
    rcases Nat.lt_or_gt_of_ne hij with hlt | hgt
    · have := hpw i j hil hjl hlt x y (by rw [hie]; exact hx) (by rw [hje]; exact hy) hxy
      rw [hie, hje] at this
      exact this
    · have := hpw j i hjl hil hgt y x (by rw [hje]; exact hy) (by rw [hie]; exact hx) hxy.symm
      rw [hie, hje] at this
      exact this.symm
  have hfeed : ∀ g ∈ groups, ∃ x ∈ result.Feeds, x.Feed ∈ Feed.listed g.FeedGroup.Feeds := by
    intro g hg
    obtain ⟨e, he, b, hb, _, hl⟩ :=
      router.Route_returns api sched deps config result groups none h g hg
    obtain ⟨hfil, x, rest, hx, _⟩ := router.groupFeedsByLabels_buckets api e.1 e.2 b hb
    have hxb : x ∈ b.2 := by rw [hx]; exact List.mem_cons_self _ _
    have hxe : x ∈ e.2 := by
      rw [hfil] at hxb
      exact (List.mem_filter.1 hxb).1
    exact ⟨x, (router.routeFeeds_spec config result.Feeds).2.2.subset
      (List.mem_flatMap.2 ⟨e, he, hxe⟩), hl.symm.subset (List.mem_map.2 ⟨x, hxb, rfl⟩)⟩
  refine ⟨hidx, hfeed, ?_⟩
  intro hsub i j gi gj hij hi hj
  obtain ⟨x, _, hx⟩ := hfeed gi (List.getElem?_mem hi)
  obtain ⟨y, _, hy⟩ := hfeed gj (List.getElem?_mem hj)
  refine hidx i j gi gj hij hi hj x y hx hy ?_
  simp only [router.routeFeeds.targetRoute, SubRoutes.Match, hsub, SubRoutes.Match.loop]


theorem exampleRoute_default :
    router.Route exampleAPI exampleSched (exampleScore 0) (Config.Validate exampleConfig).1
        ⟨"rule", 0, [exampleSourceVO 1 "A", exampleSourceVO 4 "C"]⟩
      = some ([exampleGroupA, exampleGroupC], none) := by
  have h1 : router.Route.loop exampleAPI exampleSched (exampleScore 0)
      ⟨"rule", 0, [exampleSourceVO 1 "A", exampleSourceVO 4 "C"]⟩
      (exampleSched.feedsByRoute.order (router.routeFeeds (Config.Validate exampleConfig).1
        [exampleSourceVO 1 "A", exampleSourceVO 4 "C"])) []
      = some (.ok [exampleGroupA, exampleGroupC]) := rfl
  unfold router.Route
  simp only [h1]
  simp [sort.Slice, exampleSched, sort.Slice.insert, Group.Name, exampleGroupA, exampleGroupC]
  decide

theorem exampleRoute_same_name :
    router.Route exampleAPI exampleSched (exampleScore 0) (Config.Validate exampleConfigTeam).1
        ⟨"rule", 0, [⟨⟨1, [⟨"source", "A"⟩]⟩, [[1, 0]]⟩,
          ⟨⟨2, [⟨"source", "A"⟩, ⟨"team", "x"⟩]⟩, [[1, 0]]⟩]⟩
      = some ([exampleGroupTeam, exampleGroupDefault], none) := by
  have h1 : router.Route.loop exampleAPI exampleSched (exampleScore 0)
      ⟨"rule", 0, [⟨⟨1, [⟨"source", "A"⟩]⟩, [[1, 0]]⟩,
          ⟨⟨2, [⟨"source", "A"⟩, ⟨"team", "x"⟩]⟩, [[1, 0]]⟩]⟩
      (exampleSched.feedsByRoute.order (router.routeFeeds (Config.Validate exampleConfigTeam).1
        [⟨⟨1, [⟨"source", "A"⟩]⟩, [[1, 0]]⟩,
          ⟨⟨2, [⟨"source", "A"⟩, ⟨"team", "x"⟩]⟩, [[1, 0]]⟩])) []
      = some (.ok [exampleGroupDefault, exampleGroupTeam]) := rfl
  unfold router.Route
  simp only [h1]
  simp [sort.Slice, exampleSched, sort.Slice.insert, Group.Name, exampleGroupDefault,
    exampleGroupTeam]

theorem C11_group_names_unique_per_route_witness :
    router.Route exampleAPI exampleSched (exampleScore 0) (Config.Validate exampleConfig).1
        ⟨"rule", 0, [exampleSourceVO 1 "A", exampleSourceVO 4 "C"]⟩
      = some ([exampleGroupA, exampleGroupC], none)
    ∧ router.routeFeeds.targetRoute (Config.Validate exampleConfig).1 (exampleSourceVO 1 "A")
        = router.routeFeeds.targetRoute (Config.Validate exampleConfig).1 (exampleSourceVO 4 "C")
    ∧ exampleGroupA.Name ≠ exampleGroupC.Name :=
  ⟨exampleRoute_default, rfl,
    (C11_group_names_unique_per_route exampleAPI exampleSched (exampleScore 0)
      (Config.Validate exampleConfig).1
      ⟨"rule", 0, [exampleSourceVO 1 "A", exampleSourceVO 4 "C"]⟩
      [exampleGroupA, exampleGroupC] exampleRoute_default).1 0 1 exampleGroupA exampleGroupC
      (by decide) rfl rfl (exampleSourceVO 1 "A") (exampleSourceVO 4 "C")
      (List.mem_cons_self _ _) (List.mem_cons_self _ _) rfl⟩

theorem C11_group_names_unique_per_route_counterexample :
    (Config.Validate exampleConfigTeam).2 = none
    ∧ router.Route exampleAPI exampleSched (exampleScore 0)
        (Config.Validate exampleConfigTeam).1
        ⟨"rule", 0, [⟨⟨1, [⟨"source", "A"⟩]⟩, [[1, 0]]⟩,
          ⟨⟨2, [⟨"source", "A"⟩, ⟨"team", "x"⟩]⟩, [[1, 0]]⟩]⟩
      = some ([exampleGroupTeam, exampleGroupDefault], none)
    ∧ exampleGroupTeam ≠ exampleGroupDefault
    ∧ exampleGroupTeam.Name = exampleGroupDefault.Name :=
  ⟨rfl, exampleRoute_same_name,
    fun heq => absurd (congrArg Group.Receivers heq) (by decide), rfl⟩


/-! ## C14: the partition of the feeds of one route -/

theorem router.groupFeedsByLabels.group_eq_of_values (api : model.LabelsAPI) (route : RoutePtr)
    (x y : block.FeedVO)
    (h : ∀ key ∈ route.val.GroupBy,
      model.Labels.Get x.Feed.Labels key = model.Labels.Get y.Feed.Labels key) :
    router.groupFeedsByLabels.group api route x = router.groupFeedsByLabels.group api route y := by
  have hfold : ∀ (keys : List String) (init : model.Labels),
      (∀ key ∈ keys,
        model.Labels.Get x.Feed.Labels key = model.Labels.Get y.Feed.Labels key) →
      keys.foldl
          (fun group key => api.Put group key (model.Labels.Get x.Feed.Labels key) true) init
        = keys.foldl
          (fun group key => api.Put group key (model.Labels.Get y.Feed.Labels key) true)
          init := by
    intro keys
    induction keys with
    | nil => intro _ _; rfl
    | cons key rest ih =>
      intro init hk
      simp only [List.foldl_cons]
      rw [hk key (List.mem_cons_self _ _)]
      exact ih _ (fun k hkr => hk k (List.mem_cons_of_mem _ hkr))
  exact hfold _ _ h

/-- C14: `groupFeedsByLabels` partitions the feeds of one route. The buckets together
hold the input feeds, each feed is in exactly one bucket, and every bucket holds, in
input order, exactly the feeds whose derived label set renders to the string of the
bucket's labels. Two feeds are in the same bucket if and only if their derived label
sets render to the same string; two feeds with equal values for every group-by key,
where a missing label counts as the empty string, are in the same bucket. -/
theorem C14_groupFeedsByLabels_partitions (api : model.LabelsAPI) (route : RoutePtr)
    (feeds : List block.FeedVO) :
    ((router.groupFeedsByLabels api route feeds).flatMap Prod.snd).Perm feeds
    ∧ (∀ f ∈ feeds, ∃ b ∈ router.groupFeedsByLabels api route feeds,
        f ∈ b.2 ∧ ∀ c ∈ router.groupFeedsByLabels api route feeds, f ∈ c.2 → c = b)
    ∧ (∀ b ∈ router.groupFeedsByLabels api route feeds,
        b.2 = feeds.filter (fun f =>
          decide (api.String (router.groupFeedsByLabels.group api route f)
            = api.String b.1.val))
        ∧ b.2.Sublist feeds)
    ∧ (∀ x ∈ feeds, ∀ y ∈ feeds,
        (∃ b ∈ router.groupFeedsByLabels api route feeds, x ∈ b.2 ∧ y ∈ b.2)
          ↔ api.String (router.groupFeedsByLabels.group api route x)
              = api.String (router.groupFeedsByLabels.group api route y))
    ∧ (∀ x ∈ feeds, ∀ y ∈ feeds,
        (∀ key ∈ route.val.GroupBy,
          model.Labels.Get x.Feed.Labels key = model.Labels.Get y.Feed.Labels key) →
        ∃ b ∈ router.groupFeedsByLabels api route feeds, x ∈ b.2 ∧ y ∈ b.2) := by
  obtain ⟨hperm, _, hstr, _⟩ := router.groupFeedsByLabels_spec api route feeds
  have hfil := router.groupFeedsByLabels_buckets api route feeds
  have hin : ∀ b ∈ router.groupFeedsByLabels api route feeds, ∀ f, f ∈ b.2 ↔
      f ∈ feeds ∧ api.String (router.groupFeedsByLabels.group api route f)
        = api.String b.1.val := by
    intro b hb f
    rw [(hfil b hb).1, List.mem_filter, decide_eq_true_eq]
  have hex : ∀ f ∈ feeds, ∃ b ∈ router.groupFeedsByLabels api route feeds, f ∈ b.2 := by
    intro f hf
    obtain ⟨b, hb, hfb⟩ := List.mem_flatMap.1 (hperm.symm.subset hf)
    exact ⟨b, hb, hfb⟩
  have hiff : ∀ x ∈ feeds, ∀ y ∈ feeds,
      (∃ b ∈ router.groupFeedsByLabels api route feeds, x ∈ b.2 ∧ y ∈ b.2)
        ↔ api.String (router.groupFeedsByLabels.group api route x)
            = api.String (router.groupFeedsByLabels.group api route y) := by
    intro x hx y hy
    constructor
    · rintro ⟨b, hb, hxb, hyb⟩
      rw [((hin b hb x).1 hxb).2, ((hin b hb y).1 hyb).2]
    · intro hxy
      obtain ⟨b, hb, hxb⟩ := hex x hx
      exact ⟨b, hb, hxb, (hin b hb y).2 ⟨hy, by rw [← hxy]; exact ((hin b hb x).1 hxb).2⟩⟩
  refine ⟨hperm, ?_, ?_, hiff, ?_⟩
  · intro f hf
    obtain ⟨b, hb, hfb⟩ := hex f hf
    refine ⟨b, hb, hfb, ?_⟩
    intro c hc hfc
    refine List.inj_on_of_nodup_map hstr hc hb ?_
    show api.String c.1.val = api.String b.1.val
    rw [← ((hin c hc f).1 hfc).2, ← ((hin b hb f).1 hfb).2]
  · intro b hb
    refine ⟨(hfil b hb).1, ?_⟩
    rw [(hfil b hb).1]
    exact List.filter_sublist _
  · intro x hx y hy hval
    exact (hiff x hx y hy).2
      (by rw [router.groupFeedsByLabels.group_eq_of_values api route x y hval])

theorem C14_groupFeedsByLabels_partitions_witness :
    model.Labels.Get exampleFeedNoSource.Feed.Labels "source" = ""
    ∧ model.Labels.Get exampleFeedEmptySource.Feed.Labels "source" = ""
    ∧ ∃ b ∈ router.groupFeedsByLabels model.Labels.methods exampleRoute
          [exampleFeedNoSource, exampleFeedEmptySource],
        exampleFeedNoSource ∈ b.2 ∧ exampleFeedEmptySource ∈ b.2 :=
  ⟨rfl, rfl,
    (C14_groupFeedsByLabels_partitions model.Labels.methods exampleRoute
      [exampleFeedNoSource, exampleFeedEmptySource]).2.2.2.2
      exampleFeedNoSource (List.mem_cons_self _ _)
      exampleFeedEmptySource (List.mem_cons_of_mem _ (List.mem_cons_self _ _))
      (by
        intro key hkey
        simp only [exampleRoute, Route.GroupBy, List.mem_singleton] at hkey
        subst hkey
        rfl)⟩

theorem C14_groupFeedsByLabels_partitions_counterexample :
    router.groupFeedsByLabels model.Labels.methods exampleRouteAB
        [exampleFeedLong, exampleFeedShort]
      = [(⟨0, [⟨"a", "1,b=2"⟩, ⟨"b", ""⟩]⟩, [exampleFeedLong, exampleFeedShort])]
    ∧ model.Labels.String
        (router.groupFeedsByLabels.group model.Labels.methods exampleRouteAB exampleFeedLong)
      = "a=1,b=2,b="
    ∧ model.Labels.String
        (router.groupFeedsByLabels.group model.Labels.methods exampleRouteAB exampleFeedShort)
      = "a=1,b=2,b="
    ∧ exampleRouteAB.val.GroupBy = ["a", "b"]
    ∧ model.Labels.Get exampleFeedLong.Feed.Labels "a" = "1,b=2"
    ∧ model.Labels.Get exampleFeedShort.Feed.Labels "a" = "1"
    ∧ model.Labels.Get exampleFeedLong.Feed.Labels "a"
        ≠ model.Labels.Get exampleFeedShort.Feed.Labels "a" :=
  ⟨rfl, rfl, rfl, rfl, rfl, rfl, by decide⟩

end Zenfeed
